import Mathlib

/-!
# libdebugmod: the module registry (`src/src/debug_mod.c`)

A shallow embedding of the run-time registry of debug module configurations.

Memory model.
* A `debug_mod` structure lives at an address (`Addr`); `Mem.heap` gives the
  structure stored at each address.  `saved + i` (element `i` of a caller's
  array starting at `saved`) is the address `saved + i`.
* `Mem.mods` is the static array `mods`; `none` is the `NULL` pointer.  The
  array has `DEBUG_MOD_MAX` elements: an access `mods[j]` with
  `DEBUG_MOD_MAX ≤ j` is outside the object, and an operation that makes
  such an access has no result (`none`).
* Identifier strings are compared with `strcmp`, so an identifier is modelled
  by its characters; `none` is a `NULL` identifier pointer.
* Function pointers (`debug_mod_f`) and streams (`FILE*`) are abstract handles
  (`Nat`); `none` is `NULL`.
* Index variables of type `debug_mod_index_t` (`unsigned char`) are natural
  numbers reduced modulo 256 where they are stored.
* Not modelled: the `restrict` qualifiers, and the formation of the pointer
  `mods + sizeof(mods)` itself (only a read or write through a pointer outside
  `mods` counts as an access outside the array).
-/

namespace DebugMod

/-- Address of a `debug_mod` structure. -/
abbrev Addr := Nat

/-- The `struct debug_mod` of `debug_mod.h`. -/
structure debug_mod where
  /-- Setup function to decide and prepare each debug output -/
  func : Option Nat
  /-- The actual stream handle to use for output -/
  stream : Option Nat
  /-- Module identifier to register for configuration access -/
  module : Option (List Char)
deriving DecidableEq, Repr

/-- Build-time constants: the macro `DEBUG_MOD_MAX` (length of the array
`mods`, positive as every C array length) and `sizeof(debug_mod*)`. -/
structure Build where
  DEBUG_MOD_MAX : Nat
  ptr_size : Nat
  max_pos : 0 < DEBUG_MOD_MAX
  ptr_pos : 0 < ptr_size

/-- The usual build: `DEBUG_MOD_MAX` left at its default 4, 8-byte pointers. -/
def Build.default : Build := ⟨4, 8, by decide, by decide⟩

/-- The value `sizeof(mods)`: the size of the array in bytes. -/
def sizeof_mods (b : Build) : Nat := b.DEBUG_MOD_MAX * b.ptr_size

/-- The constant `debug_mod_max = sizeof(mods) / sizeof(*mods)`, stored in a
`debug_mod_index_t` (an `unsigned char`). -/
def debug_mod_max (b : Build) : Nat := (sizeof_mods b / b.ptr_size) % 256

/-- The state the registry operations work on. -/
structure Mem where
  /-- The array `mods`: slot `i` holds `NULL` or the address of a structure -/
  mods : Nat → Option Addr
  /-- The structures in memory -/
  heap : Addr → debug_mod

/-- The start of the program: `mods` is `{ NULL }`. -/
def Mem.init (heap : Addr → debug_mod) : Mem := ⟨fun _ => none, heap⟩

/-- Function `debug_mod_copy_config`: `dst->func = src->func;
dst->stream = src->stream;` (the identifier of `dst` stays). -/
def debug_mod_copy_config (dst src : debug_mod) : debug_mod :=
  { dst with func := src.func, stream := src.stream }

/-- A store `p->func = f; p->stream = s` through a pointer `p`. -/
def Mem.set_config (m : Mem) (p : Addr) (f s : Option Nat) : Mem :=
  ⟨m.mods, Function.update m.heap p { m.heap p with func := f, stream := s }⟩

/-- The `for` loop of `debug_mod_register`, entered with a non-`NULL`
identifier `s = dm->module`: `n` iterations remain, `i` is the loop index.
`none`: the loop ran to its end without returning. -/
def register_loop (m : Mem) (dm : Addr) (s : List Char) : Nat → Nat → Option (Mem × Int)
  | 0, _ => none
  | n + 1, i =>
    match m.mods i with
    | none =>
      -- first empty slot: record configuration pointer
      some (⟨Function.update m.mods i (some dm), m.heap⟩, -1)
    | some a =>
      if (m.heap a).module = some s then
        -- already registered: apply previously stored config
        some (⟨Function.update m.mods i (some dm),
               Function.update m.heap dm (debug_mod_copy_config (m.heap dm) (m.heap a))⟩, 1)
      else register_loop m dm s n (i + 1)

/-- The tail of `debug_mod_register`: `dm->func = NULL; return 0;`. -/
def register_fail (m : Mem) (dm : Addr) : Mem × Int :=
  (⟨m.mods, Function.update m.heap dm { m.heap dm with func := none }⟩, 0)

/-- Function `debug_mod_register`, called with a non-`NULL` pointer `dm`. -/
def debug_mod_register (b : Build) (m : Mem) (dm : Addr) : Mem × Int :=
  match (m.heap dm).module with
  | some s =>
    match register_loop m dm s (debug_mod_max b) 0 with
    | some r => r
    | none => register_fail m dm
  | none => register_fail m dm

/-- The loop of `debug_mod_update_config` for a non-`NULL` reference
configuration `dm`: `n` iterations remain, `i` is the loop index. -/
def update_config_loop (dm : debug_mod) : Nat → Nat → Mem → Mem
  | 0, _, m => m
  | n + 1, i, m =>
    match m.mods i with
    | none => m
    | some a =>
      match dm.module with
      | none =>
        update_config_loop dm n (i + 1)
          ⟨m.mods, Function.update m.heap a (debug_mod_copy_config (m.heap a) dm)⟩
      | some x =>
        if (m.heap a).module = some x then
          ⟨m.mods, Function.update m.heap a (debug_mod_copy_config (m.heap a) dm)⟩
        else update_config_loop dm n (i + 1) m

/-- Function `debug_mod_update_config`; `none` is a `NULL` argument. -/
def debug_mod_update_config (b : Build) (m : Mem) (dm : Option debug_mod) : Mem :=
  match dm with
  | none => m
  | some d => update_config_loop d (debug_mod_max b) 0 m

/-- Function `debug_mod_update`. -/
def debug_mod_update (b : Build) (m : Mem) (module : Option (List Char))
    (func stream : Option Nat) : Mem :=
  match func with
  | none => m
  | some f => debug_mod_update_config b m (some ⟨some f, stream, module⟩)

/-- Function `debug_mod_disable`. -/
def debug_mod_disable (b : Build) (m : Mem) (module : Option (List Char)) : Mem :=
  debug_mod_update_config b m (some ⟨none, none, module⟩)

/-- The macro `DEBUG_CONDITION` evaluated in a module whose `_debug_mod` is at
`self`: `DEBUG_MOD_ENABLE && _debug_mod.func && _debug_mod.func(&_debug_mod,
__func__)`.  `call f` is the behaviour of the function behind the handle `f`.
The Boolean tells whether the output statement runs. -/
def DEBUG_CONDITION (enable : Bool) (call : Nat → Mem → Addr → List Char → Mem × Int)
    (m : Mem) (self : Addr) (context : List Char) : Mem × Bool :=
  if enable then
    match (m.heap self).func with
    | none => (m, false)
    | some f => ((call f m self context).1, decide ((call f m self context).2 ≠ 0))
  else (m, false)

/-- The step `if (++i >= size) break;` shared by both loops of the save and
restore functions: `i` is a `debug_mod_index_t`. -/
def next_index (i : Nat) : Nat := (i + 1) % 256

/-- The loop of `debug_mod_save`: `n` iterations remain until `dm` reaches
`mods + sizeof(mods)`, `j` is the position of `dm` in `mods`, `i` the number
of entries written.  Reading `*dm` outside the array gives `none`. -/
def save_loop (b : Build) (saved : Addr) (size : Nat) : Nat → Nat → Nat → Mem → Option (Mem × Nat)
  | 0, _, i, m => some (m, i)
  | n + 1, j, i, m =>
    if j < b.DEBUG_MOD_MAX then
      match m.mods j with
      | none => some (m, i)
      | some a =>
        if next_index i ≥ size then
          some (⟨m.mods, Function.update m.heap (saved + i) (m.heap a)⟩, next_index i)
        else
          save_loop b saved size n (j + 1) (next_index i)
            ⟨m.mods, Function.update m.heap (saved + i) (m.heap a)⟩
    else none

/-- Function `debug_mod_save`. -/
def debug_mod_save (b : Build) (m : Mem) (saved : Addr) (size : Nat) : Option (Mem × Nat) :=
  save_loop b saved size (sizeof_mods b) 0 0 m

/-- The loop of `debug_mod_restore`, with the counters of `save_loop`. -/
def restore_loop (b : Build) (saved : Addr) (size : Nat) : Nat → Nat → Nat → Mem → Option (Mem × Nat)
  | 0, _, i, m => some (m, i)
  | n + 1, j, i, m =>
    if j < b.DEBUG_MOD_MAX then
      match m.mods j with
      | none =>
        -- point slot to the saved stream configuration
        if next_index i ≥ size then
          some (⟨Function.update m.mods j (some (saved + i)), m.heap⟩, next_index i)
        else
          restore_loop b saved size n (j + 1) (next_index i)
            ⟨Function.update m.mods j (some (saved + i)), m.heap⟩
      | some a =>
        if (m.heap a).module ≠ none ∧ (m.heap (saved + i)).module ≠ none
            ∧ (m.heap a).module = (m.heap (saved + i)).module then
          if next_index i ≥ size then
            some (⟨m.mods, Function.update m.heap a
                    (debug_mod_copy_config (m.heap a) (m.heap (saved + i)))⟩, next_index i)
          else
            restore_loop b saved size n (j + 1) (next_index i)
              ⟨m.mods, Function.update m.heap a
                (debug_mod_copy_config (m.heap a) (m.heap (saved + i)))⟩
        else restore_loop b saved size n (j + 1) i m
    else none

/-- Function `debug_mod_restore`. -/
def debug_mod_restore (b : Build) (m : Mem) (saved : Addr) (size : Nat) : Option (Mem × Nat) :=
  restore_loop b saved size (sizeof_mods b) 0 0 m

/-- Registering the structures at the addresses of a list, one call of
`debug_mod_register` after the other; the return values are collected. -/
def register_all (b : Build) : Mem → List Addr → Mem × List Int
  | m, [] => (m, [])
  | m, e :: es =>
    ((register_all b (debug_mod_register b m e).1 es).1,
     (debug_mod_register b m e).2 :: (register_all b (debug_mod_register b m e).1 es).2)

/-- The registry states that calls of `debug_mod_register` produce from the
empty registry, the callers being free to store to the `func` and `stream`
fields of any structure between the calls. -/
inductive Reachable (b : Build) : Mem → Prop
  | init (heap : Addr → debug_mod) : Reachable b (Mem.init heap)
  | register (m : Mem) (dm : Addr) : Reachable b m → Reachable b (debug_mod_register b m dm).1
  | store (m : Mem) (p : Addr) (f s : Option Nat) : Reachable b m → Reachable b (m.set_config p f s)

/-- Slot `k` is occupied by a structure whose identifier differs from `s`:
the loop of `debug_mod_register` passes over it. -/
def Skip (m : Mem) (s : List Char) (k : Nat) : Prop :=
  ∃ a, m.mods k = some a ∧ (m.heap a).module ≠ some s

/-- Well-formedness of the registry: the occupied slots are a prefix of the
first `debug_mod_max` slots, every registered structure has an identifier, and
no identifier is registered in two slots. -/
structure WellFormed (b : Build) (m : Mem) : Prop where
  pre : ∀ i j, j < i → m.mods i ≠ none → m.mods j ≠ none
  bound : ∀ i, debug_mod_max b ≤ i → m.mods i = none
  named : ∀ i a, m.mods i = some a → (m.heap a).module ≠ none
  unique : ∀ i j a a', m.mods i = some a → m.mods j = some a' →
    (m.heap a).module = (m.heap a').module → i = j

/-- Example memory: the structure at address `a` has no function, no stream
and the identifier made of `a + 1` letters `m`. -/
def demo_heap : Addr → debug_mod :=
  fun a => ⟨none, none, some (List.replicate (a + 1) 'm')⟩

/-- Example memory in which the structures at addresses `2 * n` and
`2 * n + 1` carry the same identifier (`n + 1` letters `m`) and different
functions and streams. -/
def twin_heap : Addr → debug_mod :=
  fun a => ⟨some (a + 1), some (a + 7), some (List.replicate (a / 2 + 1) 'm')⟩

/-- Example memory: every structure has the function 1, no stream and the
empty string `""` as identifier. -/
def empty_name_heap : Addr → debug_mod :=
  fun _ => ⟨some 1, none, some []⟩

/-- Example memory: every structure has the function 1, no stream and a
`NULL` identifier. -/
def null_name_heap : Addr → debug_mod :=
  fun _ => ⟨some 1, none, none⟩

/-- Example registry at the default build: the structures at addresses 0
(identifier `m`) and 2 (identifier `mm`) of `twin_heap` are registered, in this
order. -/
def two_registered : Mem :=
  (debug_mod_register Build.default
    (debug_mod_register Build.default (Mem.init twin_heap) 0).1 2).1

/-- The memory after `t` structures have been saved to the array at `saved`:
position `j < t` of the array holds a copy of the structure that slot `j`
references in `m`, everything else is as in `m`. -/
def save_heap (m : Mem) (saved : Nat) (t : Nat) : Nat → debug_mod :=
  fun y =>
    if saved ≤ y ∧ y < saved + t then
      match m.mods (y - saved) with
      | some a => m.heap a
      | none => m.heap y
    else m.heap y

/-- Example registry at the default build, full: the structures at addresses
0 to 3 of `demo_heap` are registered, in this order. -/
def four_registered : Mem :=
  (register_all Build.default (Mem.init demo_heap) [0, 1, 2, 3]).1

/-- Example registry at the default build, full: the structures at addresses
0, 2, 4 and 6 of `twin_heap` (four different identifiers, each with a function
and a stream) are registered, in this order. -/
def four_twins : Mem :=
  (register_all Build.default (Mem.init twin_heap) [0, 2, 4, 6]).1

/-- The registry states that calls of `debug_mod_register`, `debug_mod_update`
and `debug_mod_disable` produce from the empty registry, the callers being
free to store to the `func` and `stream` fields of any structure between the
calls. -/
inductive ReachableDyn (b : Build) : Mem → Prop
  | init (heap : Addr → debug_mod) : ReachableDyn b (Mem.init heap)
  | register (m : Mem) (dm : Addr) :
      ReachableDyn b m → ReachableDyn b (debug_mod_register b m dm).1
  | update (m : Mem) (module : Option (List Char)) (func stream : Option Nat) :
      ReachableDyn b m → ReachableDyn b (debug_mod_update b m module func stream)
  | disable (m : Mem) (module : Option (List Char)) :
      ReachableDyn b m → ReachableDyn b (debug_mod_disable b m module)
  | store (m : Mem) (p : Addr) (f s : Option Nat) :
      ReachableDyn b m → ReachableDyn b (m.set_config p f s)

/-- Example memory: the structures at addresses 0 and 19 have the identifier
`m`, those at addresses 1 and 18 the identifier `mm`. -/
def mirror_heap : Addr → debug_mod :=
  fun a => ⟨some a, none, some (List.replicate (if a < 10 then a + 1 else 20 - a) 'm')⟩

/-- Example registry at the default build: the structures at addresses 0
(identifier `m`) and 1 (identifier `mm`) of `mirror_heap` are registered. -/
def mirror_registry : Mem :=
  (debug_mod_register Build.default
    (debug_mod_register Build.default (Mem.init mirror_heap) 0).1 1).1

/-- Example state at the default build: from `two_registered`, the structure
at address 1 is registered (it has the identifier of slot 0), all modules are
given the function 9 and no stream, and the module `m` is disabled. -/
def reconfigured : Mem :=
  debug_mod_disable Build.default
    (debug_mod_update Build.default
      (debug_mod_register Build.default two_registered 1).1 none (some 9) none)
    (some ['m'])

/-- Function `debug_mod_preinit`; `default_func` is the current value of the
global `debug_mod_default_func`, `stderr` the handle of the standard error
stream. -/
def debug_mod_preinit (b : Build) (default_func : Option Nat) (stderr : Nat) (m : Mem)
    (self : Addr) : Mem :=
  if (debug_mod_register b m self).2 < 0 then
    -- new entry registered
    (debug_mod_register b m self).1.set_config self default_func (some stderr)
  else (debug_mod_register b m self).1

/-! ## The incremental search (`src/src/test_incremental_search.c`)

The search table has `DEBUG_MOD_MAX` elements.  A string is modelled by the
characters before its terminating NUL.  The pointer `cursor` is `none` (`NULL`)
or `some (k, p)`: it points `p` characters behind the start of the identifier
of table element `k`.  The index `mod_index` is a `debug_mod_index_t`; a loop
that does not end has no result (`none`).  Output is not modelled. -/

/-- The `struct search_entry`. -/
structure search_entry where
  /-- Pointer to the original module identifier -/
  id : Option (List Char)
  /-- Identifier string length -/
  len : Nat

/-- The globals `mod_index` and `cursor`. -/
structure search_state where
  mod_index : Nat
  cursor : Option (Nat × Nat)
deriving DecidableEq, Repr

/-- Input character that will restart the search. -/
def search_terminator : Char := '\n'

/-- The character `s[p]` of a string, for `p` up to its length: the
terminating NUL at the end. -/
def char_at (s : List Char) (p : Nat) : Char := s.getD p (Char.ofNat 0)

/-- The test `strncmp(s1, s2, n) == 0`. -/
def strncmp_eq : List Char → List Char → Nat → Bool
  | _, _, 0 => true
  | [], [], _ + 1 => true
  | [], _ :: _, _ + 1 => false
  | _ :: _, [], _ + 1 => false
  | x :: xs, y :: ys, n + 1 => x == y && strncmp_eq xs ys n

/-- The loop of `build_search_table`: `n` iterations remain before the index
has taken every value of its type, `i` is the loop index. -/
def build_loop (b : Build) (m : Mem) :
    Nat → Nat → (Nat → search_entry) → Option (Nat × Nat) →
      Option ((Nat → search_entry) × search_state)
  | 0, _, _, _ => none
  | n + 1, i, t, cursor =>
    if i < b.DEBUG_MOD_MAX then
      match m.mods i with
      | some a =>
        -- valid list entry
        match (m.heap a).module with
        | some s =>
          build_loop b m n (next_index i) (Function.update t i ⟨some s, s.length⟩)
            (match cursor with
             | none => some (i, 0)
             | some p => some p)
        | none => none
      | none =>
        -- invalid entry
        build_loop b m n (next_index i) (Function.update t i ⟨none, 0⟩) cursor
    else some (t, ⟨0, cursor⟩)

/-- Function `build_search_table`, called with the search table `t`. -/
def build_search_table (b : Build) (m : Mem) (t : Nat → search_entry) :
    Option ((Nat → search_entry) × search_state) :=
  build_loop b m 256 0 t none

/-- The `do ... while` loop of `reset_search`: `n` iterations remain before
the index has taken every value of its type, `i` is `mod_index`. -/
def reset_loop (b : Build) (t : Nat → search_entry) : Nat → Nat → Option search_state
  | 0, _ => none
  | n + 1, i =>
    match (t i).id with
    | some _ => some ⟨i, some (i, 0)⟩
    | none =>
      if next_index i < b.DEBUG_MOD_MAX then reset_loop b t n (next_index i)
      else some ⟨next_index i, none⟩

/-- Function `reset_search`. -/
def reset_search (b : Build) (t : Nat → search_entry) : Option search_state :=
  reset_loop b t 256 0

/-- The `while` loop of `incremental_search`: `n` iterations remain before
the index has taken every value of its type, `i` is `mod_index`. -/
def search_loop (b : Build) (t : Nat → search_entry) (c : Char) (old_id : List Char)
    (progress : Nat) : Nat → Nat → Option search_state
  | 0, _ => none
  | n + 1, i =>
    if next_index i < b.DEBUG_MOD_MAX then
      match (t (next_index i)).id with
      | none => search_loop b t c old_id progress n (next_index i)
      | some id =>
        if (t (next_index i)).len < progress then
          search_loop b t c old_id progress n (next_index i)
        else if c ≠ char_at id progress then
          search_loop b t c old_id progress n (next_index i)
        else if strncmp_eq old_id id progress = false then
          search_loop b t c old_id progress n (next_index i)
        else some ⟨next_index i, some (next_index i, progress + 1)⟩
    else some ⟨next_index i, none⟩

/-- Function `incremental_search`.  The difference
`cursor - search_table[mod_index].id` is defined when `cursor` points into that
identifier. -/
def incremental_search (b : Build) (t : Nat → search_entry) (st : search_state) (c : Char) :
    Option search_state :=
  match st.cursor with
  | none => none
  | some (k, progress) =>
    if k = st.mod_index then
      match (t st.mod_index).id with
      | none => none
      | some id =>
        if progress < (t st.mod_index).len ∧ c = char_at id progress then
          some ⟨st.mod_index, some (k, progress + 1)⟩
        else search_loop b t c id progress 256 st.mod_index
    else none

/-- One round of the `while` loop of `main` for the input character `c`,
without the output and without the store to the stream of the matched module:
the terminator restarts the search, any other character is fed to the search
while `cursor` is not `NULL`. -/
def driver_step (b : Build) (t : Nat → search_entry) (st : search_state) (c : Char) :
    Option search_state :=
  if c = search_terminator then reset_search b t
  else
    match st.cursor with
    | some _ => incremental_search b t st c
    | none => some st

/-- The rounds of the `while` loop of `main` for the input characters of a
list. -/
def driver_run (b : Build) (t : Nat → search_entry) : search_state → List Char →
    Option search_state
  | st, [] => some st
  | st, c :: cs =>
    match driver_step b t st c with
    | some st' => driver_run b t st' cs
    | none => none

/-- The build of the search test: eight slots. -/
def Build.search : Build := ⟨8, 8, by decide, by decide⟩

/-- The memory of the search test: the array `dm` of `main` at address 0. -/
def search_heap : Addr → debug_mod :=
  fun a => ⟨none, none,
    (["foo", "bar", "frobnicate", "frog", "fa", "far", "foofoo", "farfalle"].map
      String.toList)[a]?⟩

/-- The registry of the search test after the register calls of `main`. -/
def search_registry : Mem :=
  (register_all Build.search (Mem.init search_heap) [0, 1, 2, 3, 4, 5, 6, 7]).1

/-- The search table of the search test, built from the registry (the static
table starts zeroed). -/
def search_demo_table : Nat → search_entry :=
  match build_search_table Build.search search_registry (fun _ => ⟨none, 0⟩) with
  | some r => r.1
  | none => fun _ => ⟨none, 0⟩

/-- Table element `i` is occupied and its identifier starts with `s`. -/
def Matches (t : Nat → search_entry) (i : Nat) (s : List Char) : Prop :=
  ∃ id, (t i).id = some id ∧ s <+: id

/-- The lengths recorded in the search table are the lengths of the
identifiers. -/
def TableOk (b : Build) (t : Nat → search_entry) : Prop :=
  ∀ i, i < b.DEBUG_MOD_MAX → ∀ id, (t i).id = some id → (t i).len = id.length

/-- The search state reports the first prefix match for the input `s`: either
`mod_index` is the least index of a table element whose identifier starts with
`s` and `cursor` points `|s|` characters into that identifier, or no element of
the table starts with `s` and `cursor` is `NULL`. -/
def FirstMatch (b : Build) (t : Nat → search_entry) (s : List Char) (st : search_state) : Prop :=
  (∃ i, i < b.DEBUG_MOD_MAX ∧ Matches t i s ∧ (∀ j, j < i → ¬ Matches t j s) ∧
    st = ⟨i, some (i, s.length)⟩) ∨
  (st.cursor = none ∧ ∀ i, i < b.DEBUG_MOD_MAX → ¬ Matches t i s)

/-- Function `debug_mod_init` when function handles may be the address of
`debug_mod_init` itself (`init_handle`, the value the macro `DEBUG_MOD_INIT`
stores in `func`): the call `self->func(self, context)` through that handle is
a nested call of `debug_mod_init`, `user f` is the behaviour of any other
function.  The first argument bounds the depth of the nested calls; `none`: the
calls nest deeper. -/
def debug_mod_init_nested (b : Build) (init_handle : Nat)
    (user : Nat → Mem → Addr → List Char → Mem × Int) (default_func : Option Nat)
    (stderr : Nat) : Nat → Mem → Addr → List Char → Option (Mem × Int)
  | 0, _, _, _ => none
  | n + 1, m, self, context =>
    match ((debug_mod_preinit b default_func stderr m self).heap self).func with
    | some f =>
      if f = init_handle then
        debug_mod_init_nested b init_handle user default_func stderr n
          (debug_mod_preinit b default_func stderr m self) self context
      else some (user f (debug_mod_preinit b default_func stderr m self) self context)
    | none => some (debug_mod_preinit b default_func stderr m self, 0)

/-- Example memory: every structure has the identifier `m`, no stream and the
function handle 0. -/
def init_heap : Addr → debug_mod :=
  fun _ => ⟨some 0, none, some ['m']⟩

/-- Example registry at the default build: the structure at address 0 of
`init_heap` has been registered by `debug_mod_register`. -/
def init_registered : Mem :=
  (debug_mod_register Build.default (Mem.init init_heap) 0).1

/-- The test of the feed rule of the specification (section 4.4) on table
element `j`: the element is occupied, its length is at least `progress`, the
first `progress` characters of its identifier equal the first `progress`
characters of the identifier `prev` of the previous candidate, and its
character at index `progress` is `c`. -/
def rule_entry_ok (t : Nat → search_entry) (prev : List Char) (progress : Nat) (c : Char)
    (j : Nat) : Bool :=
  match (t j).id with
  | none => false
  | some id =>
    decide (progress ≤ (t j).len) && decide (id.take progress = prev.take progress)
      && decide (char_at id progress = c)

/-- The feed rule in the words of the specification (section 4.4), for the
candidate `i` with `progress` characters matched and the character `c`: the new
candidate and progress, or `none` for no match.  Continued match: the progress
is below the length of the candidate and `c` is its character at index
`progress`.  Otherwise the table is scanned strictly forward from `i + 1` to
its end for the first element that passes `rule_entry_ok`. -/
def feed_rule (b : Build) (t : Nat → search_entry) (i progress : Nat) (c : Char) :
    Option (Nat × Nat) :=
  match (t i).id with
  | none => none
  | some id =>
    if progress < (t i).len ∧ c = char_at id progress then some (i, progress + 1)
    else
      ((List.range' (i + 1) (b.DEBUG_MOD_MAX - (i + 1))).find?
        (rule_entry_ok t id progress c)).map (fun j => (j, progress + 1))

/-- Example memory: the structures at addresses 0 and 1 have the identifiers
`foo` and `fo`. -/
def short_heap : Addr → debug_mod :=
  fun a => ⟨none, none, ([['f', 'o', 'o'], ['f', 'o']] : List (List Char))[a]?⟩

/-- Example registry at the default build: the structures at addresses 0 and 1
of `short_heap` are registered. -/
def short_registry : Mem :=
  (register_all Build.default (Mem.init short_heap) [0, 1]).1

/-- The search table built from `short_registry`. -/
def short_table : Nat → search_entry :=
  match build_search_table Build.default short_registry (fun _ => ⟨none, 0⟩) with
  | some r => r.1
  | none => fun _ => ⟨none, 0⟩

/-- Example registry at the default build in which a slot references an element
of the caller's array: the structure at address 0 of `twin_heap` (identifier
`m`) is registered in slot 0, and slot 1 references the structure at address 10
(identifier `mmmmmm`), which is element 0 of the array at address 10. -/
def aliased_registry : Mem :=
  ⟨Function.update (debug_mod_register Build.default (Mem.init twin_heap) 0).1.mods 1 (some 10),
   twin_heap⟩

/-! ## Properties of the registry -/

theorem debug_mod_max_eq (b : Build) : debug_mod_max b = b.DEBUG_MOD_MAX % 256 := by
  unfold debug_mod_max sizeof_mods
  rw [Nat.mul_div_cancel _ b.ptr_pos]

theorem debug_mod_max_le (b : Build) : debug_mod_max b ≤ b.DEBUG_MOD_MAX := by
  rw [debug_mod_max_eq]; exact Nat.mod_le _ _

theorem debug_mod_max_lt (b : Build) : debug_mod_max b < 256 := by
  rw [debug_mod_max_eq]; exact Nat.mod_lt _ (by decide)

theorem debug_mod_max_le_sizeof (b : Build) : b.DEBUG_MOD_MAX ≤ sizeof_mods b := by
  unfold sizeof_mods
  exact Nat.le_mul_of_pos_right _ b.ptr_pos

/-- What the loop of `debug_mod_register` does: it either passes over all the
slots it visits, or stops at the first slot that is empty or holds the
identifier `s`. -/
theorem register_loop_cases (m : Mem) (dm : Addr) (s : List Char) :
    ∀ n i, (register_loop m dm s n i = none ∧ ∀ k, i ≤ k → k < i + n → Skip m s k) ∨
      ∃ j, i ≤ j ∧ j < i + n ∧ (∀ k, i ≤ k → k < j → Skip m s k) ∧
        ((m.mods j = none ∧
            register_loop m dm s n i
              = some (⟨Function.update m.mods j (some dm), m.heap⟩, -1)) ∨
         ∃ a, m.mods j = some a ∧ (m.heap a).module = some s ∧
            register_loop m dm s n i
              = some (⟨Function.update m.mods j (some dm),
                  Function.update m.heap dm (debug_mod_copy_config (m.heap dm) (m.heap a))⟩, 1)) := by
  intro n
  induction n with
  | zero =>
    intro i
    left
    exact ⟨rfl, fun k h1 h2 => absurd h2 (by omega)⟩
  | succ n ih =>
    intro i
    cases hmi : m.mods i with
    | none =>
      right
      refine ⟨i, le_refl _, by omega, fun k h1 h2 => absurd h2 (by omega), ?_⟩
      left
      refine ⟨hmi, ?_⟩
      simp [register_loop, hmi]
    | some a =>
      by_cases hs : (m.heap a).module = some s
      · right
        refine ⟨i, le_refl _, by omega, fun k h1 h2 => absurd h2 (by omega), ?_⟩
        right
        refine ⟨a, hmi, hs, ?_⟩
        simp [register_loop, hmi, hs]
      · have hstep : register_loop m dm s (n + 1) i = register_loop m dm s n (i + 1) := by
          simp [register_loop, hmi, hs]
        have hskip : ∀ k, i ≤ k → k < i + 1 → Skip m s k := by
          intro k h1 h2
          have : k = i := by omega
          subst this
          exact ⟨a, hmi, hs⟩
        rcases ih (i + 1) with ⟨hnone, hall⟩ | ⟨j, hij, hjn, hbefore, hres⟩
        · left
          refine ⟨by rw [hstep, hnone], ?_⟩
          intro k h1 h2
          by_cases hk : k < i + 1
          · exact hskip k h1 hk
          · exact hall k (by omega) (by omega)
        · right
          refine ⟨j, by omega, by omega, ?_, ?_⟩
          · intro k h1 h2
            by_cases hk : k < i + 1
            · exact hskip k h1 hk
            · exact hbefore k (by omega) h2
          · rw [hstep]
            exact hres

theorem Skip.occupied {m : Mem} {s : List Char} {k : Nat} (h : Skip m s k) :
    m.mods k ≠ none := by
  rcases h with ⟨a, ha, _⟩
  simp [ha]

theorem Skip.differs {m : Mem} {s : List Char} {k : Nat} {a : Addr} (h : Skip m s k)
    (ha : m.mods k = some a) : (m.heap a).module ≠ some s := by
  rcases h with ⟨a', ha', hne⟩
  rw [ha] at ha'
  cases ha'
  exact hne

/-- The shape of every result of `debug_mod_register`. -/
theorem debug_mod_register_cases (b : Build) (m : Mem) (dm : Addr) :
    debug_mod_register b m dm = register_fail m dm ∨
    ∃ s j, (m.heap dm).module = some s ∧ j < debug_mod_max b ∧ (∀ k, k < j → Skip m s k) ∧
      ((m.mods j = none ∧
          debug_mod_register b m dm
            = (⟨Function.update m.mods j (some dm), m.heap⟩, -1)) ∨
       ∃ a, m.mods j = some a ∧ (m.heap a).module = some s ∧
          debug_mod_register b m dm
            = (⟨Function.update m.mods j (some dm),
                Function.update m.heap dm (debug_mod_copy_config (m.heap dm) (m.heap a))⟩, 1)) := by
  cases hmod : (m.heap dm).module with
  | none => left; simp [debug_mod_register, hmod]
  | some s =>
    rcases register_loop_cases m dm s (debug_mod_max b) 0 with ⟨hnone, _⟩ | ⟨j, _, hj, hbefore, hres⟩
    · left; simp [debug_mod_register, hmod, hnone]
    · right
      refine ⟨s, j, rfl, by omega, fun k hk => hbefore k (Nat.zero_le _) hk, ?_⟩
      rcases hres with ⟨hnone, hres⟩ | ⟨a, ha, hs, hres⟩
      · left; exact ⟨hnone, by simp [debug_mod_register, hmod, hres]⟩
      · right; exact ⟨a, ha, hs, by simp [debug_mod_register, hmod, hres]⟩

/-- The loop stops at the first slot that is empty or holds the identifier. -/
theorem register_loop_first (m : Mem) (dm : Addr) (s : List Char) (n j : Nat) (hj : j < n)
    (hbefore : ∀ k, k < j → Skip m s k) :
    (m.mods j = none →
      register_loop m dm s n 0 = some (⟨Function.update m.mods j (some dm), m.heap⟩, -1)) ∧
    (∀ a, m.mods j = some a → (m.heap a).module = some s →
      register_loop m dm s n 0
        = some (⟨Function.update m.mods j (some dm),
            Function.update m.heap dm (debug_mod_copy_config (m.heap dm) (m.heap a))⟩, 1)) := by
  have hnot : ¬ Skip m s j → ∃ j', j' = j ∧
      ((m.mods j' = none ∧
          register_loop m dm s n 0
            = some (⟨Function.update m.mods j' (some dm), m.heap⟩, -1)) ∨
       ∃ a, m.mods j' = some a ∧ (m.heap a).module = some s ∧
          register_loop m dm s n 0
            = some (⟨Function.update m.mods j' (some dm),
                Function.update m.heap dm (debug_mod_copy_config (m.heap dm) (m.heap a))⟩, 1)) := by
    intro hns
    rcases register_loop_cases m dm s n 0 with ⟨_, hall⟩ | ⟨j', _, _, hb, hres⟩
    · exact absurd (hall j (Nat.zero_le _) (by omega)) hns
    · refine ⟨j', ?_, hres⟩
      rcases Nat.lt_trichotomy j' j with h | h | h
      · exfalso
        have hsk := hbefore j' h
        rcases hres with ⟨h0, _⟩ | ⟨a, ha, hs, _⟩
        · exact hsk.occupied h0
        · exact hsk.differs ha hs
      · exact h
      · exact absurd (hb j (Nat.zero_le _) h) hns
  constructor
  · intro h0
    rcases hnot (fun hsk => hsk.occupied h0) with ⟨j', rfl, hres⟩
    rcases hres with ⟨_, hres⟩ | ⟨a, ha, _, _⟩
    · exact hres
    · rw [h0] at ha; cases ha
  · intro a ha hs
    rcases hnot (fun hsk => hsk.differs ha hs) with ⟨j', rfl, hres⟩
    rcases hres with ⟨h0, _⟩ | ⟨a', ha', _, hres⟩
    · rw [h0] at ha; cases ha
    · rw [ha] at ha'; cases ha'; exact hres

theorem debug_mod_register_new (b : Build) (m : Mem) (dm : Addr) (s : List Char) (j : Nat)
    (hs : (m.heap dm).module = some s) (hj : j < debug_mod_max b)
    (hbefore : ∀ k, k < j → Skip m s k) (h0 : m.mods j = none) :
    debug_mod_register b m dm = (⟨Function.update m.mods j (some dm), m.heap⟩, -1) := by
  simp [debug_mod_register, hs, (register_loop_first m dm s _ j hj hbefore).1 h0]

theorem debug_mod_register_known (b : Build) (m : Mem) (dm : Addr) (s : List Char) (j : Nat)
    (a : Addr) (hs : (m.heap dm).module = some s) (hj : j < debug_mod_max b)
    (hbefore : ∀ k, k < j → Skip m s k) (ha : m.mods j = some a)
    (has : (m.heap a).module = some s) :
    debug_mod_register b m dm
      = (⟨Function.update m.mods j (some dm),
          Function.update m.heap dm (debug_mod_copy_config (m.heap dm) (m.heap a))⟩, 1) := by
  simp [debug_mod_register, hs, (register_loop_first m dm s _ j hj hbefore).2 a ha has]

theorem debug_mod_register_full (b : Build) (m : Mem) (dm : Addr)
    (hall : ∀ s, (m.heap dm).module = some s → ∀ k, k < debug_mod_max b → Skip m s k) :
    debug_mod_register b m dm = register_fail m dm := by
  rcases debug_mod_register_cases b m dm with h | ⟨s, j, hs, hj, _, hres⟩
  · exact h
  · exfalso
    have hsk := hall s hs j hj
    rcases hres with ⟨h0, _⟩ | ⟨a, ha, has, _⟩
    · exact hsk.occupied h0
    · exact hsk.differs ha has

theorem WellFormed.init (b : Build) (heap : Addr → debug_mod) : WellFormed b (Mem.init heap) where
  pre := fun i j _ h => absurd rfl h
  bound := fun i _ => rfl
  named := fun i a h => by simp [Mem.init] at h
  unique := fun i j a a' h => by simp [Mem.init] at h

/-- Stores that leave every identifier in place keep the registry well formed. -/
theorem WellFormed.same_idents {b : Build} {m : Mem} (wf : WellFormed b m)
    (heap' : Addr → debug_mod) (hid : ∀ x, (heap' x).module = (m.heap x).module) :
    WellFormed b ⟨m.mods, heap'⟩ where
  pre := wf.pre
  bound := wf.bound
  named := fun i a h => by
    show (heap' a).module ≠ none
    rw [hid]; exact wf.named i a h
  unique := fun i j a a' h h' he => by
    simp only [hid] at he
    exact wf.unique i j a a' h h' he

/-- Claiming the first empty slot for a new identifier keeps the registry well
formed. -/
theorem WellFormed.claim {b : Build} {m : Mem} (wf : WellFormed b m) (dm : Addr)
    (s : List Char) (j : Nat) (hs : (m.heap dm).module = some s) (hj : j < debug_mod_max b)
    (hbefore : ∀ k, k < j → Skip m s k) (h0 : m.mods j = none) :
    WellFormed b ⟨Function.update m.mods j (some dm), m.heap⟩ where
  pre := by
    intro i i' hlt hi
    show Function.update m.mods j (some dm) i' ≠ none
    by_cases hi'j : i' = j
    · subst hi'j; simp
    · rw [Function.update_noteq hi'j]
      by_cases hij : i = j
      · subst hij; exact (hbefore i' hlt).occupied
      · have hi2 : m.mods i ≠ none := by
          have := hi
          simp only [Function.update_noteq hij] at this
          exact this
        exact wf.pre i i' hlt hi2
  bound := by
    intro i hi
    show Function.update m.mods j (some dm) i = none
    rw [Function.update_noteq (by omega)]
    exact wf.bound i hi
  named := by
    intro i a hi
    show (m.heap a).module ≠ none
    by_cases hij : i = j
    · subst hij
      simp only [Function.update_same] at hi
      cases hi
      simp [hs]
    · simp only [Function.update_noteq hij] at hi
      exact wf.named i a hi
  unique := by
    have key : ∀ i a', i ≠ j → m.mods i = some a' → (m.heap a').module ≠ some s := by
      intro i a' hij hi
      rcases Nat.lt_or_ge i j with h | h
      · exact (hbefore i h).differs hi
      · exfalso
        exact wf.pre i j (by omega) (by simp [hi]) h0
    intro i i' a a' hi hi' he
    simp only at hi hi' he
    by_cases hij : i = j <;> by_cases hi'j : i' = j
    · omega
    · subst hij
      simp only [Function.update_same, Function.update_noteq hi'j] at hi hi'
      cases hi
      exact absurd (he ▸ hs) (key i' a' hi'j hi')
    · subst hi'j
      simp only [Function.update_same, Function.update_noteq hij] at hi hi'
      cases hi'
      exact absurd (he ▸ hs) (key i a hij hi)
    · simp only [Function.update_noteq hij, Function.update_noteq hi'j] at hi hi'
      exact wf.unique i i' a a' hi hi' he

/-- Repointing a slot to another structure with the same identifier keeps the
registry well formed. -/
theorem WellFormed.repoint {b : Build} {m : Mem} (wf : WellFormed b m) (dm a : Addr) (j : Nat)
    (heap' : Addr → debug_mod) (hid : ∀ x, (heap' x).module = (m.heap x).module)
    (ha : m.mods j = some a) (hs : (m.heap dm).module = (m.heap a).module) :
    WellFormed b ⟨Function.update m.mods j (some dm), heap'⟩ where
  pre := by
    intro i i' hlt hi
    show Function.update m.mods j (some dm) i' ≠ none
    by_cases hi'j : i' = j
    · subst hi'j; simp
    · rw [Function.update_noteq hi'j]
      by_cases hij : i = j
      · subst hij; exact wf.pre i i' hlt (by simp [ha])
      · have hi2 : m.mods i ≠ none := by
          have := hi
          simp only [Function.update_noteq hij] at this
          exact this
        exact wf.pre i i' hlt hi2
  bound := by
    intro i hi
    show Function.update m.mods j (some dm) i = none
    by_cases hij : i = j
    · subst hij
      rw [wf.bound i hi] at ha
      cases ha
    · rw [Function.update_noteq hij]
      exact wf.bound i hi
  named := by
    intro i x hi
    show (heap' x).module ≠ none
    rw [hid]
    by_cases hij : i = j
    · subst hij
      simp only [Function.update_same] at hi
      cases hi
      rw [hs]
      exact wf.named i a ha
    · simp only [Function.update_noteq hij] at hi
      exact wf.named i x hi
  unique := by
    intro i i' x x' hi hi' he
    simp only [hid] at hi hi' he
    by_cases hij : i = j <;> by_cases hi'j : i' = j
    · omega
    · subst hij
      simp only [Function.update_same, Function.update_noteq hi'j] at hi hi'
      cases hi
      exact wf.unique i i' a x' ha hi' (hs ▸ he)
    · subst hi'j
      simp only [Function.update_same, Function.update_noteq hij] at hi hi'
      cases hi'
      exact wf.unique i i' x a hi ha (hs ▸ he)
    · simp only [Function.update_noteq hij, Function.update_noteq hi'j] at hi hi'
      exact wf.unique i i' x x' hi hi' he

theorem copy_config_module (dst src : debug_mod) :
    (debug_mod_copy_config dst src).module = dst.module := rfl

theorem copy_config_func (dst src : debug_mod) :
    (debug_mod_copy_config dst src).func = src.func := rfl

theorem copy_config_stream (dst src : debug_mod) :
    (debug_mod_copy_config dst src).stream = src.stream := rfl

/-- A store to the configuration fields at one address keeps all identifiers. -/
theorem update_heap_module (heap : Addr → debug_mod) (p : Addr) (v : debug_mod)
    (hv : v.module = (heap p).module) (x : Addr) :
    (Function.update heap p v x).module = (heap x).module := by
  by_cases hx : x = p
  · subst hx; simp [hv]
  · rw [Function.update_noteq hx]

theorem WellFormed.register {b : Build} {m : Mem} (wf : WellFormed b m) (dm : Addr) :
    WellFormed b (debug_mod_register b m dm).1 := by
  rcases debug_mod_register_cases b m dm with h | ⟨s, j, hs, hj, hbefore, hres⟩
  · rw [h]
    exact wf.same_idents _ (update_heap_module _ _ _ rfl)
  · rcases hres with ⟨h0, hres⟩ | ⟨a, ha, has, hres⟩
    · rw [hres]
      exact wf.claim dm s j hs hj hbefore h0
    · rw [hres]
      exact wf.repoint dm a j _ (update_heap_module _ _ _ rfl) ha (by rw [hs, has])

theorem WellFormed.store {b : Build} {m : Mem} (wf : WellFormed b m) (p : Addr)
    (f s : Option Nat) : WellFormed b (m.set_config p f s) :=
  wf.same_idents _ (update_heap_module _ _ _ rfl)

/-- Every reachable registry state is well formed. -/
theorem Reachable.wellFormed {b : Build} {m : Mem} (h : Reachable b m) : WellFormed b m := by
  induction h with
  | init heap => exact WellFormed.init b heap
  | register m dm _ ih => exact ih.register dm
  | store m p f s _ ih => exact ih.store p f s

/-- In a well-formed registry the loop of `debug_mod_register` passes over all
slots before the one that holds the identifier. -/
theorem WellFormed.skip_before {b : Build} {m : Mem} (wf : WellFormed b m) {i : Nat} {a : Addr}
    {s : List Char} (ha : m.mods i = some a) (hs : (m.heap a).module = some s) :
    i < debug_mod_max b ∧ ∀ k, k < i → Skip m s k := by
  constructor
  · by_contra hge
    rw [wf.bound i (by omega)] at ha
    cases ha
  · intro k hk
    cases hmk : m.mods k with
    | none => exact absurd hmk (wf.pre i k hk (by simp [ha]))
    | some a' =>
      refine ⟨a', hmk, fun hs' => ?_⟩
      have := wf.unique k i a' a hmk ha (by rw [hs, hs'])
      omega

/-- Registering from a registry whose slots hold the structures of the list
`pre`, in order: new identifiers are appended. -/
theorem register_all_append (b : Build) (heap : Addr → debug_mod) :
    ∀ (es pre : List Addr), pre.length + es.length ≤ debug_mod_max b →
      (∀ e ∈ es, (heap e).module ≠ none) →
      List.Pairwise (fun e e' => (heap e).module ≠ (heap e').module) (pre ++ es) →
      register_all b ⟨fun i => pre[i]?, heap⟩ es
        = (⟨fun i => (pre ++ es)[i]?, heap⟩, List.replicate es.length (-1)) := by
  intro es
  induction es with
  | nil => intro pre _ _ _; simp [register_all]
  | cons e es ih =>
    intro pre hlen hid hpw
    obtain ⟨s, hs⟩ := Option.ne_none_iff_exists'.mp (hid e (List.mem_cons_self _ _))
    have hstep : debug_mod_register b ⟨fun i => pre[i]?, heap⟩ e
        = (⟨fun i => (pre ++ [e])[i]?, heap⟩, -1) := by
      rw [debug_mod_register_new b ⟨fun i => pre[i]?, heap⟩ e s pre.length hs
        (by simp at hlen; omega) ?_ (by simp)]
      · congr 2
        funext i
        by_cases hi : i = pre.length
        · subst hi; simp
        · rw [Function.update_noteq hi]
          rcases Nat.lt_or_ge i pre.length with h | h
          · simp [List.getElem?_append_left h]
          · have h1 : pre.length ≤ i := h
            have h2 : (pre ++ [e]).length ≤ i := by simp; omega
            show pre[i]? = (pre ++ [e])[i]?
            rw [List.getElem?_eq_none h1, List.getElem?_eq_none h2]
      · intro k hk
        refine ⟨pre[k], by simp [hk], fun hcontra => ?_⟩
        have hR := (List.pairwise_append.mp hpw).2.2 pre[k] (List.getElem_mem hk) e
          (List.mem_cons_self _ _)
        exact hR (by simpa [hs] using hcontra)
    have hpw' : List.Pairwise (fun e e' => (heap e).module ≠ (heap e').module)
        ((pre ++ [e]) ++ es) := by simpa using hpw
    have := ih (pre ++ [e]) (by simp at hlen ⊢; omega)
      (fun e' he' => hid e' (List.mem_cons_of_mem _ he')) hpw'
    simp only [register_all, hstep, this]
    simp [List.replicate_succ]

/-- C1. Starting from the empty registry of capacity `N = debug_mod_max`,
registering `N` structures with pairwise distinct non-empty identifiers returns
-1 (newly registered) for every one of them and stores the `k`-th structure in
slot `k-1`; registering one further structure whose identifier differs from all
`N` returns 0 (list full) and leaves every slot of the registry unchanged. -/
theorem register_until_full (b : Build) (heap : Addr → debug_mod) (es : List Addr) (x : Addr)
    (hlen : es.length = debug_mod_max b)
    (hid : ∀ e ∈ es, ∃ s, (heap e).module = some s ∧ s ≠ [])
    (hdistinct : List.Pairwise (fun e e' => (heap e).module ≠ (heap e').module) es)
    (hx : ∀ e ∈ es, (heap x).module ≠ (heap e).module) :
    (register_all b (Mem.init heap) es).2 = List.replicate (debug_mod_max b) (-1) ∧
    (∀ k, (register_all b (Mem.init heap) es).1.mods k = es[k]?) ∧
    (debug_mod_register b (register_all b (Mem.init heap) es).1 x).2 = 0 ∧
    (debug_mod_register b (register_all b (Mem.init heap) es).1 x).1.mods
      = (register_all b (Mem.init heap) es).1.mods := by
  have hall := register_all_append b heap es [] (by simp [hlen])
    (fun e he => by obtain ⟨s, hs, _⟩ := hid e he; simp [hs]) (by simpa using hdistinct)
  have hinit : (⟨fun i => ([] : List Addr)[i]?, heap⟩ : Mem) = Mem.init heap := by
    simp [Mem.init]
  rw [hinit] at hall
  rw [hall]
  show _ ∧ (∀ k, es[k]? = es[k]?) ∧
    (debug_mod_register b ⟨fun i => es[i]?, heap⟩ x).2 = 0 ∧
    (debug_mod_register b ⟨fun i => es[i]?, heap⟩ x).1.mods = fun i => es[i]?
  have hfull : debug_mod_register b ⟨fun i => es[i]?, heap⟩ x
      = register_fail ⟨fun i => es[i]?, heap⟩ x := by
    apply debug_mod_register_full
    intro s hs k hk
    have hk' : k < es.length := by omega
    refine ⟨es[k], by simp [hk'], fun hcontra => ?_⟩
    have hcontra' : (heap es[k]).module = some s := hcontra
    exact hx es[k] (List.getElem_mem hk') (by rw [hs, hcontra'])
  rw [hfull]
  exact ⟨by rw [hlen], fun k => rfl, rfl, rfl⟩

/-- C1, at the default build: the structures at addresses 0 to 3 fill the four
slots and the structure at address 4 is rejected. -/
theorem register_until_full_witness :
    (register_all Build.default (Mem.init demo_heap) [0, 1, 2, 3]).2
        = List.replicate (debug_mod_max Build.default) (-1) ∧
    (∀ k, (register_all Build.default (Mem.init demo_heap) [0, 1, 2, 3]).1.mods k
        = [0, 1, 2, 3][k]?) ∧
    (debug_mod_register Build.default
        (register_all Build.default (Mem.init demo_heap) [0, 1, 2, 3]).1 4).2 = 0 ∧
    (debug_mod_register Build.default
        (register_all Build.default (Mem.init demo_heap) [0, 1, 2, 3]).1 4).1.mods
      = (register_all Build.default (Mem.init demo_heap) [0, 1, 2, 3]).1.mods :=
  register_until_full Build.default demo_heap [0, 1, 2, 3] 4 (by decide)
    (by simp [demo_heap, List.replicate]) (by simp [demo_heap, List.replicate])
    (by simp [demo_heap, List.replicate])

/-- The loop of `debug_mod_update_config` with a `NULL` identifier: the slot
array and all identifiers stay, every structure is either untouched or carries
the new configuration, and the structures of the occupied slots the loop
reaches carry it. -/
theorem update_config_loop_all (d : debug_mod) (hd : d.module = none) :
    ∀ n i m, (update_config_loop d n i m).mods = m.mods ∧
      (∀ x, ((update_config_loop d n i m).heap x).module = (m.heap x).module) ∧
      (∀ x, (update_config_loop d n i m).heap x = m.heap x ∨
        (((update_config_loop d n i m).heap x).func = d.func ∧
         ((update_config_loop d n i m).heap x).stream = d.stream)) ∧
      (∀ k a, i ≤ k → k < i + n → (∀ k', i ≤ k' → k' ≤ k → m.mods k' ≠ none) →
        m.mods k = some a →
        ((update_config_loop d n i m).heap a).func = d.func ∧
        ((update_config_loop d n i m).heap a).stream = d.stream) := by
  intro n
  induction n with
  | zero =>
    intro i m
    refine ⟨rfl, fun _ => rfl, fun _ => Or.inl rfl, ?_⟩
    intro k a h1 h2
    omega
  | succ n ih =>
    intro i m
    cases hmi : m.mods i with
    | none =>
      have hres : update_config_loop d (n + 1) i m = m := by
        simp [update_config_loop, hmi]
      rw [hres]
      refine ⟨rfl, fun _ => rfl, fun _ => Or.inl rfl, ?_⟩
      intro k a h1 _ hocc _
      exact absurd hmi (hocc i (le_refl _) h1)
    | some a =>
      have hres : update_config_loop d (n + 1) i m
          = update_config_loop d n (i + 1)
              ⟨m.mods, Function.update m.heap a (debug_mod_copy_config (m.heap a) d)⟩ := by
        simp [update_config_loop, hmi, hd]
      rw [hres]
      obtain ⟨ih1, ih2, ih3, ih4⟩ := ih (i + 1)
        ⟨m.mods, Function.update m.heap a (debug_mod_copy_config (m.heap a) d)⟩
      have hnew : ∀ x, (Function.update m.heap a (debug_mod_copy_config (m.heap a) d) x = m.heap x)
          ∨ ((Function.update m.heap a (debug_mod_copy_config (m.heap a) d) x).func = d.func ∧
             (Function.update m.heap a (debug_mod_copy_config (m.heap a) d) x).stream
               = d.stream) := by
        intro x
        by_cases hx : x = a
        · right; subst hx; simp [debug_mod_copy_config]
        · left; rw [Function.update_noteq hx]
      refine ⟨ih1, ?_, ?_, ?_⟩
      · intro x
        rw [ih2 x]
        exact update_heap_module m.heap a (debug_mod_copy_config (m.heap a) d) rfl x
      · intro x
        rcases ih3 x with h | h
        · rcases hnew x with h' | h'
          · left; rw [h]; exact h'
          · right; rw [h]; exact h'
        · right; exact h
      · intro k a' h1 h2 hocc hk
        by_cases hki : k = i
        · subst hki
          rw [hmi] at hk
          cases hk
          rcases ih3 a with h | h
          · rw [h]; simp [debug_mod_copy_config]
          · exact h
        · exact ih4 k a' (by omega) (by omega) (fun k' h3 h4 => hocc k' (by omega) h4) hk

/-- What the loop of `debug_mod_update_config` does with an identifier `x`: it
changes nothing, or stores the new configuration in the structure of the first
slot holding `x`, which no empty slot precedes. -/
theorem update_config_loop_cases (d : debug_mod) (x : List Char) (hd : d.module = some x)
    (m : Mem) :
    ∀ n i, (update_config_loop d n i m = m ∧
        ((∀ k, i ≤ k → k < i + n → Skip m x k) ∨
          ∃ j, i ≤ j ∧ (∀ k, i ≤ k → k < j → Skip m x k) ∧ m.mods j = none)) ∨
      ∃ j a, i ≤ j ∧ j < i + n ∧ (∀ k, i ≤ k → k < j → Skip m x k) ∧ m.mods j = some a ∧
        (m.heap a).module = some x ∧
        update_config_loop d n i m
          = ⟨m.mods, Function.update m.heap a (debug_mod_copy_config (m.heap a) d)⟩ := by
  intro n
  induction n with
  | zero =>
    intro i
    left
    exact ⟨rfl, Or.inl (fun k h1 h2 => absurd h2 (by omega))⟩
  | succ n ih =>
    intro i
    cases hmi : m.mods i with
    | none =>
      left
      refine ⟨by simp [update_config_loop, hmi], Or.inr ⟨i, le_refl _, ?_, hmi⟩⟩
      intro k h1 h2
      omega
    | some a =>
      by_cases hs : (m.heap a).module = some x
      · right
        refine ⟨i, a, le_refl _, by omega, fun k h1 h2 => absurd h2 (by omega), hmi, hs, ?_⟩
        simp [update_config_loop, hmi, hd, hs]
      · have hstep : update_config_loop d (n + 1) i m = update_config_loop d n (i + 1) m := by
          simp [update_config_loop, hmi, hd, hs]
        have hskip : ∀ k, i ≤ k → k < i + 1 → Skip m x k := by
          intro k h1 h2
          have : k = i := by omega
          subst this
          exact ⟨a, hmi, hs⟩
        have hext : ∀ j, i + 1 ≤ j → (∀ k, i + 1 ≤ k → k < j → Skip m x k) →
            ∀ k, i ≤ k → k < j → Skip m x k := by
          intro j _ hb k h1 h2
          by_cases hk : k < i + 1
          · exact hskip k h1 hk
          · exact hb k (by omega) h2
        rw [hstep]
        rcases ih (i + 1) with ⟨hsame, hwhy⟩ | ⟨j, a', hij, hjn, hb, hj, hs', hres⟩
        · left
          refine ⟨hsame, ?_⟩
          rcases hwhy with hall | ⟨j, hij, hb, hj⟩
          · left
            intro k h1 h2
            exact hext (i + 1 + n) (by omega) hall k h1 (by omega)
          · right
            exact ⟨j, by omega, hext j hij hb, hj⟩
        · right
          exact ⟨j, a', by omega, by omega, hext j hij hb, hj, hs', hres⟩

/-- An identifier that no slot holds: `debug_mod_update_config` changes
nothing. -/
theorem update_config_loop_unknown (d : debug_mod) (x : List Char) (hd : d.module = some x)
    (m : Mem) (hno : ∀ i a, m.mods i = some a → (m.heap a).module ≠ some x) (n i : Nat) :
    update_config_loop d n i m = m := by
  rcases update_config_loop_cases d x hd m n i with ⟨h, _⟩ | ⟨j, a, _, _, _, hj, hs, _⟩
  · exact h
  · exact absurd hs (hno j a hj)

/-- An identifier held by slot `i` of a well-formed registry: the new
configuration is stored in the structure of that slot, and nowhere else. -/
theorem update_config_loop_known {b : Build} {m : Mem} (wf : WellFormed b m) (d : debug_mod)
    (x : List Char) (hd : d.module = some x) (i : Nat) (a : Addr) (ha : m.mods i = some a)
    (hs : (m.heap a).module = some x) :
    update_config_loop d (debug_mod_max b) 0 m
      = ⟨m.mods, Function.update m.heap a (debug_mod_copy_config (m.heap a) d)⟩ := by
  have hsk := wf.skip_before ha hs
  have hnot : ¬ Skip m x i := fun h => h.differs ha hs
  rcases update_config_loop_cases d x hd m (debug_mod_max b) 0 with
    ⟨_, hwhy⟩ | ⟨j, a', _, _, hb, hj, hs', hres⟩
  · exfalso
    rcases hwhy with hall | ⟨j, _, hb, hj⟩
    · exact hnot (hall i (Nat.zero_le _) (by omega))
    · rcases Nat.lt_trichotomy j i with h | h | h
      · exact (hsk.2 j h).occupied hj
      · subst h; rw [hj] at ha; cases ha
      · exact hnot (hb i (Nat.zero_le _) h)
  · have hji : j = i := wf.unique j i a' a hj ha (by rw [hs, hs'])
    subst hji
    rw [hj] at ha
    cases ha
    exact hres

/-- C2. In every registry state reachable by register calls in which
a structure `e1` with identifier `s` is registered at slot `i`, registering a
different structure `e2` with the same identifier returns 1 (positive: a
previous configuration was taken over); afterwards `e2` has the function and
stream that `e1` had at the call, slot `i` references `e2`, and no other slot
has changed.  (The statement does not need `e2` to differ from `e1`.) -/
theorem register_same_identifier (b : Build) (m : Mem) (hm : Reachable b m) (i : Nat)
    (e1 e2 : Addr) (s : List Char) (h1 : m.mods i = some e1)
    (hs1 : (m.heap e1).module = some s) (hs2 : (m.heap e2).module = some s) :
    (debug_mod_register b m e2).2 = 1 ∧
    ((debug_mod_register b m e2).1.heap e2).func = (m.heap e1).func ∧
    ((debug_mod_register b m e2).1.heap e2).stream = (m.heap e1).stream ∧
    (debug_mod_register b m e2).1.mods i = some e2 ∧
    ∀ k, k ≠ i → (debug_mod_register b m e2).1.mods k = m.mods k := by
  have hsk := hm.wellFormed.skip_before h1 hs1
  rw [debug_mod_register_known b m e2 s i e1 hs2 hsk.1 hsk.2 h1 hs1]
  refine ⟨rfl, by simp [debug_mod_copy_config], by simp [debug_mod_copy_config], by simp, ?_⟩
  intro k hk
  simp [Function.update_noteq hk]

/-- C2, at the default build: address 0 is registered, then address 1 with the
same identifier. -/
theorem register_same_identifier_witness :
    (debug_mod_register Build.default
        (debug_mod_register Build.default (Mem.init twin_heap) 0).1 1).2 = 1 ∧
    ((debug_mod_register Build.default
        (debug_mod_register Build.default (Mem.init twin_heap) 0).1 1).1.heap 1).func
      = ((debug_mod_register Build.default (Mem.init twin_heap) 0).1.heap 0).func ∧
    ((debug_mod_register Build.default
        (debug_mod_register Build.default (Mem.init twin_heap) 0).1 1).1.heap 1).stream
      = ((debug_mod_register Build.default (Mem.init twin_heap) 0).1.heap 0).stream ∧
    (debug_mod_register Build.default
        (debug_mod_register Build.default (Mem.init twin_heap) 0).1 1).1.mods 0 = some 1 ∧
    ∀ k, k ≠ 0 →
      (debug_mod_register Build.default
        (debug_mod_register Build.default (Mem.init twin_heap) 0).1 1).1.mods k
      = (debug_mod_register Build.default (Mem.init twin_heap) 0).1.mods k :=
  register_same_identifier Build.default _ (Reachable.register _ 0 (Reachable.init twin_heap))
    0 0 1 ['m'] rfl rfl rfl

/-- C3. Registering again a structure that a slot already references, in any
registry state reachable by register calls, returns 1 and changes nothing: the
slot array and every structure, this one's identifier, function and stream
included, are as before. -/
theorem register_idempotent (b : Build) (m : Mem) (hm : Reachable b m) (i : Nat) (a : Addr)
    (ha : m.mods i = some a) : debug_mod_register b m a = (m, 1) := by
  obtain ⟨s, hs⟩ := Option.ne_none_iff_exists'.mp (hm.wellFormed.named i a ha)
  have hsk := hm.wellFormed.skip_before ha hs
  rw [debug_mod_register_known b m a s i a hs hsk.1 hsk.2 ha hs]
  have h1 : Function.update m.mods i (some a) = m.mods := by
    rw [← ha]; exact Function.update_eq_self i m.mods
  have h2 : Function.update m.heap a (debug_mod_copy_config (m.heap a) (m.heap a)) = m.heap := by
    have : debug_mod_copy_config (m.heap a) (m.heap a) = m.heap a := rfl
    rw [this]; exact Function.update_eq_self a m.heap
  rw [h1, h2]

/-- C3, at the default build: address 0 is registered twice. -/
theorem register_idempotent_witness :
    debug_mod_register Build.default (debug_mod_register Build.default (Mem.init twin_heap) 0).1 0
      = ((debug_mod_register Build.default (Mem.init twin_heap) 0).1, 1) :=
  register_idempotent Build.default _ (Reachable.register _ 0 (Reachable.init twin_heap)) 0 0 rfl

/-- C10 fails for the empty string: in the empty registry a structure whose
identifier is `""` is registered in slot 0 and the call returns -1. -/
theorem register_empty_identifier :
    (empty_name_heap 0).module = some [] ∧
    (debug_mod_register Build.default (Mem.init empty_name_heap) 0).2 = -1 ∧
    (Mem.init empty_name_heap).mods 0 = none ∧
    (debug_mod_register Build.default (Mem.init empty_name_heap) 0).1.mods 0 = some 0 ∧
    ((debug_mod_register Build.default (Mem.init empty_name_heap) 0).1.heap 0).func = some 1 := by
  refine ⟨rfl, rfl, rfl, rfl, rfl⟩

/-- C10, amended. For every registry state, `debug_mod_register` called with
a structure whose identifier is absent (`NULL`) returns 0, sets that structure's
function to `NULL`, and leaves every slot of the registry unchanged. -/
theorem register_null_identifier (b : Build) (m : Mem) (dm : Addr)
    (h : (m.heap dm).module = none) :
    (debug_mod_register b m dm).2 = 0 ∧
    ((debug_mod_register b m dm).1.heap dm).func = none ∧
    (debug_mod_register b m dm).1.mods = m.mods := by
  simp [debug_mod_register, h, register_fail]

/-- C10 amended, at the default build on a registry holding one structure. -/
theorem register_null_identifier_witness :
    (debug_mod_register Build.default ⟨fun i => if i = 0 then some 5 else none, null_name_heap⟩ 0).2
      = 0 ∧
    ((debug_mod_register Build.default
        ⟨fun i => if i = 0 then some 5 else none, null_name_heap⟩ 0).1.heap 0).func = none ∧
    (debug_mod_register Build.default
        ⟨fun i => if i = 0 then some 5 else none, null_name_heap⟩ 0).1.mods
      = fun i => if i = 0 then some 5 else none :=
  register_null_identifier Build.default ⟨fun i => if i = 0 then some 5 else none, null_name_heap⟩ 0
    rfl

theorem two_registered_reachable : Reachable Build.default two_registered :=
  Reachable.register _ 2 (Reachable.register _ 0 (Reachable.init twin_heap))

/-- C5. In every registry state reachable by register calls, for every present
function `f` and every stream `s`, `debug_mod_update(NULL, f, s)` sets the
function of the structure of every occupied slot to `f` and its stream to `s`,
and changes neither the slot array nor any identifier. -/
theorem update_wildcard (b : Build) (m : Mem) (hm : Reachable b m) (f : Nat) (s : Option Nat) :
    (debug_mod_update b m none (some f) s).mods = m.mods ∧
    (∀ x, ((debug_mod_update b m none (some f) s).heap x).module = (m.heap x).module) ∧
    ∀ i a, m.mods i = some a →
      ((debug_mod_update b m none (some f) s).heap a).func = some f ∧
      ((debug_mod_update b m none (some f) s).heap a).stream = s := by
  have wf := hm.wellFormed
  obtain ⟨h1, h2, _, h4⟩ :=
    update_config_loop_all ⟨some f, s, none⟩ rfl (debug_mod_max b) 0 m
  refine ⟨h1, h2, ?_⟩
  intro i a ha
  have hi : i < debug_mod_max b := by
    by_contra hge
    rw [wf.bound i (by omega)] at ha
    cases ha
  refine h4 i a (Nat.zero_le _) (by omega) ?_ ha
  intro k' _ hk'
  rcases Nat.lt_or_ge k' i with h | h
  · exact wf.pre i k' h (by simp [ha])
  · have : k' = i := by omega
    subst this
    simp [ha]

/-- C5, on the example registry: after `debug_mod_update(NULL, 9, 3)`
the structure in slot 1 has function 9 and stream 3. -/
theorem update_wildcard_witness :
    ((debug_mod_update Build.default two_registered none (some 9) (some 3)).heap 2).func = some 9 ∧
    ((debug_mod_update Build.default two_registered none (some 9) (some 3)).heap 2).stream
      = some 3 :=
  (update_wildcard Build.default two_registered two_registered_reachable 9 (some 3)).2.2 1 2 rfl

/-- C6. In every registry state reachable by register calls, for every
identifier `x`, present function `f` and stream `s`, `debug_mod_update(x, f, s)`
sets function `f` and stream `s` in the structure registered under `x` and
leaves every other structure, the slot array and all identifiers as they were;
when no registered structure has the identifier `x`, nothing changes at all. -/
theorem update_identifier (b : Build) (m : Mem) (hm : Reachable b m) (x : List Char) (f : Nat)
    (s : Option Nat) :
    (∀ i a, m.mods i = some a → (m.heap a).module = some x →
      ((debug_mod_update b m (some x) (some f) s).heap a).func = some f ∧
      ((debug_mod_update b m (some x) (some f) s).heap a).stream = s ∧
      ((debug_mod_update b m (some x) (some f) s).heap a).module = some x ∧
      (∀ y, y ≠ a → (debug_mod_update b m (some x) (some f) s).heap y = m.heap y) ∧
      (debug_mod_update b m (some x) (some f) s).mods = m.mods) ∧
    ((∀ i a, m.mods i = some a → (m.heap a).module ≠ some x) →
      debug_mod_update b m (some x) (some f) s = m) := by
  constructor
  · intro i a ha hs
    have hres : debug_mod_update b m (some x) (some f) s
        = ⟨m.mods, Function.update m.heap a
            (debug_mod_copy_config (m.heap a) ⟨some f, s, some x⟩)⟩ :=
      update_config_loop_known hm.wellFormed ⟨some f, s, some x⟩ x rfl i a ha hs
    rw [hres]
    refine ⟨by simp [debug_mod_copy_config], by simp [debug_mod_copy_config],
      by simp [debug_mod_copy_config, hs], ?_, rfl⟩
    intro y hy
    simp [Function.update_noteq hy]
  · intro hno
    exact update_config_loop_unknown ⟨some f, s, some x⟩ x rfl m hno (debug_mod_max b) 0

/-- C6, on the example registry: `debug_mod_update("mm", 9, 3)` reconfigures
the structure at address 2 and leaves the one at address 0 alone. -/
theorem update_identifier_witness :
    ((debug_mod_update Build.default two_registered (some ['m', 'm']) (some 9) (some 3)).heap 2).func
      = some 9 ∧
    (debug_mod_update Build.default two_registered (some ['m', 'm']) (some 9) (some 3)).heap 0
      = two_registered.heap 0 :=
  ⟨((update_identifier Build.default two_registered two_registered_reachable ['m', 'm'] 9
      (some 3)).1 1 2 rfl rfl).1,
   ((update_identifier Build.default two_registered two_registered_reachable ['m', 'm'] 9
      (some 3)).1 1 2 rfl rfl).2.2.2.1 0 (by decide)⟩

/-- C7. In every registry state reachable by register calls, for every
registered identifier `x`, `debug_mod_disable(x)` leaves the structure
registered under `x` with a `NULL` function, so that `DEBUG_CONDITION`
evaluated on it suppresses the output, while every other structure (function
and stream included) and the slot array are unchanged; `debug_mod_disable(NULL)`
leaves the structure of every occupied slot with a `NULL` function. -/
theorem disable_identifier (b : Build) (m : Mem) (hm : Reachable b m) :
    (∀ x i a, m.mods i = some a → (m.heap a).module = some x →
      ((debug_mod_disable b m (some x)).heap a).func = none ∧
      (∀ enable call context,
        (DEBUG_CONDITION enable call (debug_mod_disable b m (some x)) a context).2 = false) ∧
      (∀ y, y ≠ a → (debug_mod_disable b m (some x)).heap y = m.heap y) ∧
      (debug_mod_disable b m (some x)).mods = m.mods) ∧
    (∀ i a, m.mods i = some a →
      ((debug_mod_disable b m none).heap a).func = none ∧
      (∀ enable call context,
        (DEBUG_CONDITION enable call (debug_mod_disable b m none) a context).2 = false)) := by
  have hcond : ∀ (m' : Mem) (a : Addr), (m'.heap a).func = none →
      ∀ enable call context, (DEBUG_CONDITION enable call m' a context).2 = false := by
    intro m' a h enable call context
    cases enable <;> simp [DEBUG_CONDITION, h]
  constructor
  · intro x i a ha hs
    have hres : debug_mod_disable b m (some x)
        = ⟨m.mods, Function.update m.heap a
            (debug_mod_copy_config (m.heap a) ⟨none, none, some x⟩)⟩ :=
      update_config_loop_known hm.wellFormed ⟨none, none, some x⟩ x rfl i a ha hs
    have hfunc : ((debug_mod_disable b m (some x)).heap a).func = none := by
      rw [hres]; simp [debug_mod_copy_config]
    refine ⟨hfunc, hcond _ a hfunc, ?_, by rw [hres]⟩
    intro y hy
    rw [hres]
    simp [Function.update_noteq hy]
  · intro i a ha
    have wf := hm.wellFormed
    obtain ⟨_, _, _, h4⟩ :=
      update_config_loop_all ⟨none, none, none⟩ rfl (debug_mod_max b) 0 m
    have hi : i < debug_mod_max b := by
      by_contra hge
      rw [wf.bound i (by omega)] at ha
      cases ha
    have hfunc : ((debug_mod_disable b m none).heap a).func = none := by
      refine (h4 i a (Nat.zero_le _) (by omega) ?_ ha).1
      intro k' _ hk'
      rcases Nat.lt_or_ge k' i with h | h
      · exact wf.pre i k' h (by simp [ha])
      · have : k' = i := by omega
        subst this
        simp [ha]
    exact ⟨hfunc, hcond _ a hfunc⟩

/-- C7, on the example registry: `debug_mod_disable("m")` clears the function
of the structure at address 0 and keeps the structure at address 2. -/
theorem disable_identifier_witness :
    ((debug_mod_disable Build.default two_registered (some ['m'])).heap 0).func = none ∧
    (debug_mod_disable Build.default two_registered (some ['m'])).heap 2
      = two_registered.heap 2 :=
  ⟨((disable_identifier Build.default two_registered two_registered_reachable).1
      ['m'] 0 0 rfl rfl).1,
   ((disable_identifier Build.default two_registered two_registered_reachable).1
      ['m'] 0 0 rfl rfl).2.2.1 2 (by decide)⟩

theorem next_index_eq {i : Nat} (h : i + 1 < 256) : next_index i = i + 1 :=
  Nat.mod_eq_of_lt h

theorem save_heap_zero (m : Mem) (saved : Addr) : save_heap m saved 0 = m.heap := by
  funext y
  simp [save_heap]

theorem save_heap_at (m : Mem) (saved t j : Nat) (a : Addr) (hj : j < t)
    (ha : m.mods j = some a) : save_heap m saved t (saved + j) = m.heap a := by
  simp [save_heap, hj, ha]

theorem save_heap_off (m : Mem) (saved t y : Nat)
    (hy : ∀ j, j < t → y ≠ saved + j) : save_heap m saved t y = m.heap y := by
  unfold save_heap
  split
  · rename_i h
    exact absurd (show y = saved + (y - saved) by omega) (hy (y - saved) (by omega))
  · rfl

theorem save_heap_succ (m : Mem) (saved j : Nat) (a : Addr) (ha : m.mods j = some a) :
    Function.update (save_heap m saved j) (saved + j) (m.heap a) = save_heap m saved (j + 1) := by
  funext (y : Nat)
  by_cases hy : y = saved + j
  · subst hy
    rw [Function.update_same, save_heap_at m saved (j + 1) j a (by omega) ha]
  · rw [Function.update_noteq hy]
    unfold save_heap
    by_cases h1 : saved ≤ y ∧ y < saved + j
    · have h2 : saved ≤ y ∧ y < saved + (j + 1) := by omega
      rw [if_pos h1, if_pos h2]
    · have h2 : ¬ (saved ≤ y ∧ y < saved + (j + 1)) := by omega
      rw [if_neg h1, if_neg h2]

/-- The loop of `debug_mod_save` on a registry whose occupied slots are the
first `k`, writing to an array that holds none of the registered structures:
from slot `j` on, with `j` structures saved so far.  The loop stays inside
`mods` when the capacity `c` is at most the array length or an empty slot
exists. -/
theorem save_loop_prefix (b : Build) (m : Mem) (saved k c : Nat)
    (hocc : ∀ i, m.mods i ≠ none ↔ i < k) (hc : c < 256)
    (hguard : c ≤ b.DEBUG_MOD_MAX ∨ k < b.DEBUG_MOD_MAX)
    (hsep : ∀ i (a : Nat), m.mods i = some a → ∀ j, j < c → a ≠ saved + j) :
    ∀ n j, j < c → j ≤ k → min k c ≤ j + n →
      save_loop b saved c n j j ⟨m.mods, save_heap m saved j⟩
        = some (⟨m.mods, save_heap m saved (min k c)⟩, min k c) := by
  intro n
  induction n with
  | zero =>
    intro j hjc hjk hn
    have : min k c = j := by omega
    simp [save_loop, this]
  | succ n ih =>
    intro j hjc hjk hn
    have hjD : j < b.DEBUG_MOD_MAX := by omega
    cases hmj : m.mods j with
    | none =>
      have hkj : ¬ j < k := fun h => ((hocc j).mpr h) hmj
      have : min k c = j := by omega
      simp [save_loop, hjD, hmj, this]
    | some a =>
      have hjk' : j < k := (hocc j).mp (by simp [hmj])
      have hnext : next_index j = j + 1 := next_index_eq (by omega)
      have hval : save_heap m saved j a = m.heap a :=
        save_heap_off m saved j a (fun j' hj' => hsep j a hmj j' (by omega))
      by_cases hlast : j + 1 ≥ c
      · have : min k c = j + 1 := by omega
        simp [save_loop, hjD, hmj, hnext, hlast, hval, this, save_heap_succ m saved j a hmj]
      · have hrec := ih (j + 1) (by omega) (by omega) (by omega)
        simp [save_loop, hjD, hmj, hnext, hlast, hval, save_heap_succ m saved j a hmj, hrec]

/-- The result of `debug_mod_save` when the loop stays inside `mods`. -/
theorem debug_mod_save_prefix (b : Build) (m : Mem) (saved k c : Nat)
    (hocc : ∀ i, m.mods i ≠ none ↔ i < k) (hc1 : 1 ≤ c) (hc : c < 256)
    (hguard : c ≤ b.DEBUG_MOD_MAX ∨ k < b.DEBUG_MOD_MAX)
    (hsep : ∀ i (a : Nat), m.mods i = some a → ∀ j, j < c → a ≠ saved + j) :
    debug_mod_save b m saved c
      = some (⟨m.mods, save_heap m saved (min k c)⟩, min k c) := by
  have h := save_loop_prefix b m saved k c hocc hc hguard hsep (sizeof_mods b) 0 (by omega)
    (Nat.zero_le _) (by have := debug_mod_max_le_sizeof b; omega)
  rw [save_heap_zero] at h
  exact h

theorem aliased_registry_mods (i : Nat) :
    aliased_registry.mods i = if i = 0 then some 0 else if i = 1 then some 10 else none := by
  show Function.update (Function.update (fun _ => none) 0 (some 0)) 1 (some 10) i = _
  by_cases h1 : i = 1
  · subst h1; rfl
  · by_cases h0 : i = 0
    · subst h0; rfl
    · simp [Function.update, h0, h1]

/-- C8 fails when a slot references an element of the array that is saved to.
At the default build the structure at address 0 (identifier `m`) is registered
and `debug_mod_restore(saved, 1)` with the array at address 10 points slot 1 to
`saved[0]` (identifier `mmmmmm`): the occupied slots are exactly 0 and 1.
`debug_mod_save(saved, 2)` then returns 2, but its first store `saved[0] =
*mods[0]` overwrites the structure of slot 1, so a registered structure has
changed, and `saved[1]` holds a copy of the structure of slot 0, not of what
slot 1 referenced before the call. -/
theorem save_overwrites_registered :
    debug_mod_restore Build.default (debug_mod_register Build.default (Mem.init twin_heap) 0).1 10 1
      = some (aliased_registry, 1) ∧
    (∀ i, aliased_registry.mods i ≠ none ↔ i < 2) ∧
    aliased_registry.mods 0 = some 0 ∧
    aliased_registry.mods 1 = some 10 ∧
    2 ≤ debug_mod_max Build.default ∧
    aliased_registry.heap 0 = ⟨some 1, some 7, some ['m']⟩ ∧
    aliased_registry.heap 10 = ⟨some 11, some 17, some ['m', 'm', 'm', 'm', 'm', 'm']⟩ ∧
    (debug_mod_save Build.default aliased_registry 10 2).map (fun r => r.2) = some 2 ∧
    (debug_mod_save Build.default aliased_registry 10 2).map (fun r => r.1.heap 10)
      = some ⟨some 1, some 7, some ['m']⟩ ∧
    (debug_mod_save Build.default aliased_registry 10 2).map (fun r => r.1.heap (10 + 1))
      = some ⟨some 1, some 7, some ['m']⟩ := by
  refine ⟨rfl, ?_, rfl, rfl, by decide, rfl, rfl, rfl, rfl, rfl⟩
  intro i
  rw [aliased_registry_mods]
  by_cases h0 : i = 0
  · simp [h0]
  · by_cases h1 : i = 1
    · simp [h1]
    · simp [h0, h1]; omega

/-- C8, amended.  For every registry state whose occupied slots are exactly the
slots `0..k-1` and every capacity `c` with `1 ≤ c ≤ N`, `debug_mod_save(saved,
c)`, called with an array that holds none of the registered structures, returns
`min k c`; position `j` of the array holds a copy (function, stream,
identifier) of the structure of slot `j` for every `j < min k c`; no
other structure is written, so the positions from `min k c` on and the registered
structures are untouched; and the slot array is unchanged. -/
theorem save_copies_prefix (b : Build) (m : Mem) (saved k c : Nat)
    (hocc : ∀ i, m.mods i ≠ none ↔ i < k) (hc1 : 1 ≤ c) (hcN : c ≤ debug_mod_max b)
    (hsep : ∀ i (a : Nat), m.mods i = some a → ∀ j, j < c → a ≠ saved + j) :
    ∃ m', debug_mod_save b m saved c = some (m', min k c) ∧
      m'.mods = m.mods ∧
      (∀ j a, j < min k c → m.mods j = some a → m'.heap (saved + j) = m.heap a) ∧
      (∀ y : Nat, (∀ j, j < min k c → y ≠ saved + j) → m'.heap y = m.heap y) := by
  have hN := debug_mod_max_lt b
  have hD := debug_mod_max_le b
  refine ⟨⟨m.mods, save_heap m saved (min k c)⟩, ?_, rfl, ?_, ?_⟩
  · exact debug_mod_save_prefix b m saved k c hocc hc1 (by omega) (Or.inl (by omega)) hsep
  · intro j a hj ha
    exact save_heap_at m saved _ j a hj ha
  · intro y hy
    exact save_heap_off m saved _ y hy

theorem two_registered_mods (i : Nat) :
    two_registered.mods i = if i = 0 then some 0 else if i = 1 then some 2 else none := by
  show Function.update (Function.update (fun _ => none) 0 (some 0)) 1 (some 2) i = _
  by_cases h1 : i = 1
  · subst h1; rfl
  · by_cases h0 : i = 0
    · subst h0; rfl
    · simp [Function.update, h0, h1]

/-- C8 amended, on the example registry: two structures are registered, the
array at address 10 has room for three. -/
theorem save_copies_prefix_witness :
    ∃ m', debug_mod_save Build.default two_registered 10 3 = some (m', min 2 3) ∧
      m'.mods = two_registered.mods ∧
      (∀ j a, j < min 2 3 → two_registered.mods j = some a
        → m'.heap (10 + j) = two_registered.heap a) ∧
      (∀ y : Nat, (∀ j, j < min 2 3 → y ≠ 10 + j) → m'.heap y = two_registered.heap y) :=
  save_copies_prefix Build.default two_registered 10 2 3
    (fun i => by
      rw [two_registered_mods]
      by_cases h0 : i = 0
      · simp [h0]
      · by_cases h1 : i = 1
        · simp [h1]
        · simp [h0, h1]; omega)
    (by decide) (by decide)
    (fun i a h j hj => by
      rw [two_registered_mods] at h
      by_cases h0 : i = 0
      · simp [h0] at h; subst h; omega
      · by_cases h1 : i = 1
        · simp [h1] at h; subst h; omega
        · simp [h0, h1] at h)

theorem two_registered_heap : two_registered.heap = twin_heap := rfl

/-- The loop of `debug_mod_restore` with a one-element array whose identifier
`z` no slot holds: the first empty slot `k` is pointed to the array element. -/
theorem restore_loop_unknown (b : Build) (m : Mem) (saved : Addr) (z : List Char) (k : Nat)
    (hk : k < b.DEBUG_MOD_MAX) (hempty : m.mods k = none) (hbefore : ∀ i, i < k → Skip m z i)
    (hz : (m.heap saved).module = some z) :
    ∀ n j, j ≤ k → k < j + n →
      restore_loop b saved 1 n j 0 m
        = some (⟨Function.update m.mods k (some saved), m.heap⟩, 1) := by
  intro n
  induction n with
  | zero => intro j h1 h2; omega
  | succ n ih =>
    intro j h1 h2
    have hjD : j < b.DEBUG_MOD_MAX := by omega
    by_cases hjk : j = k
    · subst hjk
      simp [restore_loop, hjD, hempty, next_index]
    · obtain ⟨a, ha, hne⟩ := hbefore j (by omega)
      have hcond : ¬ ((m.heap a).module ≠ none ∧ (m.heap (saved + 0)).module ≠ none
          ∧ (m.heap a).module = (m.heap (saved + 0)).module) := by
        rintro ⟨_, _, h⟩
        rw [Nat.add_zero, hz] at h
        exact hne h
      have hrec := ih (j + 1) (by omega) (by omega)
      rw [← hrec]
      simp only [restore_loop, hjD, ha, if_true, if_neg hcond]

/-- C9. A configuration restored for an unknown identifier is used by a later
registration.  In every registry state with an empty slot and a one-element
array at `saved` whose identifier `z` is not registered,
`debug_mod_restore(saved, 1)` returns 1 and points the first empty slot `k` to
the array element, changing nothing else; a following `debug_mod_register` of
a structure `e` with identifier `z` returns 1 and leaves `e` with the function
and stream of the array element. -/
theorem restore_then_register (b : Build) (m : Mem) (saved e : Addr) (z : List Char)
    (hex : ∃ k, k < debug_mod_max b ∧ m.mods k = none)
    (hz : (m.heap saved).module = some z)
    (hunreg : ∀ i a, m.mods i = some a → (m.heap a).module ≠ some z)
    (he : (m.heap e).module = some z) :
    ∃ m1 k, debug_mod_restore b m saved 1 = some (m1, 1) ∧
      m.mods k = none ∧ (∀ i, i < k → m.mods i ≠ none) ∧
      m1.mods k = some saved ∧ (∀ i, i ≠ k → m1.mods i = m.mods i) ∧ m1.heap = m.heap ∧
      (debug_mod_register b m1 e).2 = 1 ∧
      ((debug_mod_register b m1 e).1.heap e).func = (m.heap saved).func ∧
      ((debug_mod_register b m1 e).1.heap e).stream = (m.heap saved).stream := by
  classical
  have hex' : ∃ k, m.mods k = none := by
    obtain ⟨k, _, hk⟩ := hex
    exact ⟨k, hk⟩
  have hkN : Nat.find hex' < debug_mod_max b := by
    obtain ⟨k0, hk0, hk0'⟩ := hex
    exact lt_of_le_of_lt (Nat.find_min' hex' hk0') hk0
  have hempty : m.mods (Nat.find hex') = none := Nat.find_spec hex'
  have hocc : ∀ i, i < Nat.find hex' → m.mods i ≠ none := fun i hi => Nat.find_min hex' hi
  generalize Nat.find hex' = k at hkN hempty hocc
  have hbefore : ∀ i, i < k → Skip m z i := by
    intro i hi
    obtain ⟨a, ha⟩ := Option.ne_none_iff_exists'.mp (hocc i hi)
    exact ⟨a, ha, hunreg i a ha⟩
  have hkD : k < b.DEBUG_MOD_MAX := lt_of_lt_of_le hkN (debug_mod_max_le b)
  have hres : debug_mod_restore b m saved 1
      = some (⟨Function.update m.mods k (some saved), m.heap⟩, 1) :=
    restore_loop_unknown b m saved z k hkD hempty hbefore hz (sizeof_mods b) 0 (Nat.zero_le _)
      (by have := debug_mod_max_le_sizeof b; omega)
  have hbefore' : ∀ i, i < k →
      Skip ⟨Function.update m.mods k (some saved), m.heap⟩ z i := by
    intro i hi
    obtain ⟨a, ha, hne⟩ := hbefore i hi
    refine ⟨a, ?_, hne⟩
    show Function.update m.mods k (some saved) i = some a
    rw [Function.update_noteq (by omega)]
    exact ha
  have hreg := debug_mod_register_known b ⟨Function.update m.mods k (some saved), m.heap⟩ e z k
    saved he hkN hbefore' (by simp) hz
  refine ⟨⟨Function.update m.mods k (some saved), m.heap⟩, k, hres, hempty, hocc, by simp, ?_,
    rfl, ?_, ?_, ?_⟩
  · intro i hi
    simp [Function.update_noteq hi]
  · rw [hreg]
  · rw [hreg]; simp [debug_mod_copy_config]
  · rw [hreg]; simp [debug_mod_copy_config]

/-- C9, on the example registry: the array element at address 10 and
the structure at address 11 share an identifier that is not registered. -/
theorem restore_then_register_witness :
    ∃ m1 k, debug_mod_restore Build.default two_registered 10 1 = some (m1, 1) ∧
      two_registered.mods k = none ∧ (∀ i, i < k → two_registered.mods i ≠ none) ∧
      m1.mods k = some 10 ∧ (∀ i, i ≠ k → m1.mods i = two_registered.mods i) ∧
      m1.heap = two_registered.heap ∧
      (debug_mod_register Build.default m1 11).2 = 1 ∧
      ((debug_mod_register Build.default m1 11).1.heap 11).func = (two_registered.heap 10).func ∧
      ((debug_mod_register Build.default m1 11).1.heap 11).stream
        = (two_registered.heap 10).stream :=
  restore_then_register Build.default two_registered 10 11 (List.replicate 6 'm')
    ⟨2, by decide, rfl⟩ rfl
    (fun i a h => by
      rw [two_registered_mods] at h
      rw [two_registered_heap]
      by_cases h0 : i = 0
      · simp [h0] at h; subst h; simp [twin_heap, List.replicate]
      · by_cases h1 : i = 1
        · simp [h1] at h; subst h; simp [twin_heap, List.replicate]
        · simp [h0, h1] at h)
    rfl

/-- The loop of `debug_mod_save` on a registry without an empty slot, called
with a capacity above the array length: after the last slot the loop reads
`mods[DEBUG_MOD_MAX]`. -/
theorem save_loop_overrun (b : Build) (saved c : Nat) (hc : b.DEBUG_MOD_MAX < c)
    (hc256 : c < 256) :
    ∀ n j m, (∀ i, i < b.DEBUG_MOD_MAX → m.mods i ≠ none) → j ≤ b.DEBUG_MOD_MAX →
      b.DEBUG_MOD_MAX < j + n → save_loop b saved c n j j m = none := by
  intro n
  induction n with
  | zero => intro j m _ h1 h2; omega
  | succ n ih =>
    intro j m hfull h1 h2
    by_cases hjD : j < b.DEBUG_MOD_MAX
    · obtain ⟨a, ha⟩ := Option.ne_none_iff_exists'.mp (hfull j hjD)
      have hnext : next_index j = j + 1 := next_index_eq (by omega)
      have hcont : ¬ (j + 1 ≥ c) := by omega
      have hrec := ih (j + 1) ⟨m.mods, Function.update m.heap (saved + j) (m.heap a)⟩
        hfull (by omega) (by omega)
      simp [save_loop, hjD, ha, hnext, hcont, hrec]
    · simp [save_loop, hjD]

/-- C4 fails on a full registry.  With pointers of two or more bytes, whenever
every slot of `mods` is occupied and the capacity `c` exceeds `DEBUG_MOD_MAX`,
the loop of `debug_mod_save` (bounded by `mods + sizeof(mods)`) goes on after
the last slot and reads `mods[DEBUG_MOD_MAX]`, outside the array: the call has
no defined result, so there is no count `n` to restore with. -/
theorem save_overrun_when_full (b : Build) (m : Mem) (saved c : Nat) (hp : 2 ≤ b.ptr_size)
    (hfull : ∀ i, i < b.DEBUG_MOD_MAX → m.mods i ≠ none) (hc : b.DEBUG_MOD_MAX < c)
    (hc256 : c < 256) : debug_mod_save b m saved c = none := by
  apply save_loop_overrun b saved c hc hc256 (sizeof_mods b) 0 m hfull (Nat.zero_le _)
  have h1 : b.DEBUG_MOD_MAX * 2 ≤ sizeof_mods b := Nat.mul_le_mul_left _ hp
  have h2 := b.max_pos
  omega

theorem four_registered_reachable : Reachable Build.default four_registered :=
  Reachable.register _ 3 (Reachable.register _ 2 (Reachable.register _ 1
    (Reachable.register _ 0 (Reachable.init demo_heap))))

/-- C4, the failing call: at the default build (four slots, 8-byte pointers)
the four slots are filled by register calls and `debug_mod_save` is called with
an array of five elements at address 10. -/
theorem save_overrun_when_full_witness :
    debug_mod_save Build.default four_registered 10 5 = none :=
  save_overrun_when_full Build.default four_registered 10 5 (by decide) (by decide) (by decide)
    (by decide)

/-- The loop of `debug_mod_restore` when the first `t` slots hold structures
whose identifiers are those of the array elements, position by position, and
the array holds none of the registered structures: every one of these
structures gets the function and stream of its array element. -/
theorem restore_loop_matched (b : Build) (m : Mem) (wf : WellFormed b m) (saved t : Nat)
    (want : Nat → debug_mod)
    (hocc : ∀ i, i < t → m.mods i ≠ none) (htD : t ≤ b.DEBUG_MOD_MAX) (ht : t < 256)
    (hsep : ∀ i (a : Nat), m.mods i = some a → ∀ j, j < t → a ≠ saved + j) :
    ∀ n j mc, j < t → t ≤ j + n → mc.mods = m.mods →
      (∀ j' a, j' < t → m.mods j' = some a →
        (mc.heap (saved + j')).func = (want j').func ∧
        (mc.heap (saved + j')).stream = (want j').stream ∧
        (mc.heap (saved + j')).module = (m.heap a).module) →
      (∀ j' a, m.mods j' = some a → (mc.heap a).module = (m.heap a).module) →
      (∀ j' a, j' < j → m.mods j' = some a →
        (mc.heap a).func = (want j').func ∧ (mc.heap a).stream = (want j').stream) →
      ∃ m3, restore_loop b saved t n j j mc = some (m3, t) ∧ m3.mods = m.mods ∧
        ∀ j' a, j' < t → m.mods j' = some a →
          (m3.heap a).func = (want j').func ∧ (m3.heap a).stream = (want j').stream := by
  intro n
  induction n with
  | zero => intro j mc h1 h2; omega
  | succ n ih =>
    intro j mc hjt hn hmods hbuf hids hdone
    have hjD : j < b.DEBUG_MOD_MAX := by omega
    obtain ⟨a, ha⟩ := Option.ne_none_iff_exists'.mp (hocc j hjt)
    have ha' : mc.mods j = some a := by rw [hmods]; exact ha
    have hnext : next_index j = j + 1 := next_index_eq (by omega)
    have hcond : (mc.heap a).module ≠ none ∧ (mc.heap (saved + j)).module ≠ none
        ∧ (mc.heap a).module = (mc.heap (saved + j)).module := by
      have h1 := hids j a ha
      have h2 := (hbuf j a hjt ha).2.2
      have h3 := wf.named j a ha
      rw [h1, h2]
      exact ⟨h3, h3, rfl⟩
    have hmods' : (⟨mc.mods, Function.update mc.heap a
        (debug_mod_copy_config (mc.heap a) (mc.heap (saved + j)))⟩ : Mem).mods = m.mods := hmods
    have hbuf' : ∀ j' a', j' < t → m.mods j' = some a' →
        (Function.update mc.heap a (debug_mod_copy_config (mc.heap a) (mc.heap (saved + j)))
          (saved + j')).func = (want j').func ∧
        (Function.update mc.heap a (debug_mod_copy_config (mc.heap a) (mc.heap (saved + j)))
          (saved + j')).stream = (want j').stream ∧
        (Function.update mc.heap a (debug_mod_copy_config (mc.heap a) (mc.heap (saved + j)))
          (saved + j')).module = (m.heap a').module := by
      intro j' a' hj' hja'
      have hne : saved + j' ≠ a := fun h => hsep j a ha j' hj' h.symm
      rw [Function.update_noteq hne]
      exact hbuf j' a' hj' hja'
    have hids' : ∀ j' a', m.mods j' = some a' →
        (Function.update mc.heap a (debug_mod_copy_config (mc.heap a) (mc.heap (saved + j)))
          a').module = (m.heap a').module := by
      intro j' a' hja'
      rw [update_heap_module mc.heap a
        (debug_mod_copy_config (mc.heap a) (mc.heap (saved + j))) rfl a']
      exact hids j' a' hja'
    have hdone' : ∀ j' a', j' < j + 1 → m.mods j' = some a' →
        (Function.update mc.heap a (debug_mod_copy_config (mc.heap a) (mc.heap (saved + j)))
          a').func = (want j').func ∧
        (Function.update mc.heap a (debug_mod_copy_config (mc.heap a) (mc.heap (saved + j)))
          a').stream = (want j').stream := by
      intro j' a' hj' hja'
      by_cases hjj : j' = j
      · subst hjj
        rw [ha] at hja'
        cases hja'
        rw [Function.update_same]
        exact ⟨(hbuf j' a hjt ha).1, (hbuf j' a hjt ha).2.1⟩
      · have hne : a' ≠ a := by
          intro h
          subst h
          exact hjj (wf.unique j' j a' a' hja' ha rfl)
        rw [Function.update_noteq hne]
        exact hdone j' a' (by omega) hja'
    by_cases hlast : j + 1 ≥ t
    · have hjt' : j + 1 = t := by omega
      refine ⟨⟨mc.mods, Function.update mc.heap a
        (debug_mod_copy_config (mc.heap a) (mc.heap (saved + j)))⟩, ?_, hmods', ?_⟩
      · simp [restore_loop, hjD, ha', hnext, hlast, hcond, hjt']
      · intro j' a' hj' hja'
        exact hdone' j' a' (by omega) hja'
    · obtain ⟨m3, h3, h3m, h3v⟩ := ih (j + 1) _ (by omega) (by omega) hmods' hbuf' hids' hdone'
      refine ⟨m3, ?_, h3m, h3v⟩
      rw [← h3]
      simp [restore_loop, hjD, ha', hnext, hlast, hcond]

/-- Save/restore round trip where `debug_mod_save` stays inside `mods`.  In a
registry state reachable by register calls whose occupied slots are the first
`k ≥ 1`, with a capacity `1 ≤ c < 256` that is at most `DEBUG_MOD_MAX` unless
an empty slot exists, and an array that holds none of the registered
structures: `debug_mod_save` returns `n = min k c`; whatever is then stored to
the functions and streams of the registered structures, `debug_mod_restore`
with the saved array and `n` returns `n` and the structures of the slots
`0..n-1` have the function and stream they had when saved. -/
theorem save_restore_round_trip (b : Build) (m : Mem) (hm : Reachable b m) (saved k c : Nat)
    (hocc : ∀ i, m.mods i ≠ none ↔ i < k) (hk1 : 1 ≤ k) (hc1 : 1 ≤ c) (hc : c < 256)
    (hguard : c ≤ b.DEBUG_MOD_MAX ∨ k < b.DEBUG_MOD_MAX)
    (hsep : ∀ i (a : Nat), m.mods i = some a → ∀ j, j < c → a ≠ saved + j) :
    ∃ m1, debug_mod_save b m saved c = some (m1, min k c) ∧
      ∀ m2 : Mem, m2.mods = m1.mods →
        (∀ j, j < min k c → m2.heap (saved + j) = m1.heap (saved + j)) →
        (∀ i a, m.mods i = some a → (m2.heap a).module = (m1.heap a).module) →
        ∃ m3, debug_mod_restore b m2 saved (min k c) = some (m3, min k c) ∧
          m3.mods = m.mods ∧
          ∀ j a, j < min k c → m.mods j = some a →
            (m3.heap a).func = (m.heap a).func ∧ (m3.heap a).stream = (m.heap a).stream := by
  have wf := hm.wellFormed
  have hkD : k ≤ b.DEBUG_MOD_MAX := by
    by_contra hlt
    have h1 : m.mods (k - 1) ≠ none := (hocc (k - 1)).mpr (by omega)
    have h2 := wf.bound (k - 1) (by have := debug_mod_max_le b; omega)
    exact h1 h2
  refine ⟨⟨m.mods, save_heap m saved (min k c)⟩,
    debug_mod_save_prefix b m saved k c hocc hc1 hc hguard hsep, ?_⟩
  intro m2 hmods2 hbuf2 hid2
  have hsep' : ∀ i (a : Nat), m.mods i = some a → ∀ j, j < min k c → a ≠ saved + j :=
    fun i a hia j hj => hsep i a hia j (by omega)
  have hoff : ∀ i (a : Nat), m.mods i = some a → save_heap m saved (min k c) a = m.heap a :=
    fun i a hia => save_heap_off m saved _ a (hsep' i a hia)
  have hbuf : ∀ j' a, j' < min k c → m.mods j' = some a →
      (m2.heap (saved + j')).func
        = (match m.mods j' with | some a => m.heap a | none => ⟨none, none, none⟩).func ∧
      (m2.heap (saved + j')).stream
        = (match m.mods j' with | some a => m.heap a | none => ⟨none, none, none⟩).stream ∧
      (m2.heap (saved + j')).module = (m.heap a).module := by
    intro j' a hj' hja
    have h1 : m2.heap (saved + j') = m.heap a := by
      rw [hbuf2 j' hj']
      exact save_heap_at m saved _ j' a hj' hja
    simp [h1, hja]
  have hids : ∀ j' a, m.mods j' = some a → (m2.heap a).module = (m.heap a).module := by
    intro j' a hja
    rw [hid2 j' a hja]
    show (save_heap m saved (min k c) a).module = _
    rw [hoff j' a hja]
  obtain ⟨m3, h3, h3m, h3v⟩ := restore_loop_matched b m wf saved (min k c)
    (fun j => match m.mods j with | some a => m.heap a | none => ⟨none, none, none⟩)
    (fun i hi => (hocc i).mpr (by omega)) (by omega) (by omega) hsep'
    (sizeof_mods b) 0 m2 (by omega) (by have := debug_mod_max_le_sizeof b; omega) hmods2
    hbuf hids (fun j' a hj' => absurd hj' (by omega))
  refine ⟨m3, h3, h3m, ?_⟩
  intro j a hj hja
  have := h3v j a hj hja
  simpa [hja] using this

/-- C11 fails for the callback: at the default build the registry is full and
the structure at address 8 has an identifier no slot holds, the function 9
and the stream 15; `debug_mod_register` returns 0 and afterwards the function
of that structure is `NULL`. -/
theorem register_full_loses_func :
    (∀ i, i < debug_mod_max Build.default → four_twins.mods i ≠ none) ∧
    (∀ i, i < debug_mod_max Build.default →
      ∀ a, four_twins.mods i = some a → (four_twins.heap a).module ≠ (four_twins.heap 8).module) ∧
    (four_twins.heap 8).func = some 9 ∧
    (debug_mod_register Build.default four_twins 8).2 = 0 ∧
    ((debug_mod_register Build.default four_twins 8).1.heap 8).func = none := by
  refine ⟨by decide, ?_, rfl, rfl, rfl⟩
  intro i hi a ha
  have hi4 : i < 4 := hi
  interval_cases i <;> cases ha <;> decide

/-- C11, amended. When `debug_mod_register` finds every slot occupied and no
slot holding the identifier of the caller's structure, it returns 0 (list
full); the structure keeps its stream and its identifier, its function is set
to `NULL`, and the slot array and every other structure are unchanged. -/
theorem register_full_keeps_stream (b : Build) (m : Mem) (dm : Addr) (s : List Char)
    (hs : (m.heap dm).module = some s) (hfull : ∀ k, k < debug_mod_max b → Skip m s k) :
    (debug_mod_register b m dm).2 = 0 ∧
    ((debug_mod_register b m dm).1.heap dm).stream = (m.heap dm).stream ∧
    ((debug_mod_register b m dm).1.heap dm).module = (m.heap dm).module ∧
    ((debug_mod_register b m dm).1.heap dm).func = none ∧
    (debug_mod_register b m dm).1.mods = m.mods ∧
    ∀ y, y ≠ dm → (debug_mod_register b m dm).1.heap y = m.heap y := by
  have hres : debug_mod_register b m dm = register_fail m dm := by
    apply debug_mod_register_full
    intro s' hs' k hk
    rw [hs] at hs'
    cases hs'
    exact hfull k hk
  rw [hres]
  refine ⟨rfl, by simp [register_fail], by simp [register_fail], by simp [register_fail],
    rfl, ?_⟩
  intro y hy
  simp [register_fail, Function.update_noteq hy]

/-- C11 amended, on the full example registry with the structure at address 8. -/
theorem register_full_keeps_stream_witness :
    (debug_mod_register Build.default four_twins 8).2 = 0 ∧
    ((debug_mod_register Build.default four_twins 8).1.heap 8).stream = (four_twins.heap 8).stream ∧
    ((debug_mod_register Build.default four_twins 8).1.heap 8).module = (four_twins.heap 8).module ∧
    ((debug_mod_register Build.default four_twins 8).1.heap 8).func = none ∧
    (debug_mod_register Build.default four_twins 8).1.mods = four_twins.mods ∧
    ∀ y, y ≠ 8 → (debug_mod_register Build.default four_twins 8).1.heap y = four_twins.heap y :=
  register_full_keeps_stream Build.default four_twins 8 (List.replicate 5 'm') rfl
    (fun k hk => by
      have hk4 : k < 4 := hk
      interval_cases k
      · exact ⟨0, rfl, by decide⟩
      · exact ⟨2, rfl, by decide⟩
      · exact ⟨4, rfl, by decide⟩
      · exact ⟨6, rfl, by decide⟩)

/-- The loop of `debug_mod_restore` on a registry without an empty slot, none
of whose structures has the identifier of the array element `saved[i]`: no
slot consumes the element, and after the last slot the loop reads
`mods[DEBUG_MOD_MAX]`. -/
theorem restore_loop_overrun (b : Build) (m : Mem) (saved c i : Nat)
    (hfull : ∀ k, k < b.DEBUG_MOD_MAX →
      ∃ a, m.mods k = some a ∧ (m.heap a).module ≠ (m.heap (saved + i)).module) :
    ∀ n j, j ≤ b.DEBUG_MOD_MAX → b.DEBUG_MOD_MAX < j + n →
      restore_loop b saved c n j i m = none := by
  intro n
  induction n with
  | zero => intro j h1 h2; omega
  | succ n ih =>
    intro j h1 h2
    by_cases hjD : j < b.DEBUG_MOD_MAX
    · obtain ⟨a, ha, hne⟩ := hfull j hjD
      have hcond : ¬ ((m.heap a).module ≠ none ∧ (m.heap (saved + i)).module ≠ none
          ∧ (m.heap a).module = (m.heap (saved + i)).module) := fun h => hne h.2.2
      have hrec := ih (j + 1) (by omega) (by omega)
      rw [← hrec]
      simp only [restore_loop, hjD, ha, if_true, if_neg hcond]
    · simp [restore_loop, hjD]

/-- C13 fails on a full registry.  With pointers of two or more bytes,
whenever every slot of `mods` is occupied and no registered structure has the
identifier of the first array element, the loop of `debug_mod_restore` (bounded
by `mods + sizeof(mods)`) does not stop after slot `DEBUG_MOD_MAX - 1`: it
reads `mods[DEBUG_MOD_MAX]`, outside the array, and the call has no defined
result instead of returning 0. -/
theorem restore_overrun_when_full (b : Build) (m : Mem) (saved c : Nat) (hp : 2 ≤ b.ptr_size)
    (hfull : ∀ k, k < b.DEBUG_MOD_MAX →
      ∃ a, m.mods k = some a ∧ (m.heap a).module ≠ (m.heap saved).module) :
    debug_mod_restore b m saved c = none := by
  apply restore_loop_overrun b m saved c 0 hfull (sizeof_mods b) 0 (Nat.zero_le _)
  have h1 : b.DEBUG_MOD_MAX * 2 ≤ sizeof_mods b := Nat.mul_le_mul_left _ hp
  have h2 := b.max_pos
  omega

/-- C13, the failing call: at the default build the registry is full (the
structures at addresses 0 to 3) and `debug_mod_restore` is called with the
one-element array at address 10, whose identifier is not registered. -/
theorem restore_overrun_when_full_witness :
    debug_mod_restore Build.default four_registered 10 1 = none :=
  restore_overrun_when_full Build.default four_registered 10 1 (by decide)
    (fun k hk => by
      have hk4 : k < 4 := hk
      interval_cases k
      · exact ⟨0, rfl, by decide⟩
      · exact ⟨1, rfl, by decide⟩
      · exact ⟨2, rfl, by decide⟩
      · exact ⟨3, rfl, by decide⟩)

/-- C12 fails for the capacity 0.  On the example registry (two structures
registered) `debug_mod_save(saved, 0)` with the array at address 10 returns 1
and has written position 0 of the array; on the empty registry
`debug_mod_restore(saved, 0)` returns 1 and has pointed slot 0 to position 0 of
the array; on the example registry `debug_mod_restore(saved, 0)` with the array
at address 0 (whose element 0 carries the identifier of slot 0) returns 1. -/
theorem save_restore_zero_capacity :
    (debug_mod_save Build.default two_registered 10 0).map (fun r => r.2) = some 1 ∧
    (debug_mod_save Build.default two_registered 10 0).map (fun r => r.1.heap 10)
      = some (two_registered.heap 0) ∧
    two_registered.heap 10 ≠ two_registered.heap 0 ∧
    (debug_mod_restore Build.default (Mem.init twin_heap) 10 0).map (fun r => r.2) = some 1 ∧
    (debug_mod_restore Build.default (Mem.init twin_heap) 10 0).map (fun r => r.1.mods 0)
      = some (some 10) ∧
    (debug_mod_restore Build.default two_registered 0 0).map (fun r => r.2) = some 1 := by
  refine ⟨rfl, rfl, by decide, rfl, rfl, rfl⟩

/-- What a run of the loop of `debug_mod_save` can do, entered with `i` below
the capacity (or with `i = 0` and the capacity 0): the count it returns lies
between `i` and the capacity (1 for the capacity 0), the slot array is
unchanged and only the array positions from `i` up to the count are written. -/
theorem save_loop_frame (b : Build) (saved c : Nat) (hc : c < 256) :
    ∀ n j i m m' r, i < max c 1 → save_loop b saved c n j i m = some (m', r) →
      i ≤ r ∧ r ≤ max c 1 ∧ m'.mods = m.mods ∧
      ∀ y : Nat, (∀ t, i ≤ t → t < r → y ≠ saved + t) → m'.heap y = m.heap y := by
  intro n
  induction n with
  | zero =>
    intro j i m m' r hi h
    simp only [save_loop, Option.some.injEq, Prod.mk.injEq] at h
    obtain ⟨rfl, rfl⟩ := h
    exact ⟨le_refl _, by omega, rfl, fun _ _ => rfl⟩
  | succ n ih =>
    intro j i m m' r hi h
    have hnext : next_index i = i + 1 := next_index_eq (by omega)
    by_cases hjD : j < b.DEBUG_MOD_MAX
    · cases hmj : m.mods j with
      | none =>
        simp only [save_loop, hjD, hmj, if_true, Option.some.injEq, Prod.mk.injEq] at h
        obtain ⟨rfl, rfl⟩ := h
        exact ⟨le_refl _, by omega, rfl, fun _ _ => rfl⟩
      | some a =>
        by_cases hlast : i + 1 ≥ c
        · simp only [save_loop, hjD, hmj, hnext, hlast, if_true, Option.some.injEq,
            Prod.mk.injEq] at h
          obtain ⟨rfl, rfl⟩ := h
          refine ⟨by omega, by omega, rfl, ?_⟩
          intro y hy
          exact Function.update_noteq (hy i (le_refl _) (by omega)) _ _
        · simp only [save_loop, hjD, hmj, hnext, hlast, if_true, if_false] at h
          obtain ⟨h1, h2, h3, h4⟩ := ih (j + 1) (i + 1) _ m' r (by omega) h
          refine ⟨by omega, h2, h3, ?_⟩
          intro y hy
          rw [h4 y (fun t ht1 ht2 => hy t (by omega) ht2)]
          exact Function.update_noteq (hy i (le_refl _) (by omega)) _ _
    · simp [save_loop, hjD] at h

/-- What a run of the loop of `debug_mod_restore` can do, entered with `i`
below the capacity (or with `i = 0` and the capacity 0): the count it returns
lies between `i` and the capacity (1 for the capacity 0); no identifier in
memory changes; an occupied slot keeps its structure; an empty slot stays empty
or is pointed to an array position from `i` up to the count, and no two empty
slots are pointed to the same position. -/
theorem restore_loop_frame (b : Build) (saved c : Nat) (hc : c < 256) :
    ∀ n j i m m' r, i < max c 1 → restore_loop b saved c n j i m = some (m', r) →
      i ≤ r ∧ r ≤ max c 1 ∧
      (∀ x, (m'.heap x).module = (m.heap x).module) ∧
      (∀ s a, m.mods s = some a → m'.mods s = some a) ∧
      (∀ s (x : Nat), m.mods s = none → m'.mods s = some x →
        ∃ t, x = saved + t ∧ i ≤ t ∧ t < r) ∧
      (∀ s s' x, s ≠ s' → m.mods s = none → m.mods s' = none → m'.mods s = some x →
        m'.mods s' ≠ some x) := by
  intro n
  induction n with
  | zero =>
    intro j i m m' r hi h
    simp only [restore_loop, Option.some.injEq, Prod.mk.injEq] at h
    obtain ⟨rfl, rfl⟩ := h
    refine ⟨le_refl _, by omega, fun _ => rfl, fun _ _ h => h, ?_, ?_⟩
    · intro s x h0 h1; rw [h0] at h1; cases h1
    · intro s s' x _ h0 _ h1; rw [h0] at h1; cases h1
  | succ n ih =>
    intro j i m m' r hi h
    have hnext : next_index i = i + 1 := next_index_eq (by omega)
    by_cases hjD : j < b.DEBUG_MOD_MAX
    · cases hmj : m.mods j with
      | none =>
        have hocc1 : ∀ s a, m.mods s = some a →
            Function.update m.mods j (some (saved + i)) s = some a := by
          intro s a hs
          have hsj : s ≠ j := by
            intro e; subst e; rw [hmj] at hs; cases hs
          rw [Function.update_noteq hsj]; exact hs
        have hnew1 : ∀ s, s ≠ j → m.mods s = none →
            Function.update m.mods j (some (saved + i)) s = none := by
          intro s hsj hs
          rw [Function.update_noteq hsj]; exact hs
        by_cases hlast : i + 1 ≥ c
        · simp only [restore_loop, hjD, hmj, hnext, hlast, if_true, Option.some.injEq,
            Prod.mk.injEq] at h
          obtain ⟨rfl, rfl⟩ := h
          refine ⟨by omega, by omega, fun _ => rfl, hocc1, ?_, ?_⟩
          · intro s x h0 h1
            by_cases hsj : s = j
            · subst hsj
              simp only [Function.update_same, Option.some.injEq] at h1
              exact ⟨i, h1.symm, le_refl _, by omega⟩
            · have := hnew1 s hsj h0
              simp only at h1
              rw [this] at h1; cases h1
          · intro s s' x hss h0 h0' h1 h1'
            by_cases hsj : s = j
            · have hs'j : s' ≠ j := fun e => hss (hsj.trans e.symm)
              have := hnew1 s' hs'j h0'
              simp only at h1'
              rw [this] at h1'; cases h1'
            · have := hnew1 s hsj h0
              simp only at h1
              rw [this] at h1; cases h1
        · simp only [restore_loop, hjD, hmj, hnext, hlast, if_true, if_false] at h
          obtain ⟨h1, h2, h3, h4, h5, h6⟩ := ih (j + 1) (i + 1) _ m' r (by omega) h
          have hj' : m'.mods j = some (saved + i) := h4 j (saved + i) (by simp)
          refine ⟨by omega, h2, h3, fun s a hs => h4 s a (hocc1 s a hs), ?_, ?_⟩
          · intro s x h0 hx
            by_cases hsj : s = j
            · subst hsj
              rw [hj'] at hx
              simp only [Option.some.injEq] at hx
              exact ⟨i, hx.symm, le_refl _, by omega⟩
            · obtain ⟨t, ht, ht1, ht2⟩ := h5 s x (hnew1 s hsj h0) hx
              exact ⟨t, ht, by omega, ht2⟩
          · intro s s' x hss h0 h0' hx hx'
            by_cases hsj : s = j
            · have hs'j : s' ≠ j := fun e => hss (hsj.trans e.symm)
              subst hsj
              rw [hj'] at hx
              simp only [Option.some.injEq] at hx
              obtain ⟨t, ht, ht1, _⟩ := h5 s' x (hnew1 s' hs'j h0') hx'
              omega
            · by_cases hs'j : s' = j
              · subst hs'j
                rw [hj'] at hx'
                simp only [Option.some.injEq] at hx'
                obtain ⟨t, ht, ht1, _⟩ := h5 s x (hnew1 s hsj h0) hx
                omega
              · exact h6 s s' x hss (hnew1 s hsj h0) (hnew1 s' hs'j h0') hx hx'
      | some a =>
        by_cases hcond : (m.heap a).module ≠ none ∧ (m.heap (saved + i)).module ≠ none
            ∧ (m.heap a).module = (m.heap (saved + i)).module
        · have hmod : ∀ x, (Function.update m.heap a
              (debug_mod_copy_config (m.heap a) (m.heap (saved + i))) x).module
              = (m.heap x).module :=
            update_heap_module m.heap a _ rfl
          by_cases hlast : i + 1 ≥ c
          · simp only [restore_loop, hjD, hmj, if_true] at h
            rw [if_pos hcond] at h
            simp only [hnext, hlast, if_true, Option.some.injEq, Prod.mk.injEq] at h
            obtain ⟨rfl, rfl⟩ := h
            refine ⟨by omega, by omega, hmod, fun _ _ h => h, ?_, ?_⟩
            · intro s x h0 h1
              simp only at h1
              rw [h0] at h1; cases h1
            · intro s s' x _ h0 _ h1
              simp only at h1
              rw [h0] at h1; cases h1
          · simp only [restore_loop, hjD, hmj, if_true] at h
            rw [if_pos hcond] at h
            simp only [hnext, hlast, if_false] at h
            obtain ⟨h1, h2, h3, h4, h5, h6⟩ := ih (j + 1) (i + 1) _ m' r (by omega) h
            refine ⟨by omega, h2, fun x => (h3 x).trans (hmod x), h4, ?_, h6⟩
            intro s x h0 hx
            obtain ⟨t, ht, ht1, ht2⟩ := h5 s x h0 hx
            exact ⟨t, ht, by omega, ht2⟩
        · simp only [restore_loop, hjD, hmj, if_true, if_neg hcond] at h
          exact ih (j + 1) i m m' r hi h
    · simp [restore_loop, hjD] at h

/-- For a capacity `1 ≤ c < 256` the counts that `debug_mod_save` and
`debug_mod_restore` return are at most `c`, and `debug_mod_save` writes no
array position at or beyond its count. -/
theorem save_restore_count_le (b : Build) (m : Mem) (saved c : Nat) (hc1 : 1 ≤ c)
    (hc : c < 256) :
    (∀ m' n, debug_mod_save b m saved c = some (m', n) →
      n ≤ c ∧ ∀ y : Nat, (∀ t, t < n → y ≠ saved + t) → m'.heap y = m.heap y) ∧
    (∀ m' n, debug_mod_restore b m saved c = some (m', n) → n ≤ c) := by
  constructor
  · intro m' n h
    obtain ⟨_, h2, _, h4⟩ := save_loop_frame b saved c hc _ 0 0 m m' n (by omega) h
    exact ⟨by omega, fun y hy => h4 y (fun t _ ht => hy t ht)⟩
  · intro m' n h
    obtain ⟨_, h2, _⟩ := restore_loop_frame b saved c hc _ 0 0 m m' n (by omega) h
    omega

/-- The loop of `debug_mod_update_config` changes neither the slot array nor
any identifier, whatever the reference configuration. -/
theorem update_config_loop_idents (d : debug_mod) :
    ∀ n i m, (update_config_loop d n i m).mods = m.mods ∧
      ∀ x, ((update_config_loop d n i m).heap x).module = (m.heap x).module := by
  intro n
  induction n with
  | zero => intro i m; exact ⟨rfl, fun _ => rfl⟩
  | succ n ih =>
    intro i m
    cases hmi : m.mods i with
    | none => simp [update_config_loop, hmi]
    | some a =>
      cases hd : d.module with
      | none =>
        have hres : update_config_loop d (n + 1) i m
            = update_config_loop d n (i + 1)
                ⟨m.mods, Function.update m.heap a (debug_mod_copy_config (m.heap a) d)⟩ := by
          simp [update_config_loop, hmi, hd]
        rw [hres]
        obtain ⟨h1, h2⟩ := ih (i + 1)
          ⟨m.mods, Function.update m.heap a (debug_mod_copy_config (m.heap a) d)⟩
        refine ⟨h1, fun x => ?_⟩
        rw [h2 x]
        exact update_heap_module m.heap a (debug_mod_copy_config (m.heap a) d) rfl x
      | some x =>
        by_cases hs : (m.heap a).module = some x
        · have hres : update_config_loop d (n + 1) i m
              = ⟨m.mods, Function.update m.heap a (debug_mod_copy_config (m.heap a) d)⟩ := by
            simp [update_config_loop, hmi, hd, hs]
          rw [hres]
          exact ⟨rfl, update_heap_module m.heap a (debug_mod_copy_config (m.heap a) d) rfl⟩
        · have hres : update_config_loop d (n + 1) i m = update_config_loop d n (i + 1) m := by
            simp [update_config_loop, hmi, hd, hs]
          rw [hres]
          exact ih (i + 1) m

/-- Function `debug_mod_update_config` changes neither the slot array nor any
identifier. -/
theorem debug_mod_update_config_idents (b : Build) (m : Mem) (dm : Option debug_mod) :
    (debug_mod_update_config b m dm).mods = m.mods ∧
    ∀ x, ((debug_mod_update_config b m dm).heap x).module = (m.heap x).module := by
  cases dm with
  | none => exact ⟨rfl, fun _ => rfl⟩
  | some d => exact update_config_loop_idents d (debug_mod_max b) 0 m

theorem debug_mod_update_idents (b : Build) (m : Mem) (module : Option (List Char))
    (func stream : Option Nat) :
    (debug_mod_update b m module func stream).mods = m.mods ∧
    ∀ x, ((debug_mod_update b m module func stream).heap x).module = (m.heap x).module := by
  cases func with
  | none => exact ⟨rfl, fun _ => rfl⟩
  | some f => exact debug_mod_update_config_idents b m _

theorem debug_mod_disable_idents (b : Build) (m : Mem) (module : Option (List Char)) :
    (debug_mod_disable b m module).mods = m.mods ∧
    ∀ x, ((debug_mod_disable b m module).heap x).module = (m.heap x).module :=
  debug_mod_update_config_idents b m _

theorem WellFormed.of_idents {b : Build} {m m' : Mem} (wf : WellFormed b m)
    (hmods : m'.mods = m.mods) (hid : ∀ x, (m'.heap x).module = (m.heap x).module) :
    WellFormed b m' := by
  have h := wf.same_idents m'.heap hid
  rw [← hmods] at h
  exact h

/-- Every registry state reachable by register, update and disable calls is
well formed. -/
theorem ReachableDyn.registry_wellFormed {b : Build} {m : Mem} (h : ReachableDyn b m) :
    WellFormed b m := by
  induction h with
  | init heap => exact WellFormed.init b heap
  | register m dm _ ih => exact ih.register dm
  | update m module func stream _ ih =>
    exact ih.of_idents (debug_mod_update_idents b m module func stream).1
      (debug_mod_update_idents b m module func stream).2
  | disable m module _ ih =>
    exact ih.of_idents (debug_mod_disable_idents b m module).1
      (debug_mod_disable_idents b m module).2
  | store m p f s _ ih => exact ih.store p f s

/-- C14. In every state reachable from the empty registry by any sequence of
`debug_mod_register`, `debug_mod_update` and `debug_mod_disable` calls, the
occupied slots form a contiguous prefix of the first `debug_mod_max` slots of
the array and no two occupied slots hold structures with equal identifiers. -/
theorem registry_invariant (b : Build) (m : Mem) (hm : ReachableDyn b m) :
    (∀ i j, j < i → m.mods i ≠ none → m.mods j ≠ none) ∧
    (∀ i, m.mods i ≠ none → i < debug_mod_max b) ∧
    (∀ i j a a', m.mods i = some a → m.mods j = some a' →
      (m.heap a).module = (m.heap a').module → i = j) := by
  have wf := hm.registry_wellFormed
  refine ⟨wf.pre, ?_, wf.unique⟩
  intro i hi
  by_contra hge
  exact hi (wf.bound i (by omega))

/-- C14, on the example state built by register, update and disable calls. -/
theorem registry_invariant_witness :
    (∀ i j, j < i → reconfigured.mods i ≠ none → reconfigured.mods j ≠ none) ∧
    (∀ i, reconfigured.mods i ≠ none → i < debug_mod_max Build.default) ∧
    (∀ i j a a', reconfigured.mods i = some a → reconfigured.mods j = some a' →
      (reconfigured.heap a).module = (reconfigured.heap a').module → i = j) :=
  registry_invariant Build.default reconfigured
    (ReachableDyn.disable _ _ (ReachableDyn.update _ _ _ _ (ReachableDyn.register _ 1
      (ReachableDyn.register _ 2 (ReachableDyn.register _ 0 (ReachableDyn.init twin_heap))))))

/-- The loop of `debug_mod_save` returns when an empty slot lies ahead inside
`mods`: it stops there at the latest. -/
theorem save_loop_returns_empty (b : Build) (saved c j0 : Nat) (hj0 : j0 < b.DEBUG_MOD_MAX) :
    ∀ n j i m, j ≤ j0 → m.mods j0 = none → ∃ r, save_loop b saved c n j i m = some r := by
  intro n
  induction n with
  | zero => intro j i m _ _; exact ⟨_, rfl⟩
  | succ n ih =>
    intro j i m hj h0
    have hjD : j < b.DEBUG_MOD_MAX := by omega
    cases hmj : m.mods j with
    | none => exact ⟨(m, i), by simp [save_loop, hjD, hmj]⟩
    | some a =>
      have hne : j ≠ j0 := by
        intro e; subst e; rw [h0] at hmj; cases hmj
      by_cases hlast : next_index i ≥ c
      · simp only [save_loop, hjD, hmj, hlast, if_true]
        exact ⟨_, rfl⟩
      · obtain ⟨r, hr⟩ := ih (j + 1) (next_index i)
          ⟨m.mods, Function.update m.heap (saved + i) (m.heap a)⟩ (by omega) h0
        exact ⟨r, by simp only [save_loop, hjD, hmj, hlast, if_true, if_false, hr]⟩

/-- The loop of `debug_mod_save` returns when the capacity is at most the
length of `mods`: slot and array position advance together, and the loop stops
at position `c - 1` at the latest. -/
theorem save_loop_returns_within (b : Build) (saved c : Nat) (hc : c < 256)
    (hcD : c ≤ b.DEBUG_MOD_MAX) :
    ∀ n j m, j < max c 1 → ∃ r, save_loop b saved c n j j m = some r := by
  intro n
  induction n with
  | zero => intro j m _; exact ⟨_, rfl⟩
  | succ n ih =>
    intro j m hj
    have hpos := b.max_pos
    have hjD : j < b.DEBUG_MOD_MAX := by omega
    have hnext : next_index j = j + 1 := next_index_eq (by omega)
    cases hmj : m.mods j with
    | none => exact ⟨(m, j), by simp [save_loop, hjD, hmj]⟩
    | some a =>
      by_cases hlast : j + 1 ≥ c
      · simp only [save_loop, hjD, hmj, hnext, hlast, if_true]
        exact ⟨_, rfl⟩
      · obtain ⟨r, hr⟩ := ih (j + 1)
          ⟨m.mods, Function.update m.heap (saved + j) (m.heap a)⟩ (by omega)
        exact ⟨r, by simp only [save_loop, hjD, hmj, hnext, hlast, if_true, if_false, hr]⟩

/-- Function `debug_mod_save` returns when the capacity is at most the length
of `mods` or a slot is empty. -/
theorem debug_mod_save_returns (b : Build) (m : Mem) (saved c : Nat) (hc : c < 256)
    (hguard : c ≤ b.DEBUG_MOD_MAX ∨ ∃ j, j < b.DEBUG_MOD_MAX ∧ m.mods j = none) :
    ∃ r, debug_mod_save b m saved c = some r := by
  rcases hguard with h | ⟨j0, hj0, h0⟩
  · exact save_loop_returns_within b saved c hc h _ 0 m (by omega)
  · exact save_loop_returns_empty b saved c j0 hj0 _ 0 0 m (Nat.zero_le _) h0

/-- The loop of `debug_mod_restore` returns when the slots from `k` to the end
of `mods` are empty and at least as many as the array elements still to be
consumed: every empty slot consumes one. -/
theorem restore_loop_returns (b : Build) (saved c k : Nat) (hc : c < 256) :
    ∀ n j i m, i < max c 1 →
      (∀ s, j ≤ s → k ≤ s → s < b.DEBUG_MOD_MAX → m.mods s = none) →
      (max c 1 - i) + max j k ≤ b.DEBUG_MOD_MAX →
      ∃ r, restore_loop b saved c n j i m = some r := by
  intro n
  induction n with
  | zero => intro j i m _ _ _; exact ⟨_, rfl⟩
  | succ n ih =>
    intro j i m hi hempty hroom
    have hjD : j < b.DEBUG_MOD_MAX := by omega
    have hnext : next_index i = i + 1 := next_index_eq (by omega)
    cases hmj : m.mods j with
    | none =>
      by_cases hlast : i + 1 ≥ c
      · simp only [restore_loop, hjD, hmj, hnext, hlast, if_true]
        exact ⟨_, rfl⟩
      · obtain ⟨r, hr⟩ := ih (j + 1) (i + 1)
          ⟨Function.update m.mods j (some (saved + i)), m.heap⟩ (by omega)
          (fun s hjs hks hsD => by
            have hsj : s ≠ j := by omega
            show Function.update m.mods j (some (saved + i)) s = none
            rw [Function.update_noteq hsj]; exact hempty s (by omega) hks hsD)
          (by omega)
        exact ⟨r, by simp only [restore_loop, hjD, hmj, hnext, hlast, if_true, if_false, hr]⟩
    | some a =>
      have hjk : j < k := by
        by_contra hge
        have := hempty j (le_refl _) (by omega) hjD
        rw [this] at hmj; cases hmj
      by_cases hcond : (m.heap a).module ≠ none ∧ (m.heap (saved + i)).module ≠ none
          ∧ (m.heap a).module = (m.heap (saved + i)).module
      · by_cases hlast : i + 1 ≥ c
        · simp only [restore_loop, hjD, hmj, if_true]
          rw [if_pos hcond]
          simp only [hnext, hlast, if_true]
          exact ⟨_, rfl⟩
        · obtain ⟨r, hr⟩ := ih (j + 1) (i + 1)
            ⟨m.mods, Function.update m.heap a
              (debug_mod_copy_config (m.heap a) (m.heap (saved + i)))⟩ (by omega)
            (fun s hjs hks hsD => hempty s (by omega) hks hsD) (by omega)
          refine ⟨r, ?_⟩
          simp only [restore_loop, hjD, hmj, if_true]
          rw [if_pos hcond]
          simp only [hnext, hlast, if_false, hr]
      · obtain ⟨r, hr⟩ := ih (j + 1) i m hi
          (fun s hjs hks hsD => hempty s (by omega) hks hsD) (by omega)
        refine ⟨r, ?_⟩
        simp only [restore_loop, hjD, hmj, if_true]
        rw [if_neg hcond]
        exact hr

/-- Function `debug_mod_restore` returns when the slots from `k` to the end of
`mods` are empty and there are at least `max c 1` of them. -/
theorem debug_mod_restore_returns (b : Build) (m : Mem) (saved c k : Nat) (hc : c < 256)
    (hempty : ∀ s, k ≤ s → s < b.DEBUG_MOD_MAX → m.mods s = none)
    (hroom : k + max c 1 ≤ b.DEBUG_MOD_MAX) :
    ∃ r, debug_mod_restore b m saved c = some r :=
  restore_loop_returns b saved c k hc _ 0 0 m (by omega) (fun s _ hks hsD => hempty s hks hsD)
    (by omega)

/-- C16 fails for `debug_mod_save` when a slot references an element of the
array that is saved to.  At the default build the structure at address 0
(identifier `m`) is registered and `debug_mod_restore(saved, 1)` with the array
at address 10 points slot 1 to `saved[0]`, whose identifier is `mmmmmm`.
`debug_mod_save(saved, 2)` returns 2 and leaves slot 1 pointing to the same
address, but the identifier found there is now `m`: the store `saved[0] =
*mods[0]` has replaced the identifier of the structure of slot 1. -/
theorem save_changes_slot_identifier :
    debug_mod_restore Build.default (debug_mod_register Build.default (Mem.init twin_heap) 0).1 10 1
      = some (aliased_registry, 1) ∧
    aliased_registry.mods 1 = some 10 ∧
    (aliased_registry.heap 10).module = some ['m', 'm', 'm', 'm', 'm', 'm'] ∧
    (debug_mod_save Build.default aliased_registry 10 2).map (fun r => r.2) = some 2 ∧
    (debug_mod_save Build.default aliased_registry 10 2).map (fun r => r.1.mods 1)
      = some (some 10) ∧
    (debug_mod_save Build.default aliased_registry 10 2).map (fun r => (r.1.heap 10).module)
      = some (some ['m']) := by
  refine ⟨rfl, rfl, rfl, rfl, rfl, rfl⟩

/-- C16, amended.  Slot indices are stable.  A slot that is occupied before a
call of `debug_mod_register`, `debug_mod_update` or `debug_mod_disable` is
occupied after it and its structure has the same identifier as before: the
register call may repoint the slot to a structure with an equal identifier, the
other calls keep the structure.  The same holds for `debug_mod_save(saved, c)`
when the structure of the slot is not one of the array positions that the call
writes, and for `debug_mod_restore(saved, c)`, in every call that stays inside
the array `mods`; and these calls do return: `debug_mod_save` when `c` is at
most the length of `mods` or some slot is empty, `debug_mod_restore` when the
slots from some `k` to the end of `mods` are empty and at least `max c 1` in
number.  Capacities are values of `debug_mod_index_t`. -/
theorem slot_identifier_stable (b : Build) (m : Mem) (i : Nat) (a : Addr)
    (ha : m.mods i = some a) :
    (∀ dm, ∃ a', (debug_mod_register b m dm).1.mods i = some a' ∧
      ((debug_mod_register b m dm).1.heap a').module = (m.heap a).module) ∧
    (∀ module func stream,
      (debug_mod_update b m module func stream).mods i = some a ∧
      ((debug_mod_update b m module func stream).heap a).module = (m.heap a).module) ∧
    (∀ module,
      (debug_mod_disable b m module).mods i = some a ∧
      ((debug_mod_disable b m module).heap a).module = (m.heap a).module) ∧
    (∀ saved c, c < 256 →
      (c ≤ b.DEBUG_MOD_MAX ∨ ∃ j, j < b.DEBUG_MOD_MAX ∧ m.mods j = none) →
      (∀ t, t < max c 1 → (a : Nat) ≠ saved + t) →
      ∃ m' n, debug_mod_save b m saved c = some (m', n) ∧
        m'.mods i = some a ∧ (m'.heap a).module = (m.heap a).module) ∧
    (∀ saved c m' n, c < 256 → debug_mod_save b m saved c = some (m', n) →
      (∀ t, t < n → (a : Nat) ≠ saved + t) →
      m'.mods i = some a ∧ (m'.heap a).module = (m.heap a).module) ∧
    (∀ saved c k, c < 256 → (∀ s, k ≤ s → s < b.DEBUG_MOD_MAX → m.mods s = none) →
      k + max c 1 ≤ b.DEBUG_MOD_MAX →
      ∃ m' n, debug_mod_restore b m saved c = some (m', n) ∧
        m'.mods i = some a ∧ (m'.heap a).module = (m.heap a).module) ∧
    (∀ saved c m' n, c < 256 → debug_mod_restore b m saved c = some (m', n) →
      m'.mods i = some a ∧ (m'.heap a).module = (m.heap a).module) := by
  have hsave : ∀ saved c m' n, c < 256 → debug_mod_save b m saved c = some (m', n) →
      n ≤ max c 1 ∧ ((∀ t, t < n → (a : Nat) ≠ saved + t) →
      m'.mods i = some a ∧ (m'.heap a).module = (m.heap a).module) := by
    intro saved c m' n hc h
    obtain ⟨_, h2, h3, h4⟩ := save_loop_frame b saved c hc _ 0 0 m m' n (by omega) h
    refine ⟨h2, fun hsep => ?_⟩
    rw [h3, h4 a (fun t _ ht => hsep t ht)]
    exact ⟨ha, rfl⟩
  have hrestore : ∀ saved c m' n, c < 256 → debug_mod_restore b m saved c = some (m', n) →
      m'.mods i = some a ∧ (m'.heap a).module = (m.heap a).module := by
    intro saved c m' n hc h
    obtain ⟨_, _, h3, h4, _, _⟩ :=
      restore_loop_frame b saved c hc _ 0 0 m m' n (by omega) h
    exact ⟨h4 i a ha, h3 a⟩
  refine ⟨?_, ?_, ?_, ?_, ?_, ?_, hrestore⟩
  · intro dm
    rcases debug_mod_register_cases b m dm with h | ⟨s, j, hs, _, _, hres⟩
    · rw [h]
      exact ⟨a, ha, update_heap_module m.heap dm { m.heap dm with func := none } rfl a⟩
    · rcases hres with ⟨h0, hres⟩ | ⟨a0, ha0, has, hres⟩
      · rw [hres]
        have hij : i ≠ j := by
          intro e; subst e; rw [h0] at ha; cases ha
        exact ⟨a, by simp [Function.update_noteq hij, ha], rfl⟩
      · rw [hres]
        by_cases hij : i = j
        · subst hij
          rw [ha0] at ha
          cases ha
          refine ⟨dm, by simp, ?_⟩
          show (Function.update m.heap dm (debug_mod_copy_config (m.heap dm) (m.heap a)) dm).module
            = (m.heap a).module
          rw [update_heap_module m.heap dm (debug_mod_copy_config (m.heap dm) (m.heap a)) rfl dm,
            hs, has]
        · exact ⟨a, by simp [Function.update_noteq hij, ha],
            update_heap_module m.heap dm (debug_mod_copy_config (m.heap dm) (m.heap a0)) rfl a⟩
  · intro module func stream
    obtain ⟨h1, h2⟩ := debug_mod_update_idents b m module func stream
    exact ⟨by rw [h1]; exact ha, h2 a⟩
  · intro module
    obtain ⟨h1, h2⟩ := debug_mod_disable_idents b m module
    exact ⟨by rw [h1]; exact ha, h2 a⟩
  · intro saved c hc hguard hsep
    obtain ⟨⟨m', n⟩, hr⟩ := debug_mod_save_returns b m saved c hc hguard
    obtain ⟨hn, hst⟩ := hsave saved c m' n hc hr
    exact ⟨m', n, hr, hst (fun t ht => hsep t (by omega))⟩
  · intro saved c m' n hc h hsep
    exact (hsave saved c m' n hc h).2 hsep
  · intro saved c k hc hempty hroom
    obtain ⟨⟨m', n⟩, hr⟩ := debug_mod_restore_returns b m saved c k hc hempty hroom
    exact ⟨m', n, hr, hrestore saved c m' n hc hr⟩

/-- C16 amended, on the example registry, for slot 0 and its structure at
address 0: the statement for this slot, its save and restore parts applied to
the two-element array at address 10 (which holds no registered structure; the
slots 2 and 3 are empty), and the two calls evaluated: both return 2 and keep
the slot and its identifier. -/
theorem slot_identifier_stable_witness :
    ((∀ dm, ∃ a', (debug_mod_register Build.default two_registered dm).1.mods 0 = some a' ∧
      ((debug_mod_register Build.default two_registered dm).1.heap a').module
        = (two_registered.heap 0).module) ∧
    (∀ module func stream,
      (debug_mod_update Build.default two_registered module func stream).mods 0 = some 0 ∧
      ((debug_mod_update Build.default two_registered module func stream).heap 0).module
        = (two_registered.heap 0).module) ∧
    (∀ module,
      (debug_mod_disable Build.default two_registered module).mods 0 = some 0 ∧
      ((debug_mod_disable Build.default two_registered module).heap 0).module
        = (two_registered.heap 0).module) ∧
    (∀ saved c, c < 256 →
      (c ≤ Build.default.DEBUG_MOD_MAX
        ∨ ∃ j, j < Build.default.DEBUG_MOD_MAX ∧ two_registered.mods j = none) →
      (∀ t, t < max c 1 → (0 : Nat) ≠ saved + t) →
      ∃ m' n, debug_mod_save Build.default two_registered saved c = some (m', n) ∧
        m'.mods 0 = some 0 ∧ (m'.heap 0).module = (two_registered.heap 0).module) ∧
    (∀ saved c m' n, c < 256 →
      debug_mod_save Build.default two_registered saved c = some (m', n) →
      (∀ t, t < n → (0 : Nat) ≠ saved + t) →
      m'.mods 0 = some 0 ∧ (m'.heap 0).module = (two_registered.heap 0).module) ∧
    (∀ saved c k, c < 256 →
      (∀ s, k ≤ s → s < Build.default.DEBUG_MOD_MAX → two_registered.mods s = none) →
      k + max c 1 ≤ Build.default.DEBUG_MOD_MAX →
      ∃ m' n, debug_mod_restore Build.default two_registered saved c = some (m', n) ∧
        m'.mods 0 = some 0 ∧ (m'.heap 0).module = (two_registered.heap 0).module) ∧
    (∀ saved c m' n, c < 256 →
      debug_mod_restore Build.default two_registered saved c = some (m', n) →
      m'.mods 0 = some 0 ∧ (m'.heap 0).module = (two_registered.heap 0).module)) ∧
    (∃ m' n, debug_mod_save Build.default two_registered 10 2 = some (m', n) ∧
      m'.mods 0 = some 0 ∧ (m'.heap 0).module = (two_registered.heap 0).module) ∧
    (∃ m' n, debug_mod_restore Build.default two_registered 10 2 = some (m', n) ∧
      m'.mods 0 = some 0 ∧ (m'.heap 0).module = (two_registered.heap 0).module) ∧
    (debug_mod_save Build.default two_registered 10 2).map
        (fun r => (r.2, r.1.mods 0, (r.1.heap 0).module))
      = some (2, some 0, some ['m']) ∧
    (debug_mod_restore Build.default two_registered 10 2).map
        (fun r => (r.2, r.1.mods 0, (r.1.heap 0).module))
      = some (2, some 0, some ['m']) :=
  ⟨slot_identifier_stable Build.default two_registered 0 0 rfl,
   (slot_identifier_stable Build.default two_registered 0 0 rfl).2.2.2.1 10 2 (by decide)
     (Or.inl (by decide)) (fun t _ => by show (0 : Nat) ≠ 10 + t; omega),
   (slot_identifier_stable Build.default two_registered 0 0 rfl).2.2.2.2.2.1 10 2 2 (by decide)
     (fun s hs _ => by
       rw [two_registered_mods]
       have h0 : s ≠ 0 := by omega
       have h1 : s ≠ 1 := by omega
       simp [h0, h1])
     (by decide),
   rfl, rfl⟩

/-- C15 fails.  At the default build the structures at addresses 0 (identifier
`m`, function 0) and 1 (identifier `mm`, function 1) are registered in slots 0
and 1, and the array at address 18 holds the identifiers `mm` (function 18) and
`m` (function 19).  `debug_mod_restore(saved, 2)` passes slot 0, consumes
element 0 at slot 1, points the empty slot 2 to element 1 and returns 2:
afterwards slots 0 and 2 both hold the identifier `m`.  The registered module
`m` has not been restored (its function is still 0, not the saved 19); its
saved element sits in slot 2, behind slot 0, where a later
`debug_mod_update` of `m` does not reach it. -/
theorem restore_duplicates_identifier :
    mirror_registry.mods 0 = some 0 ∧ mirror_registry.mods 1 = some 1 ∧
    mirror_registry.mods 2 = none ∧ mirror_registry.mods 3 = none ∧
    (mirror_registry.heap 0).module = some ['m'] ∧
    (mirror_registry.heap 1).module = some ['m', 'm'] ∧
    (mirror_registry.heap 18).module = some ['m', 'm'] ∧
    (mirror_registry.heap 19).module = some ['m'] ∧
    (debug_mod_restore Build.default mirror_registry 18 2).map (fun r => r.2) = some 2 ∧
    (debug_mod_restore Build.default mirror_registry 18 2).map (fun r => r.1.mods 0)
      = some (some 0) ∧
    (debug_mod_restore Build.default mirror_registry 18 2).map (fun r => r.1.mods 2)
      = some (some 19) ∧
    (debug_mod_restore Build.default mirror_registry 18 2).map (fun r => (r.1.heap 0).module)
      = some (some ['m']) ∧
    (debug_mod_restore Build.default mirror_registry 18 2).map (fun r => (r.1.heap 19).module)
      = some (some ['m']) ∧
    (mirror_registry.heap 0).func = some 0 ∧ (mirror_registry.heap 19).func = some 19 ∧
    (debug_mod_restore Build.default mirror_registry 18 2).map (fun r => (r.1.heap 0).func)
      = some (some 0) ∧
    (debug_mod_restore Build.default mirror_registry 18 2).map (fun r => (r.1.heap 1).func)
      = some (some 18) ∧
    (debug_mod_restore Build.default mirror_registry 18 2).map
        (fun r => ((debug_mod_update Build.default r.1 (some ['m']) (some 7) none).heap 0).func)
      = some (some 7) ∧
    (debug_mod_restore Build.default mirror_registry 18 2).map
        (fun r => ((debug_mod_update Build.default r.1 (some ['m']) (some 7) none).heap 19).func)
      = some (some 19) := by
  refine ⟨rfl, rfl, rfl, rfl, rfl, rfl, rfl, rfl, rfl, rfl, rfl, rfl, rfl, rfl, rfl, rfl, rfl,
    rfl, rfl⟩

/-- What `debug_mod_restore` keeps of the uniqueness of identifiers.  Take a
registry state in which no two occupied slots have equal identifiers and an
array whose first `c` elements have pairwise distinct identifiers.  After a
call `debug_mod_restore(saved, c)` that stays inside `mods`, two different
occupied slots have equal identifiers only if exactly one of them was empty
before the call: the slots occupied before keep pairwise distinct identifiers
and so do the slots the call has pointed to array elements.  Hence no two
occupied slots have equal identifiers after the call when no array element
carries an identifier that is registered before the call. -/
theorem restore_unique_within (b : Build) (m : Mem) (saved c : Nat) (hc : c < 256)
    (huniq : ∀ i j a a', m.mods i = some a → m.mods j = some a' →
      (m.heap a).module = (m.heap a').module → i = j)
    (hbuf : ∀ t t', t < c → t' < c → t ≠ t' →
      (m.heap (saved + t)).module ≠ (m.heap (saved + t')).module)
    (m' : Mem) (n : Nat) (h : debug_mod_restore b m saved c = some (m', n)) :
    (∀ i j a a', m'.mods i = some a → m'.mods j = some a' →
      (m'.heap a).module = (m'.heap a').module → i ≠ j →
      (m.mods i = none ↔ m.mods j ≠ none)) ∧
    ((∀ t, t < max c 1 → ∀ k a, m.mods k = some a →
        (m.heap a).module ≠ (m.heap (saved + t)).module) →
      ∀ i j a a', m'.mods i = some a → m'.mods j = some a' →
        (m'.heap a).module = (m'.heap a').module → i = j) := by
  obtain ⟨_, hn, hmod, hocc, hnew, hinj⟩ :=
    restore_loop_frame b saved c hc _ 0 0 m m' n (by omega) h
  have hpair : ∀ i j a a', m'.mods i = some a → m'.mods j = some a' →
      (m'.heap a).module = (m'.heap a').module → i ≠ j →
      (m.mods i = none ↔ m.mods j ≠ none) := by
    intro i j a a' hi hj he hij
    rw [hmod a, hmod a'] at he
    cases hmi : m.mods i with
    | none =>
      cases hmj : m.mods j with
      | none =>
        exfalso
        obtain ⟨t, rfl, _, htn⟩ := hnew i a hmi hi
        obtain ⟨t', rfl, _, ht'n⟩ := hnew j a' hmj hj
        have htt : t ≠ t' := by
          intro e
          subst e
          exact hinj i j (saved + t) hij hmi hmj hi hj
        exact hbuf t t' (by omega) (by omega) htt he
      | some y => simp
    | some x =>
      cases hmj : m.mods j with
      | none => simp
      | some y =>
        exfalso
        have hx := hocc i x hmi
        have hy := hocc j y hmj
        rw [hi] at hx
        rw [hj] at hy
        cases hx
        cases hy
        exact hij (huniq i j a a' hmi hmj he)
  refine ⟨hpair, ?_⟩
  intro hfresh i j a a' hi hj he
  by_contra hij
  have hcross := hpair i j a a' hi hj he hij
  have he' := he
  rw [hmod a, hmod a'] at he'
  cases hmi : m.mods i with
  | none =>
    obtain ⟨y, hmj⟩ := Option.ne_none_iff_exists'.mp (hcross.mp hmi)
    obtain ⟨t, rfl, _, htn⟩ := hnew i a hmi hi
    have hy := hocc j y hmj
    rw [hj] at hy
    cases hy
    exact hfresh t (by omega) j a' hmj he'.symm
  | some x =>
    have hmj : m.mods j = none := by
      by_contra hne
      have := hcross.mpr hne
      rw [hmi] at this
      cases this
    obtain ⟨t, rfl, _, htn⟩ := hnew j a' hmj hj
    have hx := hocc i x hmi
    rw [hi] at hx
    cases hx
    exact hfresh t (by omega) i a hmi he'

/-- The example registry with the two-element array at address 11, whose
identifiers are not registered: `debug_mod_restore` returns 2 and no two
occupied slots have equal identifiers afterwards. -/
theorem restore_unique_within_witness :
    debug_mod_restore Build.default two_registered 11 2
      = some (⟨Function.update (Function.update two_registered.mods 2 (some (11 + 0))) 3
          (some (11 + 1)), two_registered.heap⟩, 2) ∧
    ∀ i j a a',
      (⟨Function.update (Function.update two_registered.mods 2 (some (11 + 0))) 3
          (some (11 + 1)), two_registered.heap⟩ : Mem).mods i = some a →
      (⟨Function.update (Function.update two_registered.mods 2 (some (11 + 0))) 3
          (some (11 + 1)), two_registered.heap⟩ : Mem).mods j = some a' →
      (two_registered.heap a).module = (two_registered.heap a').module → i = j :=
  ⟨rfl,
   (restore_unique_within Build.default two_registered 11 2 (by decide)
    (fun i j a a' hi hj he => by
      rw [two_registered_mods] at hi hj
      rw [two_registered_heap] at he
      by_cases hi0 : i = 0 <;> by_cases hi1 : i = 1 <;> by_cases hj0 : j = 0 <;>
        by_cases hj1 : j = 1 <;> simp [hi0, hi1, hj0, hj1] at hi hj <;> try omega
      all_goals (subst hi; subst hj; simp [twin_heap, List.replicate] at he))
    (fun t t' ht ht' htt => by
      rw [two_registered_heap]
      interval_cases t <;> interval_cases t' <;> first | omega | decide)
    _ 2 rfl).2
    (fun t ht k a hk => by
      rw [two_registered_mods] at hk
      rw [two_registered_heap]
      have ht2 : t < 2 := ht
      by_cases hk0 : k = 0
      · simp [hk0] at hk; subst hk
        interval_cases t <;> decide
      · by_cases hk1 : k = 1
        · simp [hk1] at hk; subst hk
          interval_cases t <;> decide
        · simp [hk0, hk1] at hk)⟩

/-- A register call that returns 0 went through the failure path. -/
theorem debug_mod_register_zero (b : Build) (m : Mem) (dm : Addr)
    (h : (debug_mod_register b m dm).2 = 0) : debug_mod_register b m dm = register_fail m dm := by
  rcases debug_mod_register_cases b m dm with h' | ⟨s, j, _, _, _, hres⟩
  · exact h'
  · rcases hres with ⟨_, hres⟩ | ⟨a, _, _, hres⟩
    · rw [hres] at h; cases h
    · rw [hres] at h; cases h

/-- The loop of `reset_search` stops at the first occupied table element. -/
theorem reset_loop_first (b : Build) (t : Nat → search_entry) (hD : b.DEBUG_MOD_MAX < 256)
    (k : Nat) (hk : k < b.DEBUG_MOD_MAX) (hocc : (t k).id ≠ none) :
    ∀ n i, i ≤ k → k - i < n → (∀ j, i ≤ j → j < k → (t j).id = none) →
      reset_loop b t n i = some ⟨k, some (k, 0)⟩ := by
  intro n
  induction n with
  | zero => intro i _ h; omega
  | succ n ih =>
    intro i hik hn hbefore
    by_cases hi : i = k
    · subst hi
      obtain ⟨id, hid⟩ := Option.ne_none_iff_exists'.mp hocc
      simp [reset_loop, hid]
    · have hnone := hbefore i (le_refl _) (by omega)
      have hnext : next_index i = i + 1 := next_index_eq (by omega)
      have hlt : i + 1 < b.DEBUG_MOD_MAX := by omega
      have hrec := ih (i + 1) (by omega) (by omega) (fun j h1 h2 => hbefore j (by omega) h2)
      simp [reset_loop, hnone, hnext, hlt, hrec]

/-- The loop of `reset_search` on a table without an occupied element at or
after `i` ends with `cursor = NULL`. -/
theorem reset_loop_none (b : Build) (t : Nat → search_entry) (hD : b.DEBUG_MOD_MAX < 256) :
    ∀ n i, i < b.DEBUG_MOD_MAX → b.DEBUG_MOD_MAX ≤ i + n →
      (∀ j, i ≤ j → j < b.DEBUG_MOD_MAX → (t j).id = none) →
      reset_loop b t n i = some ⟨b.DEBUG_MOD_MAX, none⟩ := by
  intro n
  induction n with
  | zero => intro i h1 h2; omega
  | succ n ih =>
    intro i hi hn hall
    have hnone := hall i (le_refl _) hi
    have hnext : next_index i = i + 1 := next_index_eq (by omega)
    by_cases hlt : i + 1 < b.DEBUG_MOD_MAX
    · have hrec := ih (i + 1) hlt (by omega) (fun j h1 h2 => hall j (by omega) h2)
      simp [reset_loop, hnone, hnext, hlt, hrec]
    · have : i + 1 = b.DEBUG_MOD_MAX := by omega
      simp [reset_loop, hnone, hnext, hlt, this]

/-- C18. For every search table (of a length that the index type
`debug_mod_index_t` can count) `reset_search`, which reads nothing of the prior
search state, sets `mod_index` to the lowest index of an occupied table element
and `cursor` to the start of its identifier (progress 0); if the table has no
occupied element, `cursor` is `NULL` (no match) after the reset. -/
theorem reset_search_lowest (b : Build) (t : Nat → search_entry)
    (hD : b.DEBUG_MOD_MAX < 256) :
    (∀ k, k < b.DEBUG_MOD_MAX → (t k).id ≠ none → (∀ j, j < k → (t j).id = none) →
      reset_search b t = some ⟨k, some (k, 0)⟩) ∧
    ((∀ j, j < b.DEBUG_MOD_MAX → (t j).id = none) →
      reset_search b t = some ⟨b.DEBUG_MOD_MAX, none⟩) := by
  constructor
  · intro k hk hocc hbefore
    exact reset_loop_first b t hD k hk hocc 256 0 (Nat.zero_le _) (by omega)
      (fun j _ h => hbefore j h)
  · intro hall
    exact reset_loop_none b t hD 256 0 b.max_pos (by omega) (fun j _ h => hall j h)

/-- C18, on the table of the search test: the reset selects element 0. -/
theorem reset_search_lowest_witness :
    reset_search Build.search search_demo_table = some ⟨0, some (0, 0)⟩ :=
  (reset_search_lowest Build.search search_demo_table (by decide)).1 0 (by decide) (by decide)
    (fun j hj => absurd hj (by omega))

/-- C19. No match is absorbing until the reset.  From a state with
`cursor = NULL`, every sequence of characters other than the terminator leaves
the state as it is, and a round of the driver that ends with a non-`NULL`
cursor has read the terminator (it ran `reset_search`). -/
theorem no_match_absorbing (b : Build) (t : Nat → search_entry) (st : search_state)
    (h : st.cursor = none) :
    (∀ cs, search_terminator ∉ cs → driver_run b t st cs = some st) ∧
    (∀ c st', driver_step b t st c = some st' → st'.cursor ≠ none → c = search_terminator) := by
  have hstep : ∀ c, c ≠ search_terminator → driver_step b t st c = some st := by
    intro c hc
    simp [driver_step, hc, h]
  constructor
  · intro cs
    induction cs with
    | nil => intro _; rfl
    | cons c cs ih =>
      intro hcs
      have hc : c ≠ search_terminator := fun e => hcs (by simp [e])
      have hrest : search_terminator ∉ cs := fun e => hcs (by simp [e])
      simp only [driver_run, hstep c hc]
      exact ih hrest
  · intro c st' hrun hcur
    by_contra hc
    rw [hstep c hc] at hrun
    cases hrun
    exact hcur h

/-- C19, on the table of the search test: after `fox` the search is in the
no-match state, and the characters `ab` leave it there. -/
theorem no_match_absorbing_witness :
    driver_run Build.search search_demo_table ⟨0, some (0, 0)⟩ ['f', 'o', 'x'] = some ⟨8, none⟩ ∧
    driver_run Build.search search_demo_table ⟨8, none⟩ ['a', 'b'] = some ⟨8, none⟩ :=
  ⟨by decide,
   (no_match_absorbing Build.search search_demo_table ⟨8, none⟩ rfl).1 ['a', 'b'] (by decide)⟩

theorem char_at_nil (p : Nat) : char_at [] p = Char.ofNat 0 := by
  simp [char_at]

theorem char_at_cons_zero (x : Char) (xs : List Char) : char_at (x :: xs) 0 = x := by
  simp [char_at]

theorem char_at_cons_succ (x : Char) (xs : List Char) (p : Nat) :
    char_at (x :: xs) (p + 1) = char_at xs p := by
  simp [char_at]

/-- A string starts with `s` followed by a character `c` other than NUL exactly
when it starts with `s` and has `c` at position `|s|`. -/
theorem prefix_snoc_iff (c : Char) (hc : c ≠ Char.ofNat 0) :
    ∀ (s id : List Char), (s ++ [c]) <+: id ↔ s <+: id ∧ c = char_at id s.length := by
  intro s
  induction s with
  | nil =>
    intro id
    cases id with
    | nil => simp [char_at_nil, hc]
    | cons y ys =>
      simp only [List.nil_append, List.length_nil, char_at_cons_zero, List.nil_prefix,
        true_and]
      rw [List.cons_prefix_cons]
      simp
  | cons x xs ih =>
    intro id
    cases id with
    | nil => simp
    | cons y ys =>
      simp only [List.cons_append, List.length_cons, char_at_cons_succ]
      rw [List.cons_prefix_cons, List.cons_prefix_cons, ih ys]
      tauto

/-- On strings of at least `n` characters `strncmp(a, b, n) == 0` compares the
first `n` characters. -/
theorem strncmp_eq_iff : ∀ (a b : List Char) (n : Nat), n ≤ a.length → n ≤ b.length →
    (strncmp_eq a b n = true ↔ a.take n = b.take n) := by
  intro a
  induction a with
  | nil =>
    intro b n ha _
    have : n = 0 := by simpa using ha
    subst this
    simp [strncmp_eq]
  | cons x xs ih =>
    intro b n ha hb
    cases n with
    | zero => simp [strncmp_eq]
    | succ n =>
      cases b with
      | nil => simp at hb
      | cons y ys =>
        simp only [List.length_cons, Nat.add_le_add_iff_right] at ha hb
        simp only [strncmp_eq, List.take_succ_cons, List.cons.injEq, Bool.and_eq_true,
          beq_iff_eq]
        rw [ih ys n ha hb]

/-- With `old` starting with `s`, the three tests the loop of
`incremental_search` makes on an occupied table element hold exactly when the
identifier of the element starts with `s` followed by `c`. -/
theorem entry_test_iff (c : Char) (hc : c ≠ Char.ofNat 0) (s old id : List Char) (len : Nat)
    (hold : s <+: old) (hlen : len = id.length) :
    (¬ len < s.length ∧ ¬ c ≠ char_at id s.length ∧ ¬ strncmp_eq old id s.length = false) ↔
      (s ++ [c]) <+: id := by
  have hsold : s.length ≤ old.length := hold.length_le
  have htake : old.take s.length = s := (List.prefix_iff_eq_take.mp hold).symm
  rw [prefix_snoc_iff c hc]
  constructor
  · rintro ⟨h1, h2, h3⟩
    have hsid : s.length ≤ id.length := by omega
    have h3' : strncmp_eq old id s.length = true := by simpa using h3
    have := (strncmp_eq_iff old id s.length hsold hsid).mp h3'
    rw [htake] at this
    refine ⟨List.prefix_iff_eq_take.mpr this, ?_⟩
    by_contra hne
    exact h2 hne
  · rintro ⟨h1, h2⟩
    have hsid : s.length ≤ id.length := h1.length_le
    refine ⟨by omega, fun hne => hne h2, ?_⟩
    have : strncmp_eq old id s.length = true := by
      rw [strncmp_eq_iff old id s.length hsold hsid, htake]
      exact List.prefix_iff_eq_take.mp h1
    simp [this]

/-- The loop of `incremental_search`, entered after the candidate `i` failed
on the character `c` with `s` matched so far: it stops at the first later table
element whose identifier starts with `s` followed by `c`, and ends with
`cursor = NULL` when there is none. -/
theorem search_loop_spec (b : Build) (t : Nat → search_entry) (hD : b.DEBUG_MOD_MAX < 256)
    (hok : TableOk b t) (c : Char) (hc : c ≠ Char.ofNat 0) (s old : List Char)
    (hold : s <+: old) :
    ∀ n i, i < b.DEBUG_MOD_MAX → b.DEBUG_MOD_MAX ≤ i + n →
      (∀ k, i < k → k < b.DEBUG_MOD_MAX → Matches t k (s ++ [c]) →
        (∀ j, i < j → j < k → ¬ Matches t j (s ++ [c])) →
        search_loop b t c old s.length n i = some ⟨k, some (k, s.length + 1)⟩) ∧
      ((∀ j, i < j → j < b.DEBUG_MOD_MAX → ¬ Matches t j (s ++ [c])) →
        search_loop b t c old s.length n i = some ⟨b.DEBUG_MOD_MAX, none⟩) := by
  intro n
  induction n with
  | zero => intro i h1 h2; omega
  | succ n ih =>
    intro i hi hn
    have hnext : next_index i = i + 1 := next_index_eq (by omega)
    by_cases hlt : i + 1 < b.DEBUG_MOD_MAX
    · obtain ⟨ih1, ih2⟩ := ih (i + 1) hlt (by omega)
      -- the loop passes over element `i + 1` exactly when it does not match
      have hpass : ¬ Matches t (i + 1) (s ++ [c]) →
          search_loop b t c old s.length (n + 1) i
            = search_loop b t c old s.length n (i + 1) := by
        intro hno
        cases hid : (t (i + 1)).id with
        | none => simp [search_loop, hnext, hlt, hid]
        | some id =>
          have hlen := hok (i + 1) hlt id hid
          have htest := entry_test_iff c hc s old id _ hold hlen
          have hfail : ¬ (¬ (t (i + 1)).len < s.length ∧ ¬ c ≠ char_at id s.length
              ∧ ¬ strncmp_eq old id s.length = false) :=
            fun h => hno ⟨id, hid, htest.mp h⟩
          simp only [search_loop, hnext, hlt, hid, if_true]
          by_cases h1 : (t (i + 1)).len < s.length
          · simp [h1]
          · by_cases h2 : c ≠ char_at id s.length
            · simp [h1, h2]
            · by_cases h3 : strncmp_eq old id s.length = false
              · simp [h1, h2, h3]
              · exact absurd ⟨h1, h2, h3⟩ hfail
      have hstop : Matches t (i + 1) (s ++ [c]) →
          search_loop b t c old s.length (n + 1) i
            = some ⟨i + 1, some (i + 1, s.length + 1)⟩ := by
        rintro ⟨id, hid, hpre⟩
        have hlen := hok (i + 1) hlt id hid
        obtain ⟨h1, h2, h3⟩ := (entry_test_iff c hc s old id _ hold hlen).mpr hpre
        simp only [search_loop, hnext, hlt, hid, if_true, if_neg h1, if_neg h2, if_neg h3]
      constructor
      · intro k hik hk hmatch hbefore
        by_cases hk1 : k = i + 1
        · subst hk1
          exact hstop hmatch
        · rw [hpass (hbefore (i + 1) (by omega) (by omega))]
          exact ih1 k (by omega) hk hmatch (fun j h1 h2 => hbefore j (by omega) h2)
      · intro hall
        rw [hpass (hall (i + 1) (by omega) hlt)]
        exact ih2 (fun j h1 h2 => hall j (by omega) h2)
    · have hend : i + 1 = b.DEBUG_MOD_MAX := by omega
      constructor
      · intro k hik hk
        omega
      · intro _
        simp [search_loop, hnext, hlt, hend]

/-- The loop of `build_search_table` does not end when the table is longer
than the values of the index type. -/
theorem build_loop_no_end (b : Build) (m : Mem) :
    ∀ n i t cursor, i + n ≤ b.DEBUG_MOD_MAX → i + n ≤ 256 →
      build_loop b m n i t cursor = none := by
  intro n
  induction n with
  | zero => intro i t cursor _ _; rfl
  | succ n ih =>
    intro i t cursor h1 h2
    have hi : i < b.DEBUG_MOD_MAX := by omega
    cases n with
    | zero =>
      cases hmi : m.mods i with
      | none => simp [build_loop, hi, hmi]
      | some a =>
        cases hs : (m.heap a).module with
        | none => simp [build_loop, hi, hmi, hs]
        | some s => simp [build_loop, hi, hmi, hs]
    | succ n =>
      have hnext : next_index i = i + 1 := next_index_eq (by omega)
      cases hmi : m.mods i with
      | none =>
        simp only [build_loop, hi, hmi, if_true, hnext]
        exact ih (i + 1) _ _ (by omega) (by omega)
      | some a =>
        cases hs : (m.heap a).module with
        | none => simp [build_loop, hi, hmi, hs]
        | some s =>
          simp only [build_loop, hi, hmi, hs, if_true, hnext]
          exact ih (i + 1) _ _ (by omega) (by omega)

/-- The table the loop of `build_search_table` leaves records the length of
every identifier. -/
theorem build_loop_ok (b : Build) (m : Mem) (hD : b.DEBUG_MOD_MAX < 256) :
    ∀ n i t cursor t' st, i ≤ b.DEBUG_MOD_MAX →
      build_loop b m n i t cursor = some (t', st) →
      (∀ j, j < i → ∀ id, (t j).id = some id → (t j).len = id.length) →
      ∀ j, j < b.DEBUG_MOD_MAX → ∀ id, (t' j).id = some id → (t' j).len = id.length := by
  intro n
  induction n with
  | zero => intro i t cursor t' st _ h; simp [build_loop] at h
  | succ n ih =>
    intro i t cursor t' st hi h hbefore
    by_cases hlt : i < b.DEBUG_MOD_MAX
    · have hnext : next_index i = i + 1 := next_index_eq (by omega)
      have hupd : ∀ (e : search_entry), (∀ id, e.id = some id → e.len = id.length) →
          ∀ j, j < i + 1 → ∀ id, (Function.update t i e j).id = some id →
            (Function.update t i e j).len = id.length := by
        intro e he j hj id hid
        by_cases hji : j = i
        · subst hji
          rw [Function.update_same] at hid ⊢
          exact he id hid
        · rw [Function.update_noteq hji] at hid ⊢
          exact hbefore j (by omega) id hid
      cases hmi : m.mods i with
      | none =>
        simp only [build_loop, hlt, hmi, if_true, hnext] at h
        exact ih (i + 1) _ _ t' st (by omega) h
          (hupd ⟨none, 0⟩ (fun id hid => by simp at hid))
      | some a =>
        cases hs : (m.heap a).module with
        | none => simp [build_loop, hlt, hmi, hs] at h
        | some s =>
          simp only [build_loop, hlt, hmi, hs, if_true, hnext] at h
          exact ih (i + 1) _ _ t' st (by omega) h
            (hupd ⟨some s, s.length⟩ (fun id hid => by
              simp only [Option.some.injEq] at hid
              subst hid
              rfl))
    · have hiD : i = b.DEBUG_MOD_MAX := by omega
      simp only [build_loop, hlt, if_false, Option.some.injEq, Prod.mk.injEq] at h
      obtain ⟨rfl, _⟩ := h
      intro j hj
      exact hbefore j (by omega)

/-- A table that `build_search_table` returns has a length the index type can
count and records the length of every identifier. -/
theorem build_search_table_ok (b : Build) (m : Mem) (t0 t : Nat → search_entry)
    (st0 : search_state) (h : build_search_table b m t0 = some (t, st0)) :
    b.DEBUG_MOD_MAX < 256 ∧ TableOk b t := by
  have hD : b.DEBUG_MOD_MAX < 256 := by
    by_contra hge
    have := build_loop_no_end b m 256 0 t0 none (by omega) (by omega)
    unfold build_search_table at h
    rw [this] at h
    cases h
  refine ⟨hD, ?_⟩
  exact build_loop_ok b m hD 256 0 t0 none t st0 (Nat.zero_le _) h
    (fun j hj => absurd hj (by omega))

theorem Matches.shorter {t : Nat → search_entry} {i : Nat} {s : List Char} {c : Char}
    (h : Matches t i (s ++ [c])) : Matches t i s := by
  obtain ⟨id, hid, hpre⟩ := h
  exact ⟨id, hid, (List.prefix_append s [c]).trans hpre⟩

/-- After `reset_search` the search state reports the first match for the
empty input. -/
theorem reset_search_first (b : Build) (t : Nat → search_entry)
    (hD : b.DEBUG_MOD_MAX < 256) :
    ∃ st, reset_search b t = some st ∧ FirstMatch b t [] st := by
  classical
  have hiff : ∀ i, Matches t i [] ↔ (t i).id ≠ none := by
    intro i
    constructor
    · rintro ⟨id, hid, _⟩
      simp [hid]
    · intro h
      obtain ⟨id, hid⟩ := Option.ne_none_iff_exists'.mp h
      exact ⟨id, hid, List.nil_prefix⟩
  by_cases hex : ∃ k, k < b.DEBUG_MOD_MAX ∧ (t k).id ≠ none
  · have hk := Nat.find_spec hex
    have hmin : ∀ j, j < Nat.find hex → (t j).id = none := by
      intro j hj
      by_contra hne
      exact Nat.find_min hex hj ⟨by omega, hne⟩
    refine ⟨_, reset_loop_first b t hD (Nat.find hex) hk.1 hk.2 256 0 (Nat.zero_le _)
      (by omega) (fun j _ h => hmin j h), ?_⟩
    left
    refine ⟨Nat.find hex, hk.1, (hiff _).mpr hk.2, ?_, rfl⟩
    intro j hj hm
    exact (hiff j).mp hm (hmin j hj)
  · have hall : ∀ j, j < b.DEBUG_MOD_MAX → (t j).id = none := by
      intro j hj
      by_contra hne
      exact hex ⟨j, hj, hne⟩
    refine ⟨_, reset_loop_none b t hD 256 0 b.max_pos (by omega) (fun j _ h => hall j h), ?_⟩
    right
    refine ⟨rfl, ?_⟩
    intro i hi hm
    exact (hiff i).mp hm (hall i hi)

/-- One round of the driver keeps the search state on the first match: after a
character `c` that is neither NUL nor the terminator, the state that reported
the first match for `s` reports the first match for `s` followed by `c`. -/
theorem driver_step_first (b : Build) (t : Nat → search_entry) (hD : b.DEBUG_MOD_MAX < 256)
    (hok : TableOk b t) (s : List Char) (st : search_state) (c : Char)
    (hc : c ≠ Char.ofNat 0) (hterm : c ≠ search_terminator) (hst : FirstMatch b t s st) :
    ∃ st', driver_step b t st c = some st' ∧ FirstMatch b t (s ++ [c]) st' := by
  classical
  rcases hst with ⟨i, hi, ⟨id, hid, hpre⟩, hleast, rfl⟩ | ⟨hnone, hno⟩
  · have hlen := hok i hi id hid
    have hbelow : ∀ j, j < i → ¬ Matches t j (s ++ [c]) := fun j hj hm => hleast j hj hm.shorter
    by_cases hcond : s.length < (t i).len ∧ c = char_at id s.length
    · refine ⟨⟨i, some (i, s.length + 1)⟩, ?_, ?_⟩
      · have h1 : driver_step b t ⟨i, some (i, s.length)⟩ c
            = incremental_search b t ⟨i, some (i, s.length)⟩ c := by
          simp only [driver_step, if_neg hterm]
        rw [h1]
        simp only [incremental_search, hid, if_true]
        rw [if_pos hcond]
      · left
        refine ⟨i, hi, ⟨id, hid, (prefix_snoc_iff c hc s id).mpr ⟨hpre, hcond.2⟩⟩, hbelow, ?_⟩
        simp
    · have hself : ¬ Matches t i (s ++ [c]) := by
        rintro ⟨id', hid', hpre'⟩
        rw [hid] at hid'
        cases hid'
        have h2 := ((prefix_snoc_iff c hc s id).mp hpre').2
        have h1 : s.length < id.length := by
          have := hpre'.length_le
          simp at this
          omega
        exact hcond ⟨by omega, h2⟩
      have hstep : driver_step b t ⟨i, some (i, s.length)⟩ c
          = search_loop b t c id s.length 256 i := by
        simp only [driver_step, hterm, incremental_search, hid, if_true, if_false, if_neg hcond]
      obtain ⟨hfound, hnot⟩ := search_loop_spec b t hD hok c hc s id hpre 256 i hi (by omega)
      rw [hstep]
      by_cases hex : ∃ k, i < k ∧ k < b.DEBUG_MOD_MAX ∧ Matches t k (s ++ [c])
      · have hk := Nat.find_spec hex
        have hmin : ∀ j, i < j → j < Nat.find hex → ¬ Matches t j (s ++ [c]) := by
          intro j hij hj hm
          exact Nat.find_min hex hj ⟨hij, by omega, hm⟩
        refine ⟨_, hfound (Nat.find hex) hk.1 hk.2.1 hk.2.2 hmin, ?_⟩
        left
        refine ⟨Nat.find hex, hk.2.1, hk.2.2, ?_, by simp⟩
        intro j hj
        rcases Nat.lt_trichotomy j i with h | h | h
        · exact hbelow j h
        · subst h; exact hself
        · exact hmin j h hj
      · have hall : ∀ j, i < j → j < b.DEBUG_MOD_MAX → ¬ Matches t j (s ++ [c]) :=
          fun j hij hj hm => hex ⟨j, hij, hj, hm⟩
        refine ⟨_, hnot hall, ?_⟩
        right
        refine ⟨rfl, ?_⟩
        intro j hj
        rcases Nat.lt_trichotomy j i with h | h | h
        · exact hbelow j h
        · subst h; exact hself
        · exact hall j h hj
  · refine ⟨st, ?_, ?_⟩
    · simp [driver_step, hterm, hnone]
    · right
      exact ⟨hnone, fun i hi hm => hno i hi hm.shorter⟩

/-- The driver keeps the search state on the first match along any input
without NUL and terminator. -/
theorem driver_run_first (b : Build) (t : Nat → search_entry) (hD : b.DEBUG_MOD_MAX < 256)
    (hok : TableOk b t) :
    ∀ (cs s : List Char) (st : search_state), Char.ofNat 0 ∉ cs → search_terminator ∉ cs →
      FirstMatch b t s st →
      ∃ st', driver_run b t st cs = some st' ∧ FirstMatch b t (s ++ cs) st' := by
  intro cs
  induction cs with
  | nil =>
    intro s st _ _ hst
    exact ⟨st, rfl, by simpa using hst⟩
  | cons c cs ih =>
    intro s st hnul hterm hst
    have hc : c ≠ Char.ofNat 0 := fun e => hnul (by simp [e])
    have hct : c ≠ search_terminator := fun e => hterm (by simp [e])
    obtain ⟨st1, h1, hst1⟩ := driver_step_first b t hD hok s st c hc hct hst
    obtain ⟨st2, h2, hst2⟩ := ih (s ++ [c]) st1 (fun e => hnul (by simp [e]))
      (fun e => hterm (by simp [e])) hst1
    refine ⟨st2, ?_, by simpa using hst2⟩
    simp only [driver_run, h1]
    exact h2

/-- C17. The incremental search reports the first prefix match.  For every
search table `t` that `build_search_table` returns for a registry and every
input string `s` without NUL and terminator: `reset_search` and the driver
rounds for the characters of `s` (which feed a character to
`incremental_search` only while `cursor` is not `NULL`) all return, and in the
final state `mod_index` is the least table index whose identifier starts with
`s` and `cursor` points `|s|` characters into it, if there is such an index;
`cursor` is `NULL` otherwise. -/
theorem search_first_prefix (b : Build) (m : Mem) (t0 t : Nat → search_entry)
    (st0 : search_state) (hbuild : build_search_table b m t0 = some (t, st0))
    (s : List Char) (hnul : Char.ofNat 0 ∉ s) (hterm : search_terminator ∉ s) :
    ∃ st1 st, reset_search b t = some st1 ∧ driver_run b t st1 s = some st ∧
      (∀ i, i < b.DEBUG_MOD_MAX → Matches t i s → (∀ j, j < i → ¬ Matches t j s) →
        st = ⟨i, some (i, s.length)⟩) ∧
      ((∀ i, i < b.DEBUG_MOD_MAX → ¬ Matches t i s) → st.cursor = none) := by
  obtain ⟨hD, hok⟩ := build_search_table_ok b m t0 t st0 hbuild
  obtain ⟨st1, h1, hst1⟩ := reset_search_first b t hD
  obtain ⟨st, h2, hst⟩ := driver_run_first b t hD hok s [] st1 hnul hterm hst1
  simp only [List.nil_append] at hst
  refine ⟨st1, st, h1, h2, ?_, ?_⟩
  · intro i hi hm hleast
    rcases hst with ⟨i', hi', hm', hleast', rfl⟩ | ⟨_, hno⟩
    · rcases Nat.lt_trichotomy i i' with h | h | h
      · exact absurd hm (hleast' i h)
      · subst h; rfl
      · exact absurd hm' (hleast i' h)
    · exact absurd hm (hno i hi)
  · intro hno
    rcases hst with ⟨i', hi', hm', _, _⟩ | ⟨hnone, _⟩
    · exact absurd hm' (hno i' hi')
    · exact hnone

/-- C17, on the table built in the search test, for the input `fr`. -/
theorem search_first_prefix_witness :
    ∃ st1 st, reset_search Build.search search_demo_table = some st1 ∧
      driver_run Build.search search_demo_table st1 ['f', 'r'] = some st ∧
      (∀ i, i < Build.search.DEBUG_MOD_MAX → Matches search_demo_table i ['f', 'r'] →
        (∀ j, j < i → ¬ Matches search_demo_table j ['f', 'r']) →
        st = ⟨i, some (i, ['f', 'r'].length)⟩) ∧
      ((∀ i, i < Build.search.DEBUG_MOD_MAX → ¬ Matches search_demo_table i ['f', 'r']) →
        st.cursor = none) :=
  search_first_prefix Build.search search_registry (fun _ => ⟨none, 0⟩) search_demo_table
    ⟨0, some (0, 0)⟩ rfl ['f', 'r'] (by decide) (by decide)

/-- C23 fails.  In the search test `build_search_table` leaves `mod_index = 0`
and `cursor` at the start of the identifier of table element 0, not `NULL`: the
statement `if (! cursor) cursor = search_table[i].id;` of its loop sets it. -/
theorem build_leaves_cursor :
    (build_search_table Build.search search_registry (fun _ => ⟨none, 0⟩)).map (fun r => r.2)
      = some ⟨0, some (0, 0)⟩ ∧
    (search_demo_table 0).id = some ['f', 'o', 'o'] := by
  exact ⟨by decide, by decide⟩

/-- The loop of `build_search_table`, for a table length the index type can
count and a registry whose structures have identifiers: it returns with
`mod_index = 0`; a cursor that is set stays; a `NULL` cursor is set to the start
of the identifier of the first occupied slot from `i` on, and stays `NULL` when
there is none. -/
theorem build_loop_cursor (b : Build) (m : Mem) (hD : b.DEBUG_MOD_MAX < 256)
    (hnamed : ∀ i, i < b.DEBUG_MOD_MAX → ∀ a, m.mods i = some a → (m.heap a).module ≠ none) :
    ∀ n i t cur, i ≤ b.DEBUG_MOD_MAX → b.DEBUG_MOD_MAX - i < n →
      ∃ t' cur', build_loop b m n i t cur = some (t', ⟨0, cur'⟩) ∧
        (cur ≠ none → cur' = cur) ∧
        (cur = none →
          (∀ k, i ≤ k → k < b.DEBUG_MOD_MAX → m.mods k ≠ none →
            (∀ j, i ≤ j → j < k → m.mods j = none) → cur' = some (k, 0)) ∧
          ((∀ j, i ≤ j → j < b.DEBUG_MOD_MAX → m.mods j = none) → cur' = none)) := by
  intro n
  induction n with
  | zero => intro i t cur _ h; omega
  | succ n ih =>
    intro i t cur hi hn
    by_cases hlt : i < b.DEBUG_MOD_MAX
    · have hnext : next_index i = i + 1 := next_index_eq (by omega)
      cases hmi : m.mods i with
      | none =>
        obtain ⟨t', cur', hres, hkeep, hset⟩ :=
          ih (i + 1) (Function.update t i ⟨none, 0⟩) cur (by omega) (by omega)
        refine ⟨t', cur', ?_, hkeep, ?_⟩
        · simp only [build_loop, hlt, hmi, if_true, hnext]
          exact hres
        · intro hcur
          obtain ⟨h1, h2⟩ := hset hcur
          constructor
          · intro k hik hk hocc hbefore
            have hki : k ≠ i := by
              intro e; subst e; exact hocc hmi
            exact h1 k (by omega) hk hocc (fun j hj1 hj2 => hbefore j (by omega) hj2)
          · intro hall
            exact h2 (fun j hj1 hj2 => hall j (by omega) hj2)
      | some a =>
        obtain ⟨s, hs⟩ := Option.ne_none_iff_exists'.mp (hnamed i hlt a hmi)
        cases hcur : cur with
        | none =>
          obtain ⟨t', cur', hres, hkeep, _⟩ :=
            ih (i + 1) (Function.update t i ⟨some s, s.length⟩) (some (i, 0)) (by omega)
              (by omega)
          have hc : cur' = some (i, 0) := hkeep (by simp)
          refine ⟨t', cur', ?_, fun h => absurd rfl h, fun _ => ⟨?_, ?_⟩⟩
          · simp only [build_loop, hlt, hmi, hs, if_true, hnext]
            exact hres
          · intro k hik hk hocc hbefore
            have hki : k = i := by
              by_contra hne
              have := hbefore i (le_refl _) (by omega)
              rw [hmi] at this
              cases this
            rw [hki, hc]
          · intro hall
            have := hall i (le_refl _) hlt
            rw [hmi] at this
            cases this
        | some p =>
          obtain ⟨t', cur', hres, hkeep, _⟩ :=
            ih (i + 1) (Function.update t i ⟨some s, s.length⟩) (some p) (by omega) (by omega)
          refine ⟨t', cur', ?_, fun _ => hkeep (by simp), fun h => by simp at h⟩
          simp only [build_loop, hlt, hmi, hs, if_true, hnext]
          exact hres
    · refine ⟨t, cur, ?_, fun _ => rfl, fun hcur => ⟨?_, fun _ => hcur⟩⟩
      · simp [build_loop, hlt]
      · intro k hik hk
        omega

/-- C23, amended.  For every registry state whose registered structures have
identifiers, and a table length the index type can count,
`build_search_table` returns with `mod_index = 0` and with `cursor` at the
start of the identifier of the first occupied slot; `cursor` is `NULL` after
the build only when no slot is occupied. -/
theorem build_sets_cursor (b : Build) (m : Mem) (t0 : Nat → search_entry)
    (hD : b.DEBUG_MOD_MAX < 256)
    (hnamed : ∀ i, i < b.DEBUG_MOD_MAX → ∀ a, m.mods i = some a → (m.heap a).module ≠ none) :
    ∃ t st, build_search_table b m t0 = some (t, st) ∧ st.mod_index = 0 ∧
      (∀ k, k < b.DEBUG_MOD_MAX → m.mods k ≠ none → (∀ j, j < k → m.mods j = none) →
        st.cursor = some (k, 0)) ∧
      ((∀ j, j < b.DEBUG_MOD_MAX → m.mods j = none) → st.cursor = none) := by
  obtain ⟨t', cur', hres, _, hset⟩ :=
    build_loop_cursor b m hD hnamed 256 0 t0 none (Nat.zero_le _) (by omega)
  obtain ⟨h1, h2⟩ := hset rfl
  refine ⟨t', ⟨0, cur'⟩, hres, rfl, ?_, ?_⟩
  · intro k hk hocc hbefore
    exact h1 k (Nat.zero_le _) hk hocc (fun j _ hj => hbefore j hj)
  · intro hall
    exact h2 (fun j _ hj => hall j hj)

/-- C23 amended, on the registry of the search test. -/
theorem build_sets_cursor_witness :
    ∃ t st, build_search_table Build.search search_registry (fun _ => ⟨none, 0⟩) = some (t, st) ∧
      st.mod_index = 0 ∧
      (∀ k, k < Build.search.DEBUG_MOD_MAX → search_registry.mods k ≠ none →
        (∀ j, j < k → search_registry.mods j = none) → st.cursor = some (k, 0)) ∧
      ((∀ j, j < Build.search.DEBUG_MOD_MAX → search_registry.mods j = none) →
        st.cursor = none) :=
  build_sets_cursor Build.search search_registry (fun _ => ⟨none, 0⟩) (by decide)
    (fun i hi a ha => by
      have hi8 : i < 8 := hi
      interval_cases i <;> cases ha <;> decide)

/-- C22 fails when the capacity exceeds the number of occupied slots.  On the
example registry (slots 0 and 1 occupied, slots 2 and 3 empty)
`debug_mod_save(saved, 3)` with the array at address 10 returns 2, and the
following `debug_mod_restore(saved, 3)` consumes the two saved elements, points
the empty slot 2 to array position 2 (address 12, which the save call has not
written) and returns 3. -/
theorem save_restore_binds_empty_slot :
    two_registered.mods 2 = none ∧
    (debug_mod_save Build.default two_registered 10 3).map (fun r => r.2) = some 2 ∧
    ((debug_mod_save Build.default two_registered 10 3).bind
        (fun r => debug_mod_restore Build.default r.1 10 3)).map (fun r => (r.2, r.1.mods 2))
      = some (3, some 12) := by
  refine ⟨rfl, rfl, rfl⟩

/-- The loop of `debug_mod_restore` when the slots from `j` up to `t - 1` hold
structures with the identifiers of the array elements at the same positions:
a structure that none of these slots holds is not written. -/
theorem restore_loop_matched_frame (b : Build) (m : Mem) (wf : WellFormed b m) (saved t : Nat)
    (hocc : ∀ i, i < t → m.mods i ≠ none) (htD : t ≤ b.DEBUG_MOD_MAX) (ht : t < 256)
    (hsep : ∀ i (a : Nat), m.mods i = some a → ∀ j, j < t → a ≠ saved + j) :
    ∀ n j mc m3 r, j < t → mc.mods = m.mods →
      (∀ j' a, j ≤ j' → j' < t → m.mods j' = some a →
        (mc.heap (saved + j')).module = (m.heap a).module) →
      (∀ j' a, m.mods j' = some a → (mc.heap a).module = (m.heap a).module) →
      restore_loop b saved t n j j mc = some (m3, r) →
      ∀ x : Nat, (∀ j', j ≤ j' → j' < t → m.mods j' ≠ some x) → m3.heap x = mc.heap x := by
  intro n
  induction n with
  | zero =>
    intro j mc m3 r _ _ _ _ h x _
    simp only [restore_loop, Option.some.injEq, Prod.mk.injEq] at h
    rw [← h.1]
  | succ n ih =>
    intro j mc m3 r hjt hmods hbuf hids h x hx
    have hjD : j < b.DEBUG_MOD_MAX := by omega
    obtain ⟨a, ha⟩ := Option.ne_none_iff_exists'.mp (hocc j hjt)
    have ha' : mc.mods j = some a := by rw [hmods]; exact ha
    have hnext : next_index j = j + 1 := next_index_eq (by omega)
    have hcond : (mc.heap a).module ≠ none ∧ (mc.heap (saved + j)).module ≠ none
        ∧ (mc.heap a).module = (mc.heap (saved + j)).module := by
      have h1 := hids j a ha
      have h2 := hbuf j a (le_refl _) hjt ha
      have h3 := wf.named j a ha
      rw [h1, h2]
      exact ⟨h3, h3, rfl⟩
    have hxa : x ≠ a := by
      intro e
      subst e
      exact hx j (le_refl _) hjt ha
    simp only [restore_loop, hjD, ha', if_true] at h
    rw [if_pos hcond] at h
    by_cases hlast : j + 1 ≥ t
    · simp only [hnext, hlast, if_true, Option.some.injEq, Prod.mk.injEq] at h
      rw [← h.1]
      exact Function.update_noteq hxa _ _
    · simp only [hnext, hlast, if_false] at h
      have hrec := ih (j + 1)
        ⟨mc.mods, Function.update mc.heap a
          (debug_mod_copy_config (mc.heap a) (mc.heap (saved + j)))⟩ m3 r (by omega) hmods
        (fun j' a' h1 h2 hja' => by
          have hne : saved + j' ≠ a := fun e => hsep j a ha j' h2 e.symm
          show (Function.update mc.heap a
            (debug_mod_copy_config (mc.heap a) (mc.heap (saved + j))) (saved + j')).module = _
          rw [Function.update_noteq hne]
          exact hbuf j' a' (by omega) h2 hja')
        (fun j' a' hja' => by
          show (Function.update mc.heap a
            (debug_mod_copy_config (mc.heap a) (mc.heap (saved + j))) a').module = _
          rw [update_heap_module mc.heap a
            (debug_mod_copy_config (mc.heap a) (mc.heap (saved + j))) rfl a']
          exact hids j' a' hja')
        h x (fun j' h1 h2 => hx j' (by omega) h2)
      rw [hrec]
      exact Function.update_noteq hxa _ _

/-- C22, amended.  In every registry state reachable by register calls whose
occupied slots are the first `k`, for every capacity `c` with `1 ≤ c ≤ k` and
an array that holds none of the registered structures: `debug_mod_save(saved,
c)` returns `c`, the following `debug_mod_restore(saved, c)` returns `c`, and
afterwards the slot array is as before (no empty slot has been pointed to an
array position) and every registered structure has the function, stream and
identifier it had before. -/
theorem save_restore_identity (b : Build) (m : Mem) (hm : Reachable b m) (saved k c : Nat)
    (hocc : ∀ i, m.mods i ≠ none ↔ i < k) (hc1 : 1 ≤ c) (hck : c ≤ k)
    (hsep : ∀ i (a : Nat), m.mods i = some a → ∀ j, j < c → a ≠ saved + j) :
    ∃ m1 m3, debug_mod_save b m saved c = some (m1, c) ∧
      debug_mod_restore b m1 saved c = some (m3, c) ∧ m3.mods = m.mods ∧
      ∀ i a, m.mods i = some a →
        (m3.heap a).func = (m.heap a).func ∧ (m3.heap a).stream = (m.heap a).stream ∧
        (m3.heap a).module = (m.heap a).module := by
  have wf := hm.wellFormed
  have hN := debug_mod_max_lt b
  have hND := debug_mod_max_le b
  have hkN : k ≤ debug_mod_max b := by
    by_contra hlt
    have h1 : m.mods (k - 1) ≠ none := (hocc (k - 1)).mpr (by omega)
    exact h1 (wf.bound (k - 1) (by omega))
  have hmin : min k c = c := by omega
  obtain ⟨m1, hsave, hrest⟩ := save_restore_round_trip b m hm saved k c hocc (by omega) hc1
    (by omega) (Or.inl (by omega)) hsep
  rw [hmin] at hsave hrest
  have hm1 : m1 = ⟨m.mods, save_heap m saved c⟩ := by
    have h2 := debug_mod_save_prefix b m saved k c hocc hc1 (by omega) (Or.inl (by omega)) hsep
    rw [hmin, hsave] at h2
    simp only [Option.some.injEq, Prod.mk.injEq] at h2
    exact h2.1
  obtain ⟨m3, hrestore, hmods3, hvals⟩ := hrest m1 rfl (fun _ _ => rfl) (fun _ _ _ => rfl)
  have hoff : ∀ i (a : Nat), m.mods i = some a → m1.heap a = m.heap a := by
    intro i a hia
    rw [hm1]
    exact save_heap_off m saved c a (hsep i a hia)
  have hmodule : ∀ x, (m3.heap x).module = (m1.heap x).module := by
    have hc256 : c < 256 := by omega
    obtain ⟨_, _, h3, _⟩ := restore_loop_frame b saved c hc256 _ 0 0 m1 m3 c (by omega) hrestore
    exact h3
  refine ⟨m1, m3, hsave, hrestore, hmods3, ?_⟩
  intro i a hia
  have hmod : (m3.heap a).module = (m.heap a).module := by
    rw [hmodule a, hoff i a hia]
  by_cases hic : i < c
  · exact ⟨(hvals i a hic hia).1, (hvals i a hic hia).2, hmod⟩
  · have hframe := restore_loop_matched_frame b m wf saved c
      (fun j hj => (hocc j).mpr (by omega)) (by omega) (by omega) hsep (sizeof_mods b) 0 m1 m3 c
      (by omega) (by rw [hm1])
      (fun j' a' _ hj' hja' => by
        rw [hm1]
        show (save_heap m saved c (saved + j')).module = _
        rw [save_heap_at m saved c j' a' hj' hja'])
      (fun j' a' hja' => by rw [hoff j' a' hja'])
      hrestore a
      (fun j' _ hj' hja' => by
        have := wf.unique j' i a a hja' hia rfl
        omega)
    rw [hframe, hoff i a hia]
    exact ⟨rfl, rfl, hmod ▸ rfl⟩

/-- C22 amended, on the example registry with the array at address 10 and the
capacity 2. -/
theorem save_restore_identity_witness :
    ∃ m1 m3, debug_mod_save Build.default two_registered 10 2 = some (m1, 2) ∧
      debug_mod_restore Build.default m1 10 2 = some (m3, 2) ∧
      m3.mods = two_registered.mods ∧
      ∀ i a, two_registered.mods i = some a →
        (m3.heap a).func = (two_registered.heap a).func ∧
        (m3.heap a).stream = (two_registered.heap a).stream ∧
        (m3.heap a).module = (two_registered.heap a).module :=
  save_restore_identity Build.default two_registered two_registered_reachable 10 2 2
    (fun i => by
      rw [two_registered_mods]
      by_cases h0 : i = 0
      · simp [h0]
      · by_cases h1 : i = 1
        · simp [h1]
        · simp [h0, h1]; omega)
    (by decide) (by decide)
    (fun i a h j hj => by
      rw [two_registered_mods] at h
      by_cases h0 : i = 0
      · simp [h0] at h; subst h; omega
      · by_cases h1 : i = 1
        · simp [h1] at h; subst h; omega
        · simp [h0, h1] at h)

/-- A call of `debug_mod_init` whose registration step leaves a function other
than `debug_mod_init` is the call of that function, without nesting; when the
step leaves `NULL` the call returns 0. -/
theorem debug_mod_init_nested_one (b : Build) (init_handle : Nat)
    (user : Nat → Mem → Addr → List Char → Mem × Int) (default_func : Option Nat)
    (stderr : Nat) (n : Nat) (m : Mem) (self : Addr) (context : List Char)
    (h : ((debug_mod_preinit b default_func stderr m self).heap self).func ≠ some init_handle) :
    debug_mod_init_nested b init_handle user default_func stderr (n + 1) m self context
      = some (match ((debug_mod_preinit b default_func stderr m self).heap self).func with
          | some f => user f (debug_mod_preinit b default_func stderr m self) self context
          | none => (debug_mod_preinit b default_func stderr m self, 0)) := by
  cases hf : ((debug_mod_preinit b default_func stderr m self).heap self).func with
  | none => simp only [debug_mod_init_nested, hf]
  | some f =>
    have hne : f ≠ init_handle := by
      intro e
      rw [hf, e] at h
      exact h rfl
    simp only [debug_mod_init_nested, hf, if_neg hne]

/-- In a state reachable by register calls, the registration step of
`debug_mod_init` on a structure that a slot already references changes
nothing. -/
theorem debug_mod_preinit_registered (b : Build) (default_func : Option Nat) (stderr : Nat)
    (m : Mem) (hm : Reachable b m) (i : Nat) (self : Addr) (hi : m.mods i = some self) :
    debug_mod_preinit b default_func stderr m self = m := by
  obtain ⟨s, hs⟩ := Option.ne_none_iff_exists'.mp (hm.wellFormed.named i self hi)
  have hsk := hm.wellFormed.skip_before hi hs
  have hreg : debug_mod_register b m self = (m, 1) := by
    rw [debug_mod_register_known b m self s i self hs hsk.1 hsk.2 hi hs]
    have h1 : Function.update m.mods i (some self) = m.mods := by
      rw [← hi]; exact Function.update_eq_self i m.mods
    have h2 : Function.update m.heap self
        (debug_mod_copy_config (m.heap self) (m.heap self)) = m.heap := by
      have : debug_mod_copy_config (m.heap self) (m.heap self) = m.heap self := rfl
      rw [this]; exact Function.update_eq_self self m.heap
    rw [h1, h2]
  simp [debug_mod_preinit, hreg]

/-- C25 fails for a structure that is already registered.  In a state reachable
by register calls, take a structure `self` that a slot references and whose
function is `debug_mod_init` (the macro `DEBUG_MOD_INIT` sets it so, and
`debug_mod_register` has registered the structure).  The registration step
of `debug_mod_init` finds the structure itself, copies its configuration onto
itself and changes nothing, so the function that is left in the structure is
`debug_mod_init`, and the call dispatches to itself again in the same state:
no nesting depth suffices for the call to return. -/
theorem init_reenters_itself (b : Build) (init_handle : Nat)
    (user : Nat → Mem → Addr → List Char → Mem × Int) (default_func : Option Nat)
    (stderr : Nat) (m : Mem) (hm : Reachable b m) (i : Nat) (self : Addr)
    (hi : m.mods i = some self) (hf : (m.heap self).func = some init_handle)
    (context : List Char) :
    ((debug_mod_preinit b default_func stderr m self).heap self).func = some init_handle ∧
    ∀ n, debug_mod_init_nested b init_handle user default_func stderr n m self context
      = none := by
  have hpre := debug_mod_preinit_registered b default_func stderr m hm i self hi
  refine ⟨by rw [hpre]; exact hf, ?_⟩
  intro n
  induction n with
  | zero => rfl
  | succ n ih =>
    simp only [debug_mod_init_nested, hpre, hf, if_true]
    exact ih

/-- C25, the failing call: at the default build the structure at address 0,
whose function is `debug_mod_init` (handle 0), is registered by
`debug_mod_register`, and `debug_mod_init` is called on it. -/
theorem init_reenters_itself_witness :
    ((debug_mod_preinit Build.default none 2 init_registered 0).heap 0).func = some 0 ∧
    ∀ n, debug_mod_init_nested Build.default 0 (fun _ m _ _ => (m, 1)) none 2 n
      init_registered 0 [] = none :=
  init_reenters_itself Build.default 0 (fun _ m _ _ => (m, 1)) none 2 init_registered
    (Reachable.register _ 0 (Reachable.init init_heap)) 0 0 rfl rfl []

/-- The test `strncmp(a, b, n) == 0` compares the first `n` characters. -/
theorem strncmp_eq_take : ∀ (a b : List Char) (n : Nat),
    strncmp_eq a b n = true ↔ a.take n = b.take n := by
  intro a
  induction a with
  | nil =>
    intro b n
    cases n with
    | zero => simp [strncmp_eq]
    | succ n =>
      cases b with
      | nil => simp [strncmp_eq]
      | cons y ys => simp [strncmp_eq]
  | cons x xs ih =>
    intro b n
    cases n with
    | zero => simp [strncmp_eq]
    | succ n =>
      cases b with
      | nil => simp [strncmp_eq]
      | cons y ys =>
        simp only [strncmp_eq, List.take_succ_cons, List.cons.injEq, Bool.and_eq_true,
          beq_iff_eq]
        rw [ih ys n]

/-- The test of the feed rule holds exactly when none of the `continue`
statements of the loop of `incremental_search` is taken. -/
theorem rule_entry_ok_iff (t : Nat → search_entry) (prev : List Char) (p : Nat) (c : Char)
    (j : Nat) (id : List Char) (hid : (t j).id = some id) :
    rule_entry_ok t prev p c j = true ↔
      (¬ (t j).len < p ∧ ¬ c ≠ char_at id p ∧ ¬ strncmp_eq prev id p = false) := by
  have hs : (¬ strncmp_eq prev id p = false) ↔ id.take p = prev.take p := by
    rw [Bool.not_eq_false, strncmp_eq_take]
    exact eq_comm
  simp only [rule_entry_ok, hid, Bool.and_eq_true, decide_eq_true_eq, hs]
  constructor
  · rintro ⟨⟨h1, h2⟩, h3⟩
    exact ⟨by omega, fun h => h h3.symm, h2⟩
  · rintro ⟨h1, h2, h3⟩
    refine ⟨⟨by omega, h3⟩, ?_⟩
    by_contra h
    exact h2 (fun e => h e.symm)

/-- The loop of `incremental_search` finds the first element after `i` that
passes the test of the feed rule. -/
theorem search_loop_find (b : Build) (t : Nat → search_entry) (hD : b.DEBUG_MOD_MAX < 256)
    (c : Char) (old : List Char) (p : Nat) :
    ∀ n i, i < b.DEBUG_MOD_MAX → b.DEBUG_MOD_MAX ≤ i + n →
      search_loop b t c old p n i
        = some (match (List.range' (i + 1) (b.DEBUG_MOD_MAX - (i + 1))).find?
            (rule_entry_ok t old p c) with
          | some j => ⟨j, some (j, p + 1)⟩
          | none => ⟨b.DEBUG_MOD_MAX, none⟩) := by
  intro n
  induction n with
  | zero => intro i h1 h2; omega
  | succ n ih =>
    intro i hi hn
    have hnext : next_index i = i + 1 := next_index_eq (by omega)
    by_cases hlt : i + 1 < b.DEBUG_MOD_MAX
    · have hrange : List.range' (i + 1) (b.DEBUG_MOD_MAX - (i + 1))
          = (i + 1) :: List.range' (i + 1 + 1) (b.DEBUG_MOD_MAX - (i + 1 + 1)) := by
        have : b.DEBUG_MOD_MAX - (i + 1) = (b.DEBUG_MOD_MAX - (i + 1 + 1)) + 1 := by omega
        rw [this, List.range'_succ]
      have hrec := ih (i + 1) hlt (by omega)
      rw [hrange, List.find?_cons]
      cases hid : (t (i + 1)).id with
      | none =>
        have hno : rule_entry_ok t old p c (i + 1) = false := by
          simp [rule_entry_ok, hid]
        simp only [search_loop, hnext, hlt, hid, if_true, hno]
        exact hrec
      | some id =>
        have hiff := rule_entry_ok_iff t old p c (i + 1) id hid
        cases hok : rule_entry_ok t old p c (i + 1) with
        | true =>
          obtain ⟨h1, h2, h3⟩ := hiff.mp hok
          simp only [search_loop, hnext, hlt, hid, if_true, if_neg h1, if_neg h2, if_neg h3]
        | false =>
          have hfail : ¬ (¬ (t (i + 1)).len < p ∧ ¬ c ≠ char_at id p
              ∧ ¬ strncmp_eq old id p = false) := by
            intro h
            rw [hiff.mpr h] at hok
            cases hok
          simp only [search_loop, hnext, hlt, hid, if_true]
          by_cases h1 : (t (i + 1)).len < p
          · rw [if_pos h1]; exact hrec
          · by_cases h2 : c ≠ char_at id p
            · rw [if_neg h1, if_pos h2]; exact hrec
            · by_cases h3 : strncmp_eq old id p = false
              · rw [if_neg h1, if_neg h2, if_pos h3]; exact hrec
              · exact absurd ⟨h1, h2, h3⟩ hfail
    · have hend : i + 1 = b.DEBUG_MOD_MAX := by omega
      have hzero : b.DEBUG_MOD_MAX - (i + 1) = 0 := by omega
      simp [search_loop, hnext, hlt, hend, hzero]

/-- C21. One feed step follows the two-branch rule of the specification.  In a
match state with candidate `i` (an occupied element of a table whose length the
index type can count) and progress `p`, `incremental_search` with the
character `c` keeps candidate `i` with progress `p + 1` when `p` is below the
length of `i` and `c` is character `p` of its identifier; otherwise the new
candidate is the first index `j > i` whose element is occupied, has length at
least `p`, agrees with the identifier of `i` on the first `p` characters and
has character `p` equal to `c`, with progress `p + 1`, and `cursor` is `NULL`
when there is no such `j` (`feed_rule`).  On the table of the search test,
feeding `f` and then `r` after the reset gives candidate 0 with progress 1 and
then candidate 2 with progress 2, the rest of whose identifier is
`obnicate`. -/
theorem feed_follows_rule :
    (∀ (b : Build) (t : Nat → search_entry) (i p : Nat) (c : Char) (id : List Char),
      b.DEBUG_MOD_MAX < 256 → i < b.DEBUG_MOD_MAX → (t i).id = some id →
      incremental_search b t ⟨i, some (i, p)⟩ c
        = some (match feed_rule b t i p c with
          | some (j, q) => ⟨j, some (j, q)⟩
          | none => ⟨b.DEBUG_MOD_MAX, none⟩)) ∧
    reset_search Build.search search_demo_table = some ⟨0, some (0, 0)⟩ ∧
    incremental_search Build.search search_demo_table ⟨0, some (0, 0)⟩ 'f'
      = some ⟨0, some (0, 1)⟩ ∧
    incremental_search Build.search search_demo_table ⟨0, some (0, 1)⟩ 'r'
      = some ⟨2, some (2, 2)⟩ ∧
    driver_run Build.search search_demo_table ⟨0, some (0, 0)⟩ ['f', 'r']
      = some ⟨2, some (2, 2)⟩ ∧
    (search_demo_table 2).id.map (List.drop 2) = some ['o', 'b', 'n', 'i', 'c', 'a', 't', 'e'] := by
  refine ⟨?_, by decide, by decide, by decide, by decide, by decide⟩
  intro b t i p c id hD hi hid
  by_cases hcond : p < (t i).len ∧ c = char_at id p
  · simp only [incremental_search, feed_rule, hid, if_true]
    rw [if_pos hcond, if_pos hcond]
  · simp only [incremental_search, feed_rule, hid, if_true]
    rw [if_neg hcond, if_neg hcond, search_loop_find b t hD c id p 256 i hi (by omega)]
    cases (List.range' (i + 1) (b.DEBUG_MOD_MAX - (i + 1))).find? (rule_entry_ok t id p c) with
    | none => rfl
    | some j => rfl

/-- C21, the rule applied on the table of the search test: candidate 0 with
progress 1 and the character `r`. -/
theorem feed_follows_rule_witness :
    incremental_search Build.search search_demo_table ⟨0, some (0, 1)⟩ 'r'
      = some (match feed_rule Build.search search_demo_table 0 1 'r' with
        | some (j, q) => ⟨j, some (j, q)⟩
        | none => ⟨Build.search.DEBUG_MOD_MAX, none⟩) ∧
    feed_rule Build.search search_demo_table 0 1 'r' = some (2, 2) :=
  ⟨feed_follows_rule.1 Build.search search_demo_table 0 1 'r' ['f', 'o', 'o'] (by decide)
    (by decide) (by decide), by decide⟩

/-- C24 fails for the input character NUL.  The table is built from a registry
with the identifiers `foo` and `fo`.  After the reset and the characters `f`,
`o` the candidate is element 0 with progress 2; the character NUL does not
continue `foo`, and at element 1 (`fo`, length 2) the loop of
`incremental_search` reads `*cursor` at offset 2, the terminating NUL, finds it
equal to the input and advances: `cursor` is 3 characters behind the start of
an identifier of length 2. -/
theorem cursor_past_identifier :
    reset_search Build.default short_table = some ⟨0, some (0, 0)⟩ ∧
    driver_run Build.default short_table ⟨0, some (0, 0)⟩ ['f', 'o'] = some ⟨0, some (0, 2)⟩ ∧
    driver_run Build.default short_table ⟨0, some (0, 0)⟩ ['f', 'o', Char.ofNat 0]
      = some ⟨1, some (1, 3)⟩ ∧
    (short_table 1).id = some ['f', 'o'] ∧ (short_table 1).len = 2 := by
  refine ⟨by decide, by decide, by decide, by decide, by decide⟩

/-- One round of the driver keeps the search state on a first match, for every
input character other than NUL: the terminator restarts with the empty
input. -/
theorem driver_step_some_first (b : Build) (t : Nat → search_entry)
    (hD : b.DEBUG_MOD_MAX < 256) (hok : TableOk b t) (st : search_state) (c : Char)
    (hc : c ≠ Char.ofNat 0) (hst : ∃ s, FirstMatch b t s st) :
    ∃ st', driver_step b t st c = some st' ∧ ∃ s', FirstMatch b t s' st' := by
  by_cases hterm : c = search_terminator
  · obtain ⟨st', h1, h2⟩ := reset_search_first b t hD
    refine ⟨st', ?_, [], h2⟩
    simp only [driver_step, hterm, if_true]
    exact h1
  · obtain ⟨s, hs⟩ := hst
    obtain ⟨st', h1, h2⟩ := driver_step_first b t hD hok s st c hc hterm hs
    exact ⟨st', h1, s ++ [c], h2⟩

theorem driver_run_some_first (b : Build) (t : Nat → search_entry)
    (hD : b.DEBUG_MOD_MAX < 256) (hok : TableOk b t) :
    ∀ (cs : List Char) (st : search_state), Char.ofNat 0 ∉ cs → (∃ s, FirstMatch b t s st) →
      ∃ st', driver_run b t st cs = some st' ∧ ∃ s', FirstMatch b t s' st' := by
  intro cs
  induction cs with
  | nil => intro st _ hst; exact ⟨st, rfl, hst⟩
  | cons c cs ih =>
    intro st hnul hst
    have hc : c ≠ Char.ofNat 0 := fun e => hnul (by simp [e])
    obtain ⟨st1, h1, hst1⟩ := driver_step_some_first b t hD hok st c hc hst
    obtain ⟨st2, h2, hst2⟩ := ih st1 (fun e => hnul (by simp [e])) hst1
    refine ⟨st2, ?_, hst2⟩
    simp only [driver_run, h1]
    exact h2

/-- The cursor invariant for input without NUL.  For every table that
`build_search_table` returns and every sequence of characters other than NUL
(terminators included) processed by the driver after `reset_search`: the rounds
return, and whenever `cursor` is not `NULL` at the end it points into the
identifier of the occupied table element `mod_index`, at most the length of the
identifier behind its start. -/
theorem cursor_within_identifier (b : Build) (m : Mem) (t0 t : Nat → search_entry)
    (st0 : search_state) (hbuild : build_search_table b m t0 = some (t, st0))
    (cs : List Char) (hnul : Char.ofNat 0 ∉ cs) :
    ∃ st1 st, reset_search b t = some st1 ∧ driver_run b t st1 cs = some st ∧
      ∀ i p, st.cursor = some (i, p) →
        st.mod_index = i ∧ i < b.DEBUG_MOD_MAX ∧
        ∃ id, (t i).id = some id ∧ (t i).len = id.length ∧ p ≤ id.length := by
  obtain ⟨hD, hok⟩ := build_search_table_ok b m t0 t st0 hbuild
  obtain ⟨st1, h1, hst1⟩ := reset_search_first b t hD
  obtain ⟨st, h2, s, hst⟩ := driver_run_some_first b t hD hok cs st1 hnul ⟨[], hst1⟩
  refine ⟨st1, st, h1, h2, ?_⟩
  intro i p hcur
  rcases hst with ⟨i', hi', ⟨id, hid, hpre⟩, _, rfl⟩ | ⟨hnone, _⟩
  · simp only [Option.some.injEq, Prod.mk.injEq] at hcur
    obtain ⟨rfl, rfl⟩ := hcur
    exact ⟨rfl, hi', id, hid, hok i' hi' id hid, hpre.length_le⟩
  · rw [hnone] at hcur
    cases hcur

end DebugMod
